import Mathlib

/-!
# genetIC: constrained multi-level Gaussian field engine

A shallow embedding of the parts of `genetIC/src/ic.hpp`,
`genetIC/src/tools/numerics/cg.hpp`, `genetIC/src/cosmology/parameters.hpp` and
the legacy `constr_code/ICgauss_deriv_clean.cc` that the specification talks
about.

Conventions of the embedding:

* floating-point values are exact numbers: rationals (`ℚ`) in the generator, an
  ordered field `K` for `MyFloat` and a field `F` over it for `complex<MyFloat>`
  in the legacy program (square roots are then arguments);
* in the conjugate-gradient solver a quotient whose divisor is zero leaves the
  numbers, it is `none` (the call still ends at its `return x`, see `CallEnd`);
  elsewhere quotients are field quotients and the statements carry the
  hypotheses that keep the divisors away from zero;
* where the range of the machine integers is at stake (`initZoomGrid`, `fft_r`,
  `poiss`, `densityToPotential`), `int` is `Int` reduced with `toInt32`, `size_t` with
  `toSizeT`, `unsigned` with `toUnsigned`, `long` with `toInt64`; elsewhere the
  indices of the legacy program are exact integers (grids whose cells an `int`
  can count);
* a member function of the generator ends in an `Outcome`: it returned, or an
  exception left it, and in both cases the generator is in a known state;
* classes that are not among the sources (grids, fields, the constraint
  applicator, the random generator) are arguments, or are modelled from the
  specification, and say so.
-/

/-! ## Conjugate gradient (`tools/numerics/cg.hpp`) -/

namespace tools.numerics

/-- Modelled from the spec: `fields::Field` (src/simulation/field/field.hpp) is
not among the sources; a field is its ordered array of values. -/
abbrev Field := List ℚ

/-- Modelled from the spec: the inner product of two fields, the sum of the
products of their entries (the conjugate is the identity on real values). -/
def innerProduct (a b : Field) : ℚ :=
  (List.zipWith (fun u v => u * v) a b).sum

/-- Modelled from the spec: the maximum magnitude of the entries of a field. -/
def Maximum (a : Field) : ℚ :=
  a.foldl (fun m v => max m |v|) 0

/-- Modelled from the spec: scalar add-scaled, `x ← x + c·d`. -/
def addScaled (x d : Field) (c : ℚ) : Field :=
  List.zipWith (fun xi di => xi + c * di) x d

/-- Modelled from the spec: entrywise difference (`operator-=`). -/
def subField (a b : Field) : Field :=
  List.zipWith (fun u v => u - v) a b

/-- Modelled from the spec: entrywise negation (unary `operator-`). -/
def negField (a : Field) : Field :=
  a.map (fun u => -u)

/-- Modelled from the spec: multiplication by a scalar (`operator*=`). -/
def scaleField (a : Field) (c : ℚ) : Field :=
  a.map (fun u => c * u)

/-- The quotient of two numbers; `none` when the divisor is zero (the
floating-point quotient is then infinite or not a number). -/
def quotient (a b : ℚ) : Option ℚ :=
  if b = 0 then none else some (a / b)

/-- The body of the `for` loop of `conjugateGradient`, run for at most `fuel`
iterations from the state `(x, residual, direction)`. -/
def cgLoop (Q : Field → Field) (b : Field) (rtol atol scale : ℚ) :
    Nat → Field → Field → Field → Option Field
  | 0, x, _, _ => some x
  | fuel + 1, x, residual, direction =>
    let Q_direction := Q direction
    match quotient (-(innerProduct residual direction)) (innerProduct direction Q_direction) with
    | none => none
    | some alpha =>
      let x1 := addScaled x direction alpha
      let residual1 := subField (Q x1) b
      let norm := Maximum residual1
      if norm < rtol * scale ∨ norm < atol then some x1
      else
        match quotient (innerProduct residual1 Q_direction) (innerProduct direction Q_direction) with
        | none => none
        | some beta =>
          cgLoop Q b rtol atol scale fuel x1 residual1 (subField (scaleField direction beta) residual1)

/-- The function `conjugateGradient(Q, b, rtol, atol)`: the residual starts as a
copy of `b`, the direction as its negation, `x` as the zero field, and the loop
runs `dimension + 1` times, `dimension` being the number of cells. The result is
`none` when a quotient with a zero divisor was taken. -/
def conjugateGradient (Q : Field → Field) (b : Field) (rtol atol : ℚ) : Option Field :=
  let residual := b
  let direction := negField residual
  let x : Field := List.replicate b.length 0
  let scale := Maximum b
  if scale = 0 then some x
  else cgLoop Q b rtol atol scale (b.length + 1) x residual direction

/-- The three fields `(x, residual, direction)` that `conjugateGradient` holds
before its first iteration: `residual(b)`, `direction = -residual`, and `x`, a
field on the grid of `b` filled with zeros. -/
def conjugateGradient.initialState (b : Field) : Field × Field × Field :=
  let residual := b
  let direction := negField residual
  let x : Field := List.replicate b.length 0
  (x, residual, direction)

/-- The values `norm` that the loop of `conjugateGradient` computes, one per
iteration in the order of the iterations, the last of them being the one that
ends the loop when a tolerance is met; `none` when a quotient with a zero divisor
was taken. The recursion is the one of `cgLoop`. -/
def cgNorms (Q : Field → Field) (b : Field) (rtol atol scale : ℚ) :
    Nat → Field → Field → Field → Option (List ℚ)
  | 0, _, _, _ => some []
  | fuel + 1, x, residual, direction =>
    let Q_direction := Q direction
    match quotient (-(innerProduct residual direction)) (innerProduct direction Q_direction) with
    | none => none
    | some alpha =>
      let x1 := addScaled x direction alpha
      let residual1 := subField (Q x1) b
      let norm := Maximum residual1
      if norm < rtol * scale ∨ norm < atol then some [norm]
      else
        match quotient (innerProduct residual1 Q_direction) (innerProduct direction Q_direction) with
        | none => none
        | some beta =>
          (cgNorms Q b rtol atol scale fuel x1 residual1
            (subField (scaleField direction beta) residual1)).map (fun rest => norm :: rest)

/-- The residual maxima of a call `conjugateGradient(Q, b, rtol, atol)`, iteration
by iteration. -/
def conjugateGradient.norms (Q : Field → Field) (b : Field) (rtol atol : ℚ) :
    Option (List ℚ) :=
  if Maximum b = 0 then some []
  else cgNorms Q b rtol atol (Maximum b) (b.length + 1) (List.replicate b.length 0) b (negField b)

/-- How a call of `conjugateGradient` ends: at a `return x`, or with an exception
that leaves the function. The field handed back is `none` when a quotient with a
zero divisor was taken: the floating-point loop then goes on with entries that
are infinite or not a number, until its `break` or its bound `dimension + 1`,
and the `x` it returns holds no numbers. -/
inductive CallEnd where
  | returned (x : Option Field)
  | threw (what : String)
  deriving DecidableEq

/-- The `for` loop of `conjugateGradient` with the statements that follow it, run
for at most `fuel` iterations from the state `(x, residual, direction)`: the loop
is left by `break` or when `i` reaches its bound, then comes `return x`. -/
def cgLoop.callEnd (Q : Field → Field) (b : Field) (rtol atol scale : ℚ) :
    Nat → Field → Field → Field → CallEnd
  | 0, x, _, _ => .returned (some x)
  | fuel + 1, x, residual, direction =>
    let Q_direction := Q direction
    match quotient (-(innerProduct residual direction)) (innerProduct direction Q_direction) with
    | none => .returned none
    | some alpha =>
      let x1 := addScaled x direction alpha
      let residual1 := subField (Q x1) b
      let norm := Maximum residual1
      if norm < rtol * scale ∨ norm < atol then .returned (some x1)
      else
        match quotient (innerProduct residual1 Q_direction) (innerProduct direction Q_direction) with
        | none => .returned none
        | some beta =>
          cgLoop.callEnd Q b rtol atol scale fuel x1 residual1
            (subField (scaleField direction beta) residual1)

/-- The function `conjugateGradient(Q, b, rtol, atol)` with the way it ends: the
`return x` at `scale==0.0`, or the loop of `dimension + 1` iterations and the
`return x` after it. -/
def conjugateGradient.callEnd (Q : Field → Field) (b : Field) (rtol atol : ℚ) : CallEnd :=
  let residual := b
  let direction := negField residual
  let x : Field := List.replicate b.length 0
  let scale := Maximum b
  if scale = 0 then .returned (some x)
  else cgLoop.callEnd Q b rtol atol scale (b.length + 1) x residual direction

/-- Whether a sequence of residual maxima increases over ten consecutive
iterations: there are eleven consecutive entries, each larger than the one
before. -/
def increasesOverTenIterations (norms : List ℚ) : Bool :=
  (List.range norms.length).any fun i =>
    (List.range 10).all fun j =>
      match norms[i + j]?, norms[i + j + 1]? with
      | some u, some v => decide (u < v)
      | _, _ => false

end tools.numerics

/-! ## Strings -/

/-- The library function `strcasecmp`, as far as its callers look at it: 0 when
the two strings are equal up to the case of their letters, 1 otherwise. -/
def strcasecmp (a b : String) : Int :=
  if a.data.map Char.toLower = b.data.map Char.toLower then 0 else 1

/-! ## Machine integers -/

/-- Conversion to `int`: reduction modulo `2^32` into `[-2^31, 2^31)`. -/
def toInt32 (v : Int) : Int :=
  (v + 2147483648) % 4294967296 - 2147483648

/-- Conversion to `unsigned`: reduction modulo `2^32`. -/
def toUnsigned (v : Int) : Int :=
  v % 4294967296

/-- Conversion to `size_t`: reduction modulo `2^64`. -/
def toSizeT (v : Int) : Int :=
  v % 18446744073709551616

/-- Conversion to `long`: reduction modulo `2^64` into `[-2^63, 2^63)`. -/
def toInt64 (v : Int) : Int :=
  (v + 9223372036854775808) % 18446744073709551616 - 9223372036854775808

/-! ## Grids of the multi-level context -/

namespace grids

/-- Modelled from the spec: `grids::Grid` is not among the sources. A grid has an
integer side length, a physical box length, a low-corner offset, and the list of
its flagged cells (what `getFlaggedCells` hands out). -/
structure Grid where
  size : Nat
  boxsize : ℚ
  offsetLower : ℚ × ℚ × ℚ
  flags : List Nat
  deriving DecidableEq

/-- The number of cells, `size3`. -/
def Grid.size3 (g : Grid) : Nat :=
  g.size * g.size * g.size

/-- Modelled from the spec: the cell size `dx = L/N`. -/
def Grid.dx (g : Grid) : ℚ :=
  g.boxsize / g.size

/-- Modelled from the spec: given the index `i` return the cell coordinates
`(x,y,z)` as `(i/N²) mod N`, `(i/N) mod N`, `i mod N`. -/
def Grid.getCellCoordinate (g : Grid) (id : Nat) : Int × Int × Int :=
  (((id / (g.size * g.size) % g.size : Nat) : Int), ((id / g.size % g.size : Nat) : Int),
    ((id % g.size : Nat) : Int))

/-- Modelled from the spec: the flagged cells of the grid. -/
def Grid.getFlaggedCells (g : Grid) : List Nat :=
  g.flags

/-- Modelled from the spec: whether some cell of the grid is flagged. -/
def Grid.hasFlaggedCells (g : Grid) : Bool :=
  !g.flags.isEmpty

/-- Modelled from the spec: the physical footprint of the grid `g`, the cube of
side `boxsize` whose low corner is `offsetLower`, lies within the footprint of
the grid `parent`. -/
def Grid.footprintWithin (g parent : Grid) : Prop :=
  (parent.offsetLower.1 ≤ g.offsetLower.1
    ∧ g.offsetLower.1 + g.boxsize ≤ parent.offsetLower.1 + parent.boxsize)
  ∧ (parent.offsetLower.2.1 ≤ g.offsetLower.2.1
    ∧ g.offsetLower.2.1 + g.boxsize ≤ parent.offsetLower.2.1 + parent.boxsize)
  ∧ (parent.offsetLower.2.2 ≤ g.offsetLower.2.2
    ∧ g.offsetLower.2.2 + g.boxsize ≤ parent.offsetLower.2.2 + parent.boxsize)

instance (g parent : Grid) : Decidable (g.footprintWithin parent) := by
  unfold Grid.footprintWithin
  infer_instance

/-- Modelled from the spec: the wrapped difference of two coordinates under the
periodic boundary: add or subtract `L` to bring `x0 - x1` back towards the box. -/
def Grid.getWrappedDelta (g : Grid) (x0 x1 : ℚ) : ℚ :=
  let result := x0 - x1
  let result := if result > g.boxsize / 2 then result - g.boxsize else result
  if result < -g.boxsize / 2 then result + g.boxsize else result

end grids

/-! ## The generator (`ic.hpp`) -/

/-- A registered constraint: the covector (one field per level), the value wanted
after the modification and the value attained when it was registered. -/
structure Constraint where
  alpha : List (List ℚ)
  target : ℚ
  initial : ℚ
  deriving DecidableEq

/-- The members of `ICGenerator` that the grid, field and constraint commands
read or write. `outputField` holds one array of Fourier modes per level;
`randomSeed` is the seed held by `randomFieldGenerator`. -/
structure ICGenerator where
  multiLevelContext : List grids.Grid
  outputField : List (List ℚ)
  constraintApplicator : List Constraint
  randomSeed : Int
  haveInitialisedRandomComponent : Bool
  allowStrayParticles : Bool
  zoomParticleArray : List (List Nat)
  x0 : ℚ
  y0 : ℚ
  z0 : ℚ
  deriving DecidableEq

/-- How a member function ends: it returns, or an exception leaves it; the
generator is in the given state afterwards. -/
inductive Outcome (α : Type) where
  | returned (value : α) (state : ICGenerator)
  | threw (what : String) (state : ICGenerator)
  deriving DecidableEq

namespace Outcome

/-- The state of the generator after the call. -/
def state {α : Type} : Outcome α → ICGenerator
  | returned _ s => s
  | threw _ s => s

/-- The message of the exception, if one escaped. -/
def exception {α : Type} : Outcome α → Option String
  | returned _ _ => none
  | threw w _ => some w

/-- The value handed back, if the call returned. -/
def value? {α : Type} : Outcome α → Option α
  | returned v _ => some v
  | threw _ _ => none

end Outcome

namespace ICGenerator

/-- The state the constructor leaves: no level, nothing drawn, strays not allowed. -/
def new : ICGenerator :=
  { multiLevelContext := [], outputField := [], constraintApplicator := [], randomSeed := 0,
    haveInitialisedRandomComponent := false, allowStrayParticles := false,
    zoomParticleArray := [], x0 := 0, y0 := 0, z0 := 0 }

/-- The number of levels, `multiLevelContext.getNumLevels()`. -/
def getNumLevels (s : ICGenerator) : Nat :=
  s.multiLevelContext.length

/-- The command `setStraysOn`. -/
def setStraysOn (s : ICGenerator) : ICGenerator :=
  { s with allowStrayParticles := true }

/-- The function `addLevelToContext`, forwarding to `multiLevelContext.addLevel`.
Modelled from the spec: the context appends a grid of side `nside`, box length
`size` and low corner `offset`, and the output field gets a zeroed field on it. -/
def addLevelToContext (s : ICGenerator) (size : ℚ) (nside : Nat) (offset : ℚ × ℚ × ℚ) :
    ICGenerator :=
  { s with
    multiLevelContext :=
      s.multiLevelContext ++ [{ size := nside, boxsize := size, offsetLower := offset, flags := [] }]
    outputField := s.outputField ++ [List.replicate (nside * nside * nside) 0] }

/-- The function `initBaseGrid` (the particle mapper is not part of the state). Its
first statement is `assert(boxSize > 0)`; a failed `assert` ends the call. -/
def initBaseGrid (s : ICGenerator) (boxSize : ℚ) (n : Nat) : Outcome Unit :=
  if ¬ (boxSize > 0) then
    .threw "assert(boxSize > 0)" s
  else if s.getNumLevels > 0 then
    .threw "Cannot re-initialize the base grid" s
  else if s.haveInitialisedRandomComponent then
    .threw "Trying to initialize a grid after the random field was already drawn" s
  else
    .returned () (s.addLevelToContext boxSize n (0, 0, 0))

/-- The function `storeCurrentCellFlagsAsZoomMask(level)`: make room for the
level's list if it is missing, then overwrite entry `level - 1` with the flagged
cells of the grid above. A failed `assert`, or a level that does not exist, ends
the call. -/
def storeCurrentCellFlagsAsZoomMask (s : ICGenerator) (level : Nat) : Outcome Unit :=
  if level = 0 then .threw "assert(level>0)" s
  else
    let zoomParticleArray :=
      if s.zoomParticleArray.length < level then s.zoomParticleArray ++ [[]]
      else s.zoomParticleArray
    let s1 := { s with zoomParticleArray := zoomParticleArray }
    if zoomParticleArray.length < level then .threw "assert(zoomParticleArray.size()>=level)" s1
    else
      match s.multiLevelContext[level - 1]? with
      | none => .threw "getGridForLevel: no such level" s1
      | some gridAbove =>
        .returned () { s1 with
          zoomParticleArray := zoomParticleArray.set (level - 1) gridAbove.getFlaggedCells }

/-- The test of the trimming loop of `initZoomGridWithOriginAt`: the cell lies in
the window `[x0,x1) × [y0,y1) × [z0,z1)`. -/
def insideWindow (gridAbove : grids.Grid) (x0 y0 z0 x1 y1 z1 : Int) (id : Nat) : Bool :=
  let (xp, yp, zp) := gridAbove.getCellCoordinate id
  !(decide (xp < x0) || decide (yp < y0) || decide (zp < z0) ||
    decide (xp ≥ x1) || decide (yp ≥ y1) || decide (zp ≥ z1))

/-- The function `initZoomGridWithOriginAt(x0, y0, z0, zoomfac, n)`. -/
def initZoomGridWithOriginAt (s : ICGenerator) (x0 y0 z0 : Int) (zoomfac n : Nat) :
    Outcome Unit :=
  match s.multiLevelContext.getLast? with
  | none => .threw "getGridForLevel: no such level" s
  | some gridAbove =>
    let nAbove := toInt32 gridAbove.size
    match storeCurrentCellFlagsAsZoomMask s s.getNumLevels with
    | .threw what s1 => .threw what s1
    | .returned _ s1 =>
      let newLevelZoomParticleArray := s1.zoomParticleArray.getLast?.getD []
      if toInt32 zoomfac = 0 then .threw "division by zero" s1
      else
        let nCoarseCellsOfZoomGrid := Int.tdiv nAbove (toInt32 zoomfac)
        let x1 := x0 + nCoarseCellsOfZoomGrid
        let y1 := y0 + nCoarseCellsOfZoomGrid
        let z1 := z0 + nCoarseCellsOfZoomGrid
        let trimmedParticleArray := newLevelZoomParticleArray.filter
          (fun id => insideWindow gridAbove x0 y0 z0 x1 y1 z1 id || s1.allowStrayParticles)
        let s2 := { s1 with
          zoomParticleArray := s1.zoomParticleArray.dropLast ++ [trimmedParticleArray] }
        let newOffsetLower : ℚ × ℚ × ℚ :=
          (gridAbove.offsetLower.1 + x0 * gridAbove.dx,
           gridAbove.offsetLower.2.1 + y0 * gridAbove.dx,
           gridAbove.offsetLower.2.2 + z0 * gridAbove.dx)
        .returned () (s2.addLevelToContext (gridAbove.boxsize / zoomfac) n newOffsetLower)

/-- The bounding box found by the loop "find boundaries" of `initZoomGrid`. -/
structure Boundaries where
  x0 : Int
  y0 : Int
  z0 : Int
  x1 : Int
  y1 : Int
  z1 : Int
  deriving DecidableEq

/-- The loop "find boundaries": start from `x0 = y0 = z0 = size`,
`x1 = y1 = z1 = 0` and widen with every flagged cell. -/
def findBoundaries (gridAbove : grids.Grid) (cells : List Nat) : Boundaries :=
  cells.foldl
    (fun b id =>
      let (x, y, z) := gridAbove.getCellCoordinate id
      { x0 := if x < b.x0 then x else b.x0
        y0 := if y < b.y0 then y else b.y0
        z0 := if z < b.z0 then z else b.z0
        x1 := if x > b.x1 then x else b.x1
        y1 := if y > b.y1 then y else b.y1
        z1 := if z > b.z1 then z else b.z1 })
    { x0 := toInt32 gridAbove.size, y0 := toInt32 gridAbove.size, z0 := toInt32 gridAbove.size,
      x1 := 0, y1 := 0, z1 := 0 }

/-- The lower-left corner along one axis: `(x0 + x1) / 2 - nAbove / (2 * zoomfac)`
(the quotient is taken in `size_t`, the result stored in an `int`), clamped to
`[0, nAbove - nAbove / zoomfac]`. -/
def zoomOrigin (nAbove : Int) (zoomfac : Nat) (lo hi : Int) : Int :=
  let x := toInt32 (toSizeT (toSizeT (Int.tdiv (toInt32 (lo + hi)) 2)
    - toSizeT nAbove / toSizeT (2 * zoomfac)))
  let x := if x < 0 then 0 else x
  let top := toSizeT (toSizeT nAbove - toSizeT nAbove / (zoomfac : Int))
  if toSizeT (toUnsigned x) > top then toInt32 top else x

/-- The function `initZoomGrid(zoomfac, n)`. A quotient by a zero divisor (a zoom
factor 0, or `2 * zoomfac` wrapping to 0) ends the call. -/
def initZoomGrid (s : ICGenerator) (zoomfac n : Nat) : Outcome Unit :=
  if s.haveInitialisedRandomComponent then
    .threw "Trying to initialize a grid after the random field was already drawn" s
  else if s.getNumLevels < 1 then
    .threw "Cannot initialise a zoom grid before initialising the base grid" s
  else
    match s.multiLevelContext.getLast? with
    | none => .threw "getGridForLevel: no such level" s
    | some gridAbove =>
      let nAbove := toInt32 gridAbove.size
      match storeCurrentCellFlagsAsZoomMask s s.getNumLevels with
      | .threw what s1 => .threw what s1
      | .returned _ s1 =>
        let newLevelZoomParticleArray := s1.zoomParticleArray.getLast?.getD []
        let b := findBoundaries gridAbove newLevelZoomParticleArray
        if zoomfac = 0 then .threw "division by zero" s1
        else
          let n_user := toInt32 (toSizeT nAbove / (zoomfac : Int))
          if (b.x1 - b.x0 > n_user ∨ b.y1 - b.y0 > n_user ∨ b.z1 - b.z0 > n_user)
              ∧ s1.allowStrayParticles = false then
            .threw ("Zoom particles do not fit in specified sub-box. Decrease zoom, or choose "
              ++ "different particles. (NB wrapping not yet implemented)") s1
          else if toSizeT (2 * zoomfac) = 0 then .threw "division by zero" s1
          else
            initZoomGridWithOriginAt s1 (zoomOrigin nAbove zoomfac b.x0 b.x1)
              (zoomOrigin nAbove zoomfac b.y0 b.y1) (zoomOrigin nAbove zoomfac b.z0 b.z1) zoomfac n

/-- The function `initialiseRandomComponent`. The random generator and the power
spectrum are not among the sources: `realisation seed grids` is the content that
`randomFieldGenerator.draw()` followed by `applyPowerSpec()` leaves in the output
field for the seed held by the generator. -/
def initialiseRandomComponent (realisation : Int → List grids.Grid → List (List ℚ))
    (s : ICGenerator) : Outcome Unit :=
  if s.haveInitialisedRandomComponent then
    .threw "Trying to re-draw the random field after it was already initialised" s
  else
    .returned () { s with
      outputField := realisation s.randomSeed s.multiLevelContext
      haveInitialisedRandomComponent := true }

/-- Modelled from the spec: the chi² of one level, the sum of `|a_i|² / P(k_i)`
over the modes, skipping the zero mode (index 0). -/
def chi2OfLevel (a P : List ℚ) : ℚ :=
  ((List.zipWith (fun ai Pi => ai * ai / Pi) a P).drop 1).sum

/-- Modelled from the spec: `outputField.getChi2()`, the total chi² summed over
the levels; `covariance level` is the spectrum `P_ℓ` of the level. -/
def getChi2 (covariance : Nat → List ℚ) (s : ICGenerator) : ℚ :=
  (s.outputField.enum.map (fun la => chi2OfLevel la.2 (covariance la.1))).sum

/-- Modelled from the spec: `constraintApplicator.applyModifications()`, step 5 of
the Hoffman–Ribak projection, `δ ← δ + Σ_j w_j · β_j` with `β_j = C α_j`; the
weights `w` (the solution of `M · w = t − i`) come from `weights`. -/
def applyModifications (covariance : Nat → List ℚ) (weights : List Constraint → List ℚ)
    (s : ICGenerator) : ICGenerator :=
  { s with
    outputField :=
      (List.zip s.constraintApplicator (weights s.constraintApplicator)).foldl
        (fun field cw =>
          field.enum.map (fun la =>
            List.zipWith (fun d b => d + cw.2 * b) la.2
              (List.zipWith (fun P a => P * a) (covariance la.1) (cw.1.alpha.getD la.1 []))))
        s.outputField }

/-- The function `fixConstraints`. -/
def fixConstraints (realisation : Int → List grids.Grid → List (List ℚ))
    (covariance : Nat → List ℚ) (weights : List Constraint → List ℚ) (s : ICGenerator) :
    Outcome Unit :=
  if s.haveInitialisedRandomComponent = false then
    match initialiseRandomComponent realisation s with
    | .threw what s1 => .threw what s1
    | .returned _ s1 => .returned () (applyModifications covariance weights s1)
  else
    .returned () (applyModifications covariance weights s)

/-- The function `write`, up to the choice of the writer: the writers are outside
the core, what remains is the draw of a field not yet drawn. -/
def write (realisation : Int → List grids.Grid → List (List ℚ)) (s : ICGenerator) :
    Outcome Unit :=
  if s.haveInitialisedRandomComponent = false then initialiseRandomComponent realisation s
  else .returned () s

/-- The function `done`; the value handed back is the delta-chi² it prints,
`post_constraint_chi2 - pre_constraint_chi2`. -/
def done (realisation : Int → List grids.Grid → List (List ℚ)) (covariance : Nat → List ℚ)
    (weights : List Constraint → List ℚ) (s : ICGenerator) : Outcome ℚ :=
  let pre_constraint_chi2 := getChi2 covariance s
  match fixConstraints realisation covariance weights s with
  | .threw what s1 => .threw what s1
  | .returned _ s1 =>
    let post_constraint_chi2 := getChi2 covariance s1
    match write realisation s1 with
    | .threw what s2 => .threw what s2
    | .returned _ s2 => .returned (post_constraint_chi2 - pre_constraint_chi2) s2

/-- Modelled from the spec: the inner product of two multi-level fields, the sum
of the inner products of the levels. -/
def innerProduct (a b : List (List ℚ)) : ℚ :=
  (List.zipWith tools.numerics.innerProduct a b).sum

/-- The function `constrain(name, type, value)`. `calcConstraint name` is the
Fourier-space covector that the constraint generator (not among the sources)
builds for the name. -/
def constrain (realisation : Int → List grids.Grid → List (List ℚ))
    (calcConstraint : String → List (List ℚ)) (s : ICGenerator) (name type : String)
    (value : ℚ) : Outcome Unit :=
  let drawn : Outcome Unit :=
    if s.haveInitialisedRandomComponent = false then initialiseRandomComponent realisation s
    else .returned () s
  match drawn with
  | .threw what s1 => .threw what s1
  | .returned _ s1 =>
    if strcasecmp type "relative" ≠ 0 ∧ strcasecmp type "absolute" ≠ 0 then
      .threw "Constraint type must be either 'relative' or 'absolute'" s1
    else
      let relative : Bool := strcasecmp type "relative" = 0
      let vec := calcConstraint name
      let initv := innerProduct vec s1.outputField
      let constraint := if relative then value * initv else value
      .returned () { s1 with
        constraintApplicator :=
          s1.constraintApplicator ++ [{ alpha := vec, target := constraint, initial := initv }] }

/-- The inner loop of `reverseSmallK` on one level: for `i = 0 .. N-1` the mode
`i` is negated when `k2 < k2max && k2 != 0`. -/
def reverseSmallKOnLevel (k2 : Nat → ℚ) (k2max : ℚ) (N : Nat) (fieldData : List ℚ) : List ℚ :=
  (List.range N).foldl
    (fun data i => if k2 i < k2max ∧ k2 i ≠ 0 then data.set i (-(data.getD i 0)) else data)
    fieldData

/-- The function `reverseSmallK(kmax)`. `getFourierCellKSquared grid i` is the
squared wavenumber of the Fourier cell `i` (the grid class is not among the
sources). -/
def reverseSmallK (getFourierCellKSquared : grids.Grid → Nat → ℚ) (s : ICGenerator)
    (kmax : ℚ) : ICGenerator :=
  let k2max := kmax * kmax
  { s with
    outputField := s.outputField.enum.map (fun la =>
      match s.multiLevelContext[la.1]? with
      | none => la.2
      | some grid => reverseSmallKOnLevel (getFourierCellKSquared grid) k2max grid.size3 la.2) }

/-- The loop "copy back the old field" of `reseedSmallK` on one level: for
`i = 0 .. N-1` the mode `i` of the new field is overwritten with the saved one
when `k2 > k2max && k2 != 0`. -/
def copyBackOnLevel (k2 : Nat → ℚ) (k2max : ℚ) (N : Nat) (fieldOriginal field : List ℚ) :
    List ℚ :=
  (List.range N).foldl
    (fun data i => if k2 i > k2max ∧ k2 i ≠ 0 then data.set i (fieldOriginal.getD i 0) else data)
    field

/-- The function `reseedSmallK(kmax, seed)`: save the fields, seed the generator,
call `initialiseRandomComponent`, then copy the saved modes back. -/
def reseedSmallK (realisation : Int → List grids.Grid → List (List ℚ))
    (getFourierCellKSquared : grids.Grid → Nat → ℚ) (s : ICGenerator) (kmax : ℚ) (seed : Int) :
    Outcome Unit :=
  let k2max := kmax * kmax
  let fieldCopies := s.outputField
  match initialiseRandomComponent realisation { s with randomSeed := seed } with
  | .threw what s1 => .threw what s1
  | .returned _ s1 =>
    .returned () { s1 with
      outputField := s1.outputField.enum.map (fun la =>
        match s1.multiLevelContext[la.1]? with
        | none => la.2
        | some grid =>
          copyBackOnLevel (getFourierCellKSquared grid) k2max grid.size3
            (fieldCopies.getD la.1 []) la.2) }

/-- The loop of `deepestLevelWithParticlesSelected`, entered with the index `i`:
`for (size_t i = ...; i >= 0; --i)`. The index is unsigned, the test `i >= 0`
never fails; below level 0 the index wraps to `2^64 - 1`, a level that does not
exist. -/
def deepestLevelFrom (s : ICGenerator) : Nat → Outcome Int
  | 0 =>
    match s.multiLevelContext[0]? with
    | none => .threw "getGridForLevel: no such level" s
    | some grid =>
      if grid.hasFlaggedCells then .returned 0 s
      else .threw "getGridForLevel: no such level" s
  | i + 1 =>
    match s.multiLevelContext[i + 1]? with
    | none => .threw "getGridForLevel: no such level" s
    | some grid =>
      if grid.hasFlaggedCells then .returned (toInt32 (i + 1)) s
      else deepestLevelFrom s i

/-- The function `deepestLevelWithParticlesSelected`. -/
def deepestLevelWithParticlesSelected (s : ICGenerator) : Outcome Int :=
  if s.getNumLevels = 0 then .threw "getGridForLevel: no such level" s
  else deepestLevelFrom s (s.getNumLevels - 1)

/-- The level indices that the loop of `deepestLevelWithParticlesSelected`,
entered with the index `i`, hands to `getGridForLevel`, in the order of the
queries: the loop goes on to `i - 1` (a `size_t`, so `0 - 1` is `2^64 - 1`) while
the grid has no flagged cell, and ends at a level that does not exist. -/
def deepestLevelQueriesFrom (s : ICGenerator) : Nat → List Int
  | 0 =>
    match s.multiLevelContext[0]? with
    | none => [0]
    | some grid =>
      if grid.hasFlaggedCells then [0]
      else [0, toSizeT (0 - 1)]
  | i + 1 =>
    match s.multiLevelContext[i + 1]? with
    | none => [((i + 1 : Nat) : Int)]
    | some grid =>
      if grid.hasFlaggedCells then [((i + 1 : Nat) : Int)]
      else ((i + 1 : Nat) : Int) :: deepestLevelQueriesFrom s i

/-- The level indices that a call of `deepestLevelWithParticlesSelected` hands to
`getGridForLevel`. -/
def deepestLevelWithParticlesSelected.queries (s : ICGenerator) : List Int :=
  if s.getNumLevels = 0 then [toSizeT (0 - 1)]
  else deepestLevelQueriesFrom s (s.getNumLevels - 1)

/-- The function `getCentre`. `getCellCentroid grid id` is the centroid of the
cell (the grid class is not among the sources); `get_wrapped_delta` delegates to
`getWrappedDelta` of the grid of level 0. -/
def getCentre (getCellCentroid : grids.Grid → Nat → ℚ × ℚ × ℚ) (s : ICGenerator) :
    Outcome Unit :=
  let s0 := { s with x0 := 0, y0 := 0, z0 := 0 }
  match deepestLevelWithParticlesSelected s0 with
  | .threw what s1 => .threw what s1
  | .returned level s1 =>
    match s1.multiLevelContext[level.toNat]?, s1.multiLevelContext[0]? with
    | some grid, some grid0 =>
      let particleArray := grid.getFlaggedCells
      match particleArray[0]? with
      | none => .threw "particleArray[0]: no such cell" s1
      | some p0 =>
        let p0_location := getCellCentroid grid p0
        let sums := particleArray.foldl
          (fun (acc : ℚ × ℚ × ℚ) p =>
            let pi_location := getCellCentroid grid p
            (acc.1 + grid0.getWrappedDelta pi_location.1 p0_location.1,
             acc.2.1 + grid0.getWrappedDelta pi_location.2.1 p0_location.2.1,
             acc.2.2 + grid0.getWrappedDelta pi_location.2.2 p0_location.2.2))
          (s1.x0, s1.y0, s1.z0)
        .returned () { s1 with
          x0 := sums.1 / particleArray.length
          y0 := sums.2.1 / particleArray.length
          z0 := sums.2.2 / particleArray.length }
    | _, _ => .threw "getGridForLevel: no such level" s1

/-- A call of one of the three functions that add a level. -/
inductive GridCall where
  | initBaseGrid (boxSize : ℚ) (n : Nat)
  | initZoomGrid (zoomfac n : Nat)
  | initZoomGridWithOriginAt (x0 y0 z0 : Int) (zoomfac n : Nat)
  deriving DecidableEq

/-- The outcome of a call on the generator `s`. -/
def GridCall.run (s : ICGenerator) : GridCall → Outcome Unit
  | .initBaseGrid boxSize n => s.initBaseGrid boxSize n
  | .initZoomGrid zoomfac n => s.initZoomGrid zoomfac n
  | .initZoomGridWithOriginAt x0 y0 z0 zoomfac n => s.initZoomGridWithOriginAt x0 y0 z0 zoomfac n

/-- The generator after a sequence of calls, each made on the state that the one
before left, whether it returned or threw. -/
def runCalls (s : ICGenerator) (calls : List GridCall) : ICGenerator :=
  calls.foldl (fun s c => (c.run s).state) s

end ICGenerator

/-! ## The legacy program (`constr_code/ICgauss_deriv_clean.cc`) -/

namespace constr_code

/-- The entry `grid_struct` of the cell table: the cell's grid indices and its
signed indices (`absval` and `delta` are not used by what follows). -/
structure grid_struct where
  grid : Int × Int × Int
  coords : Int × Int × Int
  deriving DecidableEq

/-- The class `Grid`: the side length and the table `cells`. -/
structure Grid where
  size : Int
  cells : List grid_struct
  deriving DecidableEq

/-- The signed index of the constructor: `gg = g; if (g > n/2) gg = g - n`. -/
def signedIndex (n g : Int) : Int :=
  if g > Int.tdiv n 2 then g - n else g

/-- The constructor `Grid::Grid(n)`: three nested loops fill `cells` in the order
of the index `(g1*n+g2)*n+g3`. -/
def Grid.new (n : Nat) : Grid :=
  { size := n
    cells := (List.range n).flatMap fun (g1 : Nat) => (List.range n).flatMap fun (g2 : Nat) =>
      (List.range n).map fun (g3 : Nat) =>
        { grid := ((g1 : Int), (g2 : Int), (g3 : Int))
          coords := (signedIndex n g1, signedIndex n g2, signedIndex n g3) } }

/-- The loop `while(x > size-1){x-=size;}`, run for at most `fuel` rounds. -/
def wrapDown (size : Int) : Nat → Int → Int
  | 0, x => x
  | fuel + 1, x => if x > size - 1 then wrapDown size fuel (x - size) else x

/-- The loop `while(x<0){x+=size;}`, run for at most `fuel` rounds. -/
def wrapUp (size : Int) : Nat → Int → Int
  | 0, x => x
  | fuel + 1, x => if x < 0 then wrapUp size fuel (x + size) else x

/-- One coordinate of `check_pbc_grid`: both loops, each with as many rounds as
the magnitude of its entry value (enough for every `size ≥ 1`). -/
def check_pbc (size x : Int) : Int :=
  let x1 := wrapDown size x.natAbs x
  wrapUp size x1.natAbs x1

/-- The function `Grid::check_pbc_grid`. -/
def Grid.check_pbc_grid (g : Grid) (grid : Int × Int × Int) : Int × Int × Int :=
  (check_pbc g.size grid.1, check_pbc g.size grid.2.1, check_pbc g.size grid.2.2)

/-- The function `Grid::get_index`. -/
def Grid.get_index (g : Grid) (x y z : Int) : Int :=
  (x * g.size + y) * g.size + z

/-- The entry of an array at a `long` index; `none` outside the array. -/
def at? {α : Type} (l : List α) (i : Int) : Option α :=
  if i < 0 then none else l[i.toNat]?

/-- The function `Grid::find_next_ind`; `none` when `index` is outside the table. -/
def Grid.find_next_ind (g : Grid) (index : Int) (step : Int × Int × Int) : Option Int :=
  (at? g.cells index).map fun c =>
    let grid := g.check_pbc_grid (c.grid.1 + step.1, c.grid.2.1 + step.2.1, c.grid.2.2 + step.2.2)
    g.get_index grid.1 grid.2.1 grid.2.2

section Numbers

variable {K : Type} [LinearOrderedField K]

/-- The function `get_wrapped_delta`. -/
def get_wrapped_delta (x0 x1 boxlen : K) : K :=
  let result := x0 - x1
  let result := if result > boxlen / 2 then result - boxlen else result
  if result < -boxlen / 2 then result + boxlen else result

/-- The displacement `(x0, y0, z0)` that `cen_deriv4_alpha` computes for a cell. -/
def cellDisplacement (c : grid_struct) (dx xc yc zc boxlen : K) : K × K × K :=
  (get_wrapped_delta (dx * (c.coords.1 : K)) xc boxlen,
   get_wrapped_delta (dx * (c.coords.2.1 : K)) yc boxlen,
   get_wrapped_delta (dx * (c.coords.2.2 : K)) zc boxlen)

/-- The function `getCentre` of the legacy program; `none` when an entry of
`part_arr` is outside the table (the list holds the first `n_part_arr` entries). -/
def getCentre (part_arr : List Int) (boxlen dx : K) (pGrid : Grid) : Option (K × K × K) :=
  match part_arr.head? with
  | none => none
  | some p0 =>
    match at? pGrid.cells p0 with
    | none => none
    | some c0 =>
      let xa : K := (c0.coords.1 : K) * dx
      let ya : K := (c0.coords.2.1 : K) * dx
      let za : K := (c0.coords.2.2 : K) * dx
      let sums : Option (K × K × K) := part_arr.foldl
        (fun acc p =>
          match acc, at? pGrid.cells p with
          | some (x0, y0, z0), some c =>
            some (x0 + get_wrapped_delta ((c.coords.1 : K) * dx) xa boxlen,
                  y0 + get_wrapped_delta ((c.coords.2.1 : K) * dx) ya boxlen,
                  z0 + get_wrapped_delta ((c.coords.2.2 : K) * dx) za boxlen)
          | _, _ => none)
        (some (0, 0, 0))
      sums.map fun xyz =>
        (xyz.1 / (part_arr.length : K) + xa, xyz.2.1 / (part_arr.length : K) + ya,
         xyz.2.2 / (part_arr.length : K) + za)

variable {F : Type} [Field F] [StarRing F] [Algebra K F]

/-- The statement `alpha[ind] += v`; `none` when `ind` is outside the array. -/
def addAt (alpha : List F) (ind : Int) (v : F) : Option (List F) :=
  (at? alpha ind).map fun old => alpha.set ind.toNat (old + v)

/-- The statement `rval[ind] = v`; `none` when `ind` is outside the array. -/
def setAt (rval : List F) (ind : Int) (v : F) : Option (List F) :=
  (at? rval ind).map fun _ => rval.set ind.toNat v

/-- The unit step along the axis `d` (`step[d] = s`). -/
def stepAlong (d : Int) (s : Int) : Int × Int × Int :=
  if d = 0 then (s, 0, 0) else if d = 1 then (0, s, 0) else (0, 0, s)

/-- One of the two halves of `cen_deriv4_alpha`: find the four neighbours along
the axis `d` and add `w·a`, `w·b`, `-w·b`, `-w·a` at `ind_m2, ind_m1, ind_p1, ind_p2`. -/
def stencilAlong (grid : Grid) (index : Int) (alpha : List F) (d : Int) (w a b : K) :
    Option (List F) := do
  let ind_m1 ← grid.find_next_ind index (stepAlong d (-1))
  let ind_p1 ← grid.find_next_ind index (stepAlong d 1)
  let ind_m2 ← grid.find_next_ind ind_m1 (stepAlong d (-1))
  let ind_p2 ← grid.find_next_ind ind_p1 (stepAlong d 1)
  let alpha ← addAt alpha ind_m2 (algebraMap K F (w * a))
  let alpha ← addAt alpha ind_m1 (algebraMap K F (w * b))
  let alpha ← addAt alpha ind_p1 (algebraMap K F (-w * b))
  addAt alpha ind_p2 (algebraMap K F (-w * a))

/-- The function `cen_deriv4_alpha`; `none` when `direc` is not an axis (the
program exits) or an index is outside its array. -/
def cen_deriv4_alpha (grid : Grid) (index : Int) (alpha : List F) (dx : K) (direc : Int)
    (xc yc zc boxlen : K) : Option (List F) :=
  match at? grid.cells index with
  | none => none
  | some c =>
    let r := cellDisplacement c dx xc yc zc boxlen
    let x0 := r.1
    let y0 := r.2.1
    let z0 := r.2.2
    let a : K := -1 / 12 / dx
    let b : K := 2 / 3 / dx
    let choice : Option (Int × Int × K × K) :=
      if direc = 0 then some (1, 2, y0, z0)
      else if direc = 1 then some (2, 0, z0, x0)
      else if direc = 2 then some (0, 1, x0, y0)
      else none
    match choice with
    | none => none
    | some (d2, d1, c1, c2) =>
      match stencilAlong grid index alpha d1 c1 a b with
      | none => none
      | some alpha1 => stencilAlong grid index alpha1 d2 (-c2) a b

/-- The real-space array `rval` of `calcConstraintVector` at the end of the
branch chosen by `name`, before it is transformed: for "overdensity" every
listed cell is set to `w = 1/n_part_arr`; for "L" the stencils of
`cen_deriv4_alpha` are accumulated about the centre; otherwise it stays zero.
`name` is read into the buffer `char name[100]`, which holds a word of at most
99 bytes and its terminator; `none` when the program leaves an array. -/
def calcConstraintVector.rval (name : String) (direction : Int) (part_arr : List Int)
    (npartTotal : Nat) (dx boxlen : K) (pGrid : Grid) : Option (List F) :=
  if name.utf8ByteSize ≥ 100 then none
  else
    let rval : List F := List.replicate npartTotal 0
    if strcasecmp name "overdensity" = 0 then
      let w : K := 1 / (part_arr.length : K)
      part_arr.foldl (fun r p => r.bind fun r => setAt r p (algebraMap K F w)) (some rval)
    else if strcasecmp name "L" = 0 then
      match getCentre part_arr boxlen dx pGrid with
      | none => none
      | some (x0, y0, z0) =>
        part_arr.foldl
          (fun r p => r.bind fun r => cen_deriv4_alpha pGrid p r dx direction x0 y0 z0 boxlen)
          (some rval)
    else some rval

/-- The value `Σ_j α_j·Φ_j` of a real-space covector on a potential sampled at
the cells, the cell `j` sitting at `dx` times its grid indices. -/
def applyCovector (grid : Grid) (alpha : List F) (dx : K) (Phi : K → K → K → F) : F :=
  (List.zipWith
    (fun c a => a * Phi (dx * (c.grid.1 : K)) (dx * (c.grid.2.1 : K)) (dx * (c.grid.2.2 : K)))
    grid.cells alpha).sum

/-- The component `d` of the cross product `r × f` of two vectors. -/
def crossComponent (r f : K × K × K) (d : Int) : K :=
  if d = 0 then r.2.1 * f.2.2 - r.2.2 * f.2.1
  else if d = 1 then r.2.2 * f.1 - r.1 * f.2.2
  else r.1 * f.2.1 - r.2.1 * f.1

/-- The function `dot`: the sum of `conj(a[i])*b[i]` for `i < n`. -/
def dot (a b : List F) (n : Nat) : F :=
  (List.range n).foldl (fun res i => res + star (a.getD i 0) * b.getD i 0) 0

/-- A stored constraint: covector, target and initial value. -/
structure StoredConstraint (F : Type) where
  alpha : List F
  target : F
  initial : F

/-- Modelled from the spec: `MultiConstrainedField::add_constraint` (declared in
constrainer.h, not among the sources) stores the triple in the list of the
applicator. -/
def add_constraint (constr : List (StoredConstraint F)) (alpha : List F) (target initial : F) :
    List (StoredConstraint F) :=
  constr ++ [{ alpha := alpha, target := target, initial := initial }]

/-- The three values `vals[dir]` that the command `constrain_direction` computes
as targets: `direction[dir]*norm/in_norm`, with `norm = sqrt(dot(vals,vals,3))`
times the factor `renorm` when `and_renormalize` was given. `vals` are the
current values `dot(vecs[dir], ftsc)`. -/
def constrain_direction.targets (sqrt : K → K) (csqrt : F → F) (vals : F × F × F)
    (direction : K × K × K) (renorm : Option K) : F × F × F :=
  let norm : F := csqrt (dot [vals.1, vals.2.1, vals.2.2] [vals.1, vals.2.1, vals.2.2] 3)
  let in_norm : F := algebraMap K F
    (sqrt (direction.1 * direction.1 + direction.2.1 * direction.2.1
      + direction.2.2 * direction.2.2))
  let norm : F := match renorm with
    | some r => norm * algebraMap K F r
    | none => norm
  (algebraMap K F direction.1 * norm / in_norm, algebraMap K F direction.2.1 * norm / in_norm,
   algebraMap K F direction.2.2 * norm / in_norm)

/-- The command `constrain_direction` of `main`: the three covectors `vecs` (the
results of `calcConstraintVector` for the axes 0, 1, 2) are registered with the
targets above and with `vals[dir]*in_norm/norm` as third argument, `vals` being
by then the targets. -/
def constrain_direction (sqrt : K → K) (csqrt : F → F) (vecs : List F × List F × List F)
    (ftsc : List F) (npartTotal : Nat) (direction : K × K × K) (renorm : Option K)
    (constr : List (StoredConstraint F)) : List (StoredConstraint F) :=
  let vals : F × F × F :=
    (dot vecs.1 ftsc npartTotal, dot vecs.2.1 ftsc npartTotal, dot vecs.2.2 ftsc npartTotal)
  let norm : F := csqrt (dot [vals.1, vals.2.1, vals.2.2] [vals.1, vals.2.1, vals.2.2] 3)
  let in_norm : F := algebraMap K F
    (sqrt (direction.1 * direction.1 + direction.2.1 * direction.2.1
      + direction.2.2 * direction.2.2))
  let norm : F := match renorm with
    | some r => norm * algebraMap K F r
    | none => norm
  let vals := constrain_direction.targets sqrt csqrt vals direction renorm
  let constr := add_constraint constr vecs.1 vals.1 (vals.1 * in_norm / norm)
  let constr := add_constraint constr vecs.2.1 vals.2.1 (vals.2.1 * in_norm / norm)
  add_constraint constr vecs.2.2 vals.2.2 (vals.2.2 * in_norm / norm)

/-- The command `constrain` of `main`: `vec` is the result of
`calcConstraintVector`; `none` when the word after the name is neither
"relative" nor "absolute" (the program exits). -/
def constrain (vec ftsc : List F) (npartTotal : Nat) (command : String) (constraint_real : K)
    (constr : List (StoredConstraint F)) : Option (List (StoredConstraint F)) :=
  if strcasecmp command "relative" ≠ 0 ∧ strcasecmp command "absolute" ≠ 0 then none
  else
    let relative : Bool := strcasecmp command "relative" = 0
    let constraint : F := algebraMap K F constraint_real
    let initv : F := dot vec ftsc npartTotal
    let constraint : F := if relative then constraint * initv else constraint
    some (add_constraint constr vec constraint initv)

/-- The three displacement modes `psift1k[idx]`, `psift2k[idx]`, `psift3k[idx]`
that the loop "Zeldovich approx." of `main` builds for the cell `(ix,iy,iz)` from
the mode `ftsc[idx]`; a complex number is the pair of its real and imaginary
parts. -/
def zeldovichModes (sqrt : K → K) (res ix iy iz : Int) (kw : K) (ftsc : K × K) :
    (K × K) × (K × K) × (K × K) :=
  let iix : Int := if ix > Int.tdiv res 2 then ix - res else ix
  let iiy : Int := if iy > Int.tdiv res 2 then iy - res else iy
  let iiz : Int := if iz > Int.tdiv res 2 then iz - res else iz
  let kfft : K := sqrt ((iix * iix + iiy * iiy + iiz * iiz : Int) : K)
  ((-ftsc.2 / (kfft * kfft) * (iix : K) / kw, ftsc.1 / (kfft * kfft) * (iix : K) / kw),
   (-ftsc.2 / (kfft * kfft) * (iiy : K) / kw, ftsc.1 / (kfft * kfft) * (iiy : K) / kw),
   (-ftsc.2 / (kfft * kfft) * (iiz : K) / kw, ftsc.1 / (kfft * kfft) * (iiz : K) / kw))

/-- One coordinate of the loop "Applying ZA & PBC" of `main` (`res = n` there):
the displacement `psi` in grid units plus the cell coordinate, the periodic
wrap, and the rescaling to physical units. -/
def zaPosition (psi : K) (n : Int) (Boxlength : K) (ix : Int) : K :=
  let Pos : K := psi * (n : K) / Boxlength + (ix : K)
  let Pos : K :=
    if Pos < 0 then Pos + (n : K)
    else if Pos > (n : K) then Pos - (n : K)
    else Pos
  Pos * (Boxlength / (n : K))

/-- The values that a loop `for(k=-res/2; k<res/2; k++)` of `brute_interpol_new`
runs through. -/
def signedRange (res : Int) : List Int :=
  (List.range (Int.tdiv res 2 - Int.tdiv (-res) 2).toNat).map fun (i : Nat) =>
    Int.tdiv (-res) 2 + (i : Int)

/-- The body of the innermost loop of `brute_interpol_new` for `(k1,k2,k3)`, on
the arrays `(ftsc, P)`; `none` when an index is outside its array. `spline` is
the interpolated transfer function, `pow` the function `powf`. -/
def brute_interpol_new.body (sqrt : K → K) (csqrt : F → F) (pow : K → K → K) (spline : K → K)
    (res : Int) (kw ns norm_amp : K) (ft : List F) (k1 k2 k3 : Int)
    (arrays : Option (List F × List F)) : Option (List F × List F) :=
  match arrays with
  | none => none
  | some (ftsc, P) =>
    let ii : Int := if k1 < 0 then k1 + res else k1
    let jj : Int := if k2 < 0 then k2 + res else k2
    let ll : Int := if k3 < 0 then k3 + res else k3
    let idk : Int := (ii * res + jj) * res + ll
    if idk = 0 then some (ftsc, P)
    else
      let kk : K := sqrt ((k1 * k1 + k2 * k2 + k3 * k3 : Int) : K) * kw
      let p0 : F := algebraMap K F (spline kk)
      let p1 : F := p0 * (p0 * algebraMap K F (pow kk ns) * algebraMap K F norm_amp)
      match setAt P idk p1, at? ft idk with
      | some P1, some f => (setAt ftsc idk (csqrt p1 * f)).map fun ftsc1 => (ftsc1, P1)
      | _, _ => none

/-- The function `brute_interpol_new`: the arrays `(ftsc, P)` after the three
nested loops. -/
def brute_interpol_new (sqrt : K → K) (csqrt : F → F) (pow : K → K → K) (spline : K → K)
    (res : Int) (kw ns norm_amp : K) (ft ftsc P : List F) : Option (List F × List F) :=
  (signedRange res).foldl
    (fun arrays k1 => (signedRange res).foldl
      (fun arrays k2 => (signedRange res).foldl
        (fun arrays k3 =>
          brute_interpol_new.body sqrt csqrt pow spline res kw ns norm_amp ft k1 k2 k3 arrays)
        arrays)
      arrays)
    (some (ftsc, P))

/-- The summand of the loop of `sig` at the wavenumber `k`. -/
def sig.summand (pow : K → K → K) (sin cos : K → K) (spline : K → K) (R ns k : K) : K :=
  let t := spline k
  pow k (ns + 2) * ((sin (k * R) - k * R * cos (k * R)) / ((k * R) * (k * R) * (k * R)))
    * ((sin (k * R) - k * R * cos (k * R)) / ((k * R) * (k * R) * (k * R))) * t * t

/-- The loop `for(k=kmin; k<kmax; k+=dk)` of `sig`, entered with the wavenumber
`k` and the sum `s`; `none` when `fuel` rounds do not reach its end. -/
def sig.loop (pow : K → K → K) (sin cos : K → K) (spline : K → K) (R ns kmax dk : K) :
    Nat → K → K → Option K
  | 0, _, _ => none
  | fuel + 1, k, s =>
    if k < kmax then
      sig.loop pow sin cos spline R ns kmax dk fuel (k + dk)
        (s + sig.summand pow sin cos spline R ns k)
    else some s

/-- The function `sig`. `spline` is the cubic spline through the table
`(kcamb, Tcamb)`, `pi` the constant `M_PI`; `none` when the table has no entry
`quoppa - 1` or the loop does not end within `fuel` rounds. -/
def sig (sqrt : K → K) (pow : K → K → K) (sin cos : K → K) (pi : K) (spline : K → K)
    (fuel : Nat) (R : K) (kcamb : List K) (ns : K) (quoppa : Int) : Option K :=
  let amp : K := 9 / 2 / pi / pi
  match at? kcamb (quoppa - 1), at? kcamb 0 with
  | some kmax, some kmin =>
    let dk : K := (kmax - kmin) / 10000
    (sig.loop pow sin cos spline R ns kmax dk fuel kmin 0).map fun s => sqrt (s * amp * dk)
  | _, _ => none

/-- The body of the loop of `main` that fills `kcamb` and `Tcamb`, for the row
`j` of the buffer `inarr` (rows of `c` numbers), on `(kcamb, Tcamb, quoppa)`;
`ap` is the number the transfer function is divided by. `none` when the buffer is
shorter than the row read. -/
def main.transferLoop.body (c : Nat) (inarr : List K) (ap : K)
    (arrays : Option (List K × List K × Int)) (j : Nat) : Option (List K × List K × Int) :=
  match arrays with
  | none => none
  | some (kcamb, Tcamb, quoppa) =>
    match inarr[c * j]? with
    | none => none
    | some k =>
      if k > 0 then
        match inarr[c * j + 1]? with
        | none => none
        | some t => some (kcamb.set j k, Tcamb.set j (t / ap), quoppa + 1)
      else some (kcamb, Tcamb, quoppa)

/-- The loop `for(j=0;j<quoppas;j++)` of `main` on the two zeroed arrays `kcamb`
and `Tcamb` of `quoppas` numbers and the count `quoppa = 0`. -/
def main.transferLoop (quoppas c : Nat) (inarr : List K) (ap : K) :
    Option (List K × List K × Int) :=
  (List.range quoppas).foldl (main.transferLoop.body c inarr ap)
    (some (List.replicate quoppas 0, List.replicate quoppas 0, 0))

/-- The part of `main` that reads the transfer function from the buffer `inarr`
that `GetBuffer` has filled: `quoppas = 600` rows of `c = 7` numbers,
`ap = inarr[1]`. The result is `(kcamb, Tcamb, quoppa)`. -/
def main.readTransferTable (inarr : List K) : Option (List K × List K × Int) :=
  let quoppas : Nat := 600
  let c : Nat := 7
  match inarr[1]? with
  | none => none
  | some ap => main.transferLoop quoppas c inarr ap

/-- The function `D(a, Om, Ol)`; `pow` is the library function `powf`, and the
constants `2.5` and `0.5` are written as the fractions `5/2` and `1/2`. -/
def D (pow : K → K → K) (a Om Ol : K) : K :=
  let Hsq : K := Om / pow a 3 + (1 - Om - Ol) / a / a + Ol
  let d : K := 5 / 2 * a * Om / pow a 3 / Hsq
    / (pow (Om / Hsq / a / a / a) (4 / 7) - Ol / Hsq
      + (1 + 1 / 2 * Om / pow a 3 / Hsq) * (1 + 1 / 70 * Ol / Hsq))
  d

/-- The statement `grwfac=D(ain, Om0, Ol0)/D(1., Om0, Ol0)` of `main`. -/
def main.grwfac (pow : K → K → K) (ain Om0 Ol0 : K) : K :=
  D pow ain Om0 Ol0 / D pow 1 Om0 Ol0

/-- The function `fft_r(fto, ftin, res, dir)`. `forward` and `backward` are the
transforms that the library runs for a plan of `res × res × res` points made
with `FFTW_FORWARD` and with `FFTW_BACKWARD` (unnormalised). `res` is of type
`int` and so is the product `res*res*res` (arithmetic modulo `2^32`): the scratch
array `fti` gets that many entries, those of `ftin` divided by
`sqrt(res*res*res)`. The library reads `res·res·res` entries of `fti`: `none`
when `fti` has fewer (the program leaves the array). For another `dir` the array
`fto` is returned as it is. -/
def fft_r (sqrt : K → K) (forward backward : List F → List F) (fto ftin : List F)
    (res dir : Int) : Option (List F) :=
  let n3 : Int := toInt32 (toInt32 (res * res) * res)
  if dir = 1 then
    let fti : List F := (List.range n3.toNat).map fun i =>
      ftin.getD i 0 / algebraMap K F (sqrt (n3 : K))
    if fti.length < (res * res * res).toNat then none else some (forward fti)
  else if dir = -1 then
    let fti : List F := (List.range n3.toNat).map fun i =>
      ftin.getD i 0 / algebraMap K F (sqrt (n3 : K))
    if fti.length < (res * res * res).toNat then none else some (backward fti)
  else some fto

/-- The function `chi2(a, b, n)`: the sum of `conj(a[i])*a[i]/b[i]` for
`1 ≤ i < n`, divided by `n`. -/
def chi2 (a b : List F) (n : Nat) : F :=
  (List.range' 1 (n - 1)).foldl
    (fun res i => res + star (a.getD i 0) * a.getD i 0 / b.getD i 0) 0
    / algebraMap K F (n : K)

/-- The body of the innermost loop of `poiss` for `(k1,k2,k3)`, on the array
`out`; the variables `k1, k2, k3, kk1, kk2, kk3` and `res` are of type `int`
(arithmetic modulo `2^32`), `pi` is the constant `M_PI`. `none` when the index is
outside an array. -/
def poiss.body (pi : K) (input : List F) (res : Int) (Boxlength a Om : K) (k1 k2 k3 : Int)
    (out : Option (List F)) : Option (List F) :=
  match out with
  | none => none
  | some out =>
    let prefac : K := 3 / 2 * Om / a * 100 * 100 / (3 * 100000) / (3 * 100000)
    let kw : K := 2 * pi / Boxlength
    let i : Int := toInt32 (toInt32 (toInt32 (toInt32 (k1 * res) + k2) * res) + k3)
    let kk1 : Int := if k1 > Int.tdiv res 2 then toInt32 (k1 - res) else k1
    let kk2 : Int := if k2 > Int.tdiv res 2 then toInt32 (k2 - res) else k2
    let kk3 : Int := if k3 > Int.tdiv res 2 then toInt32 (k3 - res) else k3
    let k : K := ((toInt32 (toInt32 (toInt32 (kk1 * kk1) + toInt32 (kk2 * kk2))
      + toInt32 (kk3 * kk3)) : Int) : K) * kw * kw
    match at? input i with
    | none => none
    | some v => setAt out i (-v * algebraMap K F prefac / algebraMap K F k)

/-- The function `poiss(out, in, res, Boxlength, a, Om)`: the array `out` after
the three nested loops and the statement `out[0]=0`. -/
def poiss (pi : K) (out input : List F) (res : Int) (Boxlength a Om : K) : Option (List F) :=
  let out := (List.range res.toNat).foldl
    (fun out (k1 : Nat) => (List.range res.toNat).foldl
      (fun out (k2 : Nat) => (List.range res.toNat).foldl
        (fun out (k3 : Nat) =>
          poiss.body pi input res Boxlength a Om (k1 : Int) (k2 : Int) (k3 : Int) out)
        out)
      out)
    (some out)
  match out with
  | none => none
  | some out => setAt out 0 0

/-- Modelled from the spec: the squared length `i_x² + i_y² + i_z²` of the signed
index vector of the Fourier cell with the array index `j` on a grid of side `N`
(`j = (k1·N + k2)·N + k3`, each `k` taken in the signed range of `signedIndex`). -/
def signedIndexNormSq (N j : Nat) : Int :=
  signedIndex N ((j / (N * N) : Nat) : Int) * signedIndex N ((j / (N * N) : Nat) : Int)
    + signedIndex N ((j / N % N : Nat) : Int) * signedIndex N ((j / N % N : Nat) : Int)
    + signedIndex N ((j % N : Nat) : Int) * signedIndex N ((j % N : Nat) : Int)

/-- Modelled from the spec: the factor `−prefac/k²` that the Poisson operator
applies to the mode `j`, with `prefac = (3/2)·Ωm/a·(100/(3·10⁵))²`, `k² = kw²·|i|²`
and `kw = 2π/L`; the zero mode gets the factor 0. -/
def poissonFactor (pi : K) (N : Nat) (Boxlength a Om : K) (j : Nat) : K :=
  if j = 0 then 0
  else -(3 / 2 * Om / a * 100 * 100 / (3 * 100000) / (3 * 100000))
    / (((signedIndexNormSq N j : Int) : K) * (2 * pi / Boxlength) * (2 * pi / Boxlength))

/-- The function `calcConstraintVector`: the array `rval_k` it returns. `name`
and `direction` are what it reads from the stream, `name` into the buffer
`char name[100]`, which holds a word of at most 99 bytes and its terminator;
`none` when the program leaves an array or exits. -/
def calcConstraintVector (sqrt : K → K) (forward backward : List F → List F) (pi : K)
    (name : String) (direction : Int) (part_arr : List Int) (npartTotal : Nat) (res : Int)
    (dx a om boxlen : K) (pGrid : Grid) : Option (List F) :=
  if name.utf8ByteSize ≥ 100 then none
  else
    let rval : List F := List.replicate npartTotal 0
    let rval_k : List F := List.replicate npartTotal 0
    if strcasecmp name "overdensity" = 0 then
      let w : K := 1 / (part_arr.length : K)
      match part_arr.foldl (fun r p => r.bind fun r => setAt r p (algebraMap K F w))
          (some rval) with
      | none => none
      | some rval => fft_r sqrt forward backward rval_k rval res 1
    else if strcasecmp name "L" = 0 then
      match getCentre part_arr boxlen dx pGrid with
      | none => none
      | some (x0, y0, z0) =>
        match part_arr.foldl
            (fun r p => r.bind fun r => cen_deriv4_alpha pGrid p r dx direction x0 y0 z0 boxlen)
            (some rval) with
        | none => none
        | some rval =>
          let rval_kX : List F := List.replicate npartTotal 0
          match fft_r sqrt forward backward rval_kX rval res 1 with
          | none => none
          | some rval_kX => poiss pi rval_k rval_kX res boxlen a om
    else some rval_k

end Numbers

end constr_code

/-! ## Cosmology (`cosmology/parameters.hpp`) -/

namespace cosmology

/-- The structure `CosmologicalParameters`. -/
structure CosmologicalParameters (FloatType : Type) where
  OmegaM0 : FloatType
  OmegaLambda0 : FloatType
  OmegaBaryons0 : FloatType
  hubble : FloatType
  redshift : FloatType
  scalefactor : FloatType
  sigma8 : FloatType
  ns : FloatType
  TCMB : FloatType

section Numbers

variable {K : Type} [LinearOrderedField K]

/-- The function `growthFactor`; `pow` is the library function `powf`, and the
constants `2.5` and `0.5` are written as the fractions `5/2` and `1/2`. -/
def growthFactor (pow : K → K → K) (cosmology : CosmologicalParameters K) : K :=
  let a : K := cosmology.scalefactor
  let Om : K := cosmology.OmegaM0
  let Ol : K := cosmology.OmegaLambda0
  let Hsq : K := cosmology.OmegaM0 / pow a 3 + (1 - Om - Ol) / a / a + Ol
  let d : K := 5 / 2 * a * Om / pow a 3 / Hsq
    / (pow (Om / Hsq / a / a / a) (4 / 7) - Ol / Hsq
      + (1 + 1 / 2 * Om / pow a 3 / Hsq) * (1 + 1 / 70 * Ol / Hsq))
  d

variable {F : Type} [Field F] [StarRing F] [Algebra K F]

/-- The body of the innermost loop of `densityToPotential` for `(k1,k2,k3)`, on
the data of the field; the variables `k1, k2, k3, kk1, kk2, kk3` and `res` are of
type `size_t` (arithmetic modulo `2^64`), `i` is a `long`, `pi` is the constant
`M_PI`. `none` when the index is outside the array. -/
def densityToPotential.body (pi : K) (res : Int) (Boxlength : K)
    (cosmo : CosmologicalParameters K) (k1 k2 k3 : Int) (field : Option (List F)) :
    Option (List F) :=
  match field with
  | none => none
  | some field =>
    let a : K := cosmo.scalefactor
    let Om : K := cosmo.OmegaM0
    let prefac : K := 3 / 2 * Om / a * 100 * 100 / (3 * 100000) / (3 * 100000)
    let kw : K := 2 * pi / Boxlength
    let i : Int := toInt64 (toSizeT (toSizeT (toSizeT (toSizeT (k1 * res) + k2) * res) + k3))
    let kk1 : Int := if k1 > res / 2 then toSizeT (k1 - res) else k1
    let kk2 : Int := if k2 > res / 2 then toSizeT (k2 - res) else k2
    let kk3 : Int := if k3 > res / 2 then toSizeT (k3 - res) else k3
    let k_inv : K := 1 / (((toSizeT (toSizeT (toSizeT (kk1 * kk1) + toSizeT (kk2 * kk2))
      + toSizeT (kk3 * kk3)) : Int) : K) * kw * kw)
    let k_inv : K := if i = 0 then 0 else k_inv
    match constr_code.at? field i with
    | none => none
    | some v => constr_code.setAt field i (v * algebraMap K F (-prefac * k_inv))

/-- The function `densityToPotential(field, cosmo)` on a field that is in the
Fourier domain: `data` is its array, `size` and `boxsize` are those of its grid.
The result is the array after the three nested loops. -/
def densityToPotential (pi : K) (data : List F) (size : Nat) (boxsize : K)
    (cosmo : CosmologicalParameters K) : Option (List F) :=
  let res : Int := toSizeT size
  (List.range res.toNat).foldl
    (fun field (k1 : Nat) => (List.range res.toNat).foldl
      (fun field (k2 : Nat) => (List.range res.toNat).foldl
        (fun field (k3 : Nat) =>
          densityToPotential.body pi res boxsize cosmo (k1 : Int) (k2 : Int) (k3 : Int) field)
        field)
      field)
    (some data)

end Numbers

end cosmology

/-! ## Concrete inputs -/

namespace ICGenerator

/-- The cells of the 8³ block with coordinates 12..19 on each axis of a grid of
side 32. -/
def flaggedBlock : List Nat :=
  (List.range 8).flatMap fun i => (List.range 8).flatMap fun j =>
    (List.range 8).map fun k => ((12 + i) * 32 + (12 + j)) * 32 + (12 + k)

/-- A generator whose base grid has side 32 and box length 100, with the block
flagged; nothing is drawn yet and strays are not allowed. -/
def baseWithFlaggedBlock : ICGenerator :=
  { ICGenerator.new with
    multiLevelContext :=
      [{ size := 32, boxsize := 100, offsetLower := (0, 0, 0), flags := flaggedBlock }]
    outputField := [[]] }

/-- A generator with a base grid of side 2 (eight modes, all zero before the
draw), no constraint, nothing drawn. -/
def freshBase : ICGenerator :=
  { ICGenerator.new with
    multiLevelContext := [{ size := 2, boxsize := 2, offsetLower := (0, 0, 0), flags := [] }]
    outputField := [List.replicate 8 0] }

/-- A draw that gives the first non-zero mode the value 1. -/
def unitDraw : Int → List grids.Grid → List (List ℚ) :=
  fun _ _ => [[0, 1, 0, 0, 0, 0, 0, 0]]

/-- A flat spectrum, `P = 1` on every mode but the zero mode. -/
def flatSpectrum : Nat → List ℚ :=
  fun _ => [0, 1, 1, 1, 1, 1, 1, 1]

/-- A grid with one cell. -/
def oneCellGrid : grids.Grid :=
  { size := 1, boxsize := 1, offsetLower := (0, 0, 0), flags := [] }

/-- A generator with one cell, whose only mode (the zero mode) has the value 1. -/
def oneCell : ICGenerator :=
  { ICGenerator.new with
    multiLevelContext := [oneCellGrid]
    outputField := [[1]]
    haveInitialisedRandomComponent := true }

/-- The wavenumber of the only mode of a one-cell grid, the zero mode. -/
def zeroWavenumber : grids.Grid → Nat → ℚ :=
  fun _ _ => 0

/-- A one-level generator with eight modes `1..8`. -/
def eightModes : ICGenerator :=
  { ICGenerator.new with
    multiLevelContext := [{ size := 2, boxsize := 2, offsetLower := (0, 0, 0), flags := [] }]
    outputField := [[1, 2, 3, 4, 5, 6, 7, 8]]
    haveInitialisedRandomComponent := true }

/-- The wavenumber `k i = i`, for the example. -/
def indexWavenumber : grids.Grid → Nat → ℚ :=
  fun _ i => (i : ℚ)

/-- A centroid for the example: the low corner of the grid plus the cell
coordinates plus one half, in units of the cell size. -/
def cellCentre : grids.Grid → Nat → ℚ × ℚ × ℚ :=
  fun g id =>
    (g.offsetLower.1 + ((g.getCellCoordinate id).1 + 1 / 2) * g.dx,
     g.offsetLower.2.1 + ((g.getCellCoordinate id).2.1 + 1 / 2) * g.dx,
     g.offsetLower.2.2 + ((g.getCellCoordinate id).2.2 + 1 / 2) * g.dx)

/-- A generator with a base grid of side 2 and box length 2 whose only flagged
cell is the cell 7, of coordinates `(1,1,1)`. -/
def oneFlaggedCell : ICGenerator :=
  { ICGenerator.new with
    multiLevelContext := [{ size := 2, boxsize := 2, offsetLower := (0, 0, 0), flags := [7] }]
    outputField := [List.replicate 8 0] }

end ICGenerator

namespace tools.numerics

/-- A linear operator on the 27 cells of a grid of side 3 that acts on the first
two cells only: `(v0, v1, ...) ↦ (-v0, v0 + v1, 0, ...)`. -/
def shearOperator : Field → Field
  | v0 :: v1 :: rest => (-v0) :: (v0 + v1) :: rest.map (fun _ => 0)
  | v => v

/-- The right-hand side `(1, 0, ..., 0)` on the 27 cells of a grid of side 3. -/
def firstCellOne : Field :=
  1 :: List.replicate 26 0

end tools.numerics

namespace ICGenerator

/-- A generator whose base grid has side 4; the flagged cells 0 and 32 have the
coordinates `(0,0,0)` and `(2,0,0)`: their bounding box spans 3 cells along the
first axis. -/
def baseWithThreeCellSpan : ICGenerator :=
  { ICGenerator.new with
    multiLevelContext := [{ size := 4, boxsize := 4, offsetLower := (0, 0, 0), flags := [0, 32] }]
    outputField := [[]] }

end ICGenerator

namespace ICGenerator

/-- A generator whose base grid has side 5 and box length 5; the flagged cell 124
has the coordinates `(4,4,4)`. Nothing is drawn and strays are not allowed. -/
def baseOfSideFive : ICGenerator :=
  { ICGenerator.new with
    multiLevelContext := [{ size := 5, boxsize := 5, offsetLower := (0, 0, 0), flags := [124] }]
    outputField := [[]] }

end ICGenerator

namespace constr_code

/-- The unnormalised transform of a plan of `2 × 2 × 2` points, in either
direction (`e^{±iπ} = −1`): the entry `k = (k1*2+k2)*2+k3` is the sum over the
cells `x = (x1*2+x2)*2+x3` of `(−1)^(k1·x1 + k2·x2 + k3·x3)·u[x]`. -/
def transformOfSideTwo {F : Type} [Field F] (u : List F) : List F :=
  (List.range 8).map fun k =>
    ((List.range 8).map fun x =>
      (if ((k / 4) * (x / 4) + (k / 2 % 2) * (x / 2 % 2) + (k % 2) * (x % 2)) % 2 = 0
        then (1 : F) else -1) * u.getD x 0).sum

/-- A word of 100 letters. -/
def wordOfHundredLetters : String :=
  String.mk (List.replicate 100 (Char.ofNat 120))

end constr_code

namespace ICGenerator

/-- A generator whose base grid has side 4; the flagged cells 0 and 48 have the
coordinates `(0,0,0)` and `(3,0,0)`. No flag list is stored yet and strays are
not allowed. -/
def baseWithFarFlags : ICGenerator :=
  { ICGenerator.new with
    multiLevelContext := [{ size := 4, boxsize := 4, offsetLower := (0, 0, 0), flags := [0, 48] }]
    outputField := [[]] }

end ICGenerator

namespace constr_code

/-- A buffer of 600 rows of 7 numbers as `GetBuffer` leaves it for a file of
three rows `(k, T) = (1, 1), (0, 5), (2, 3)`: the second row has `k = 0`, the
rest of the buffer is zero. -/
def transferBuffer : List ℚ :=
  (List.range 4200).map fun i =>
    if i = 0 then 1 else if i = 1 then 1 else if i = 8 then 5 else if i = 14 then 2
    else if i = 15 then 3 else 0

end constr_code

namespace constr_code

/-- The potential `Φ(x,y,z) = x·y + z`, a polynomial of degree 1 in each
coordinate. -/
def samplePotential {K : Type} [LinearOrderedField K] : K → K → K → K :=
  fun u v w => u * v + w

end constr_code

/-! # Theorems -/

/-! ## C1: the conjugate-gradient solver -/

namespace tools.numerics

/-- An iteration entered with the zero direction on one cell takes the quotient
`0/0`. -/
theorem cgLoop_zero_direction (q : ℚ) (b : Field) (rtol atol scale x r : ℚ) (fuel : Nat) :
    cgLoop (fun d => scaleField d q) b rtol atol scale (fuel + 1) [x] [r] [0] = none := by
  simp [cgLoop, innerProduct, scaleField, quotient]

/-- The first iteration on one cell: from `x = 0`, residual `b`, direction `-b`
the step goes to `-b/q`, the residual becomes `-2b` and the next direction is
zero. -/
theorem cgLoop_first_step (q b rtol atol : ℚ) (hq : 0 < q) (hb : b ≠ 0) (hr : rtol ≤ 2)
    (ha : atol ≤ 2 * |b|) (fuel : Nat) :
    cgLoop (fun d => scaleField d q) [b] rtol atol (Maximum [b]) (fuel + 1) [0] [b] [-b]
      = cgLoop (fun d => scaleField d q) [b] rtol atol (Maximum [b]) fuel [-b / q] [-2 * b] [0] := by
  have hab : 0 < |b| := abs_pos.mpr hb
  have hden : -b * (q * -b) ≠ 0 := by
    have : -b * (q * -b) = q * (b * b) := by ring
    rw [this]; exact mul_ne_zero hq.ne' (mul_ne_zero hb hb)
  have halpha : -(b * -b) / (-b * (q * -b)) = 1 / q := by
    field_simp
    ring
  have hx : q * (1 / q * -b) - b = -2 * b := by
    field_simp
    ring
  have hbeta : -2 * b * (q * -b) / (-b * (q * -b)) = 2 := by
    field_simp
    ring
  have hmax : Maximum [b] = |b| := by
    simp [Maximum, abs_nonneg]
  have hmax2 : Maximum [-2 * b] = 2 * |b| := by
    simp [Maximum, abs_mul]
  have hnot : ¬ (Maximum [-2 * b] < rtol * Maximum [b] ∨ Maximum [-2 * b] < atol) := by
    rw [hmax, hmax2]
    rintro (h | h)
    · nlinarith
    · linarith
  rw [cgLoop]
  simp only [innerProduct, scaleField, quotient, addScaled, subField, List.map, List.zipWith,
    List.sum_cons, List.sum_nil, add_zero, zero_add, if_neg hden, halpha, hx, if_neg hnot, hbeta]
  congr 2
  · simp
    ring
  · simp

/-- On the 1×1 system `Q = [q]` with `q > 0` and `b ≠ 0`, with tolerances that
the residual `2|b|` of the first step does not meet, the second iteration
divides zero by zero: no number comes back. -/
theorem conjugateGradient_one_cell (q b rtol atol : ℚ) (hq : 0 < q) (hb : b ≠ 0)
    (hr : rtol ≤ 2) (ha : atol ≤ 2 * |b|) :
    conjugateGradient (fun d => scaleField d q) [b] rtol atol = none := by
  have hmax : Maximum [b] ≠ 0 := by
    have : Maximum [b] = |b| := by simp [Maximum, abs_nonneg]
    rw [this]; exact (abs_pos.mpr hb).ne'
  unfold conjugateGradient
  simp only [if_neg hmax, List.length_singleton, negField, List.map, List.replicate]
  rw [cgLoop_first_step q b rtol atol hq hb hr ha, cgLoop_zero_direction]

/-- C1 (the code at the failing input): for the 1×1 system `Q = [2]`, `b = [4]`
with the default tolerances `rtol = 1e-6`, `atol = 1e-12`, the first iteration
moves `x` to `-2` (the opposite of the solution `b/q = 2`), and the call ends
without a number, so it does not return `b/q`. -/
theorem conjugateGradient_one_cell_not_solved :
    cgLoop (fun d => scaleField d 2) [4] (1 / 1000000) (1 / 1000000000000) (Maximum [4]) 1
        [0] [4] [-4] = some [-2]
    ∧ conjugateGradient (fun d => scaleField d 2) [4] (1 / 1000000) (1 / 1000000000000) = none
    ∧ conjugateGradient (fun d => scaleField d 2) [4] (1 / 1000000) (1 / 1000000000000)
        ≠ some [4 / 2] := by
  have h : conjugateGradient (fun d => scaleField d 2) [4] (1 / 1000000) (1 / 1000000000000)
      = none :=
    conjugateGradient_one_cell 2 4 _ _ (by norm_num) (by norm_num) (by norm_num) (by norm_num)
  refine ⟨?_, h, ?_⟩
  · have h1 := cgLoop_first_step 2 4 (1 / 1000000) (1 / 1000000000000) (by norm_num)
      (by norm_num) (by norm_num) (by norm_num) 0
    norm_num at h1
    rw [h1]
    simp [cgLoop]
  · rw [h]
    simp

end tools.numerics

/-! ## C2: the window chosen by `initZoomGrid` -/

namespace ICGenerator

/-- C2 (the code at the failing input): on a parent grid of side 32 with zoom
factor 4 and the flagged 8³ block at coordinates 12..19 (bounding box 12..19,
which spans 8 = 32/4 cells), `initZoomGrid` returns without an exception, the
origin it computes is 11 on each axis, not 12, and of the 512 flagged cells only
343 are kept: the flagged cell (19,19,19), of index 20083, is trimmed. -/
theorem initZoomGrid_trims_flagged_block :
    findBoundaries { size := 32, boxsize := 100, offsetLower := (0, 0, 0), flags := flaggedBlock }
        flaggedBlock = { x0 := 12, y0 := 12, z0 := 12, x1 := 19, y1 := 19, z1 := 19 }
    ∧ zoomOrigin 32 4 12 19 = 11
    ∧ (initZoomGrid baseWithFlaggedBlock 4 32).exception = none
    ∧ (initZoomGrid baseWithFlaggedBlock 4 32).state.zoomParticleArray
        = (initZoomGridWithOriginAt baseWithFlaggedBlock 11 11 11 4 32).state.zoomParticleArray
    ∧ flaggedBlock.length = 512 ∧ 20083 ∈ flaggedBlock
    ∧ (initZoomGrid baseWithFlaggedBlock 4 32).state.zoomParticleArray.map
        (fun kept => (kept.length, decide (20083 ∈ kept))) = [(343, false)] := by
  decide!

end ICGenerator

/-! ## C3: the delta-chi² reported by `done` -/

namespace ICGenerator

/-- Without constraints `applyModifications` leaves the generator as it is. -/
theorem applyModifications_no_constraints (covariance : Nat → List ℚ)
    (weights : List Constraint → List ℚ) (s : ICGenerator) (h : s.constraintApplicator = []) :
    applyModifications covariance weights s = s := by
  cases s
  simp_all [applyModifications]

/-- When the field was drawn before `done` and no constraint is registered, the
delta-chi² that `done` reports is exactly 0. -/
theorem done_delta_zero_of_drawn (realisation : Int → List grids.Grid → List (List ℚ))
    (covariance : Nat → List ℚ) (weights : List Constraint → List ℚ) (s : ICGenerator)
    (hdrawn : s.haveInitialisedRandomComponent = true) (hnone : s.constraintApplicator = []) :
    done realisation covariance weights s = .returned 0 s := by
  simp [done, fixConstraints, write, hdrawn, applyModifications_no_constraints _ _ s hnone]

/-- When `done` is the first operation that draws the field and no constraint is
registered, the delta-chi² that `done` reports is the chi² of the drawn field
minus the chi² of the field before the draw. -/
theorem done_delta_of_first_draw (realisation : Int → List grids.Grid → List (List ℚ))
    (covariance : Nat → List ℚ) (weights : List Constraint → List ℚ) (s : ICGenerator)
    (hfresh : s.haveInitialisedRandomComponent = false) (hnone : s.constraintApplicator = []) :
    (done realisation covariance weights s).value?
      = some (getChi2 covariance { s with
          outputField := realisation s.randomSeed s.multiLevelContext
          haveInitialisedRandomComponent := true } - getChi2 covariance s) := by
  simp [done, fixConstraints, write, initialiseRandomComponent, hfresh, applyModifications,
    hnone, Outcome.value?]

/-- C3 (the code at the failing input): a generator with a base grid, no
constraint and no field drawn yet; the draw gives one mode the value 1 under a
flat spectrum. `done` takes the chi² before the draw (0, of the zeroed field) and
the chi² after it (1): the delta-chi² it reports is 1, not 0. -/
theorem done_first_draw_reports_nonzero_delta :
    freshBase.constraintApplicator = []
    ∧ (done unitDraw flatSpectrum (fun _ => []) freshBase).value? = some 1
    ∧ (done unitDraw flatSpectrum (fun _ => []) freshBase).value? ≠ some 0 := by
  have h : (done unitDraw flatSpectrum (fun _ => []) freshBase).value? = some 1 := by
    rw [done_delta_of_first_draw _ _ _ _ rfl rfl]
    simp [getChi2, chi2OfLevel, freshBase, unitDraw, flatSpectrum, ICGenerator.new, List.enum,
      List.enumFrom, List.replicate]
  refine ⟨rfl, h, ?_⟩
  rw [h]
  simp

/-! ## C4: `reverseSmallK` -/

/-- The loop of `reverseSmallK` keeps the length of the array. -/
theorem reverseSmallKOnLevel_length (k2 : Nat → ℚ) (k2max : ℚ) (N : Nat) (data : List ℚ) :
    (reverseSmallKOnLevel k2 k2max N data).length = data.length := by
  induction N with
  | zero => simp [reverseSmallKOnLevel]
  | succ N ih =>
    unfold reverseSmallKOnLevel at ih ⊢
    rw [List.range_succ, List.foldl_append]
    simp only [List.foldl_cons, List.foldl_nil]
    split_ifs
    · rw [List.length_set]
      exact ih
    · exact ih

/-- The loop of `reverseSmallK`, entry by entry: the entry `j` is negated when
`j < N` and `k2 j < k2max ∧ k2 j ≠ 0`, and is left as it was otherwise. -/
theorem reverseSmallKOnLevel_getElem? (k2 : Nat → ℚ) (k2max : ℚ) (N : Nat) (data : List ℚ)
    (j : Nat) :
    (reverseSmallKOnLevel k2 k2max N data)[j]?
      = if j < N ∧ (k2 j < k2max ∧ k2 j ≠ 0) then data[j]?.map (fun v => -v) else data[j]? := by
  induction N with
  | zero => simp [reverseSmallKOnLevel]
  | succ N ih =>
    have hlen := reverseSmallKOnLevel_length k2 k2max N data
    unfold reverseSmallKOnLevel at ih hlen ⊢
    rw [List.range_succ, List.foldl_append]
    simp only [List.foldl_cons, List.foldl_nil]
    by_cases hc : k2 N < k2max ∧ k2 N ≠ 0
    · rw [if_pos hc, List.getElem?_set]
      by_cases hj : N = j
      · subst hj
        have hN := ih
        rw [if_neg (by simp)] at hN
        rw [if_pos rfl, hlen]
        by_cases hl : N < data.length
        · rw [if_pos hl, if_pos ⟨Nat.lt_succ_self _, hc⟩, List.getD_eq_getElem?_getD, hN]
          simp [List.getElem?_eq_getElem hl]
        · rw [if_neg hl, if_pos ⟨Nat.lt_succ_self _, hc⟩]
          simp [List.getElem?_eq_none (not_lt.mp hl)]
      · rw [if_neg hj, ih]
        have : j < N + 1 ↔ j < N := by omega
        simp only [this]
    · rw [if_neg hc, ih]
      by_cases hj : j = N
      · subst hj
        simp [hc]
      · have : j < N + 1 ↔ j < N := by omega
        simp only [this]

/-- The field of a level after `reverseSmallK`. -/
theorem reverseSmallK_outputField (getFourierCellKSquared : grids.Grid → Nat → ℚ)
    (s : ICGenerator) (kmax : ℚ) (level : Nat) (grid : grids.Grid) (data : List ℚ)
    (hgrid : s.multiLevelContext[level]? = some grid) (hdata : s.outputField[level]? = some data) :
    (reverseSmallK getFourierCellKSquared s kmax).outputField[level]?
      = some (reverseSmallKOnLevel (getFourierCellKSquared grid) (kmax * kmax) grid.size3 data) := by
  simp [reverseSmallK, List.getElem?_map, List.getElem?_enum, hdata, hgrid]

/-- C4 (counterexample): with `kmax = 1` the zero mode of a one-cell level has
`k = 0 < kmax` and the value 1; `reverseSmallK` leaves the value as it is, it
does not negate it. -/
theorem reverseSmallK_keeps_zero_mode :
    (0 : ℚ) < 1
    ∧ oneCell.multiLevelContext[0]? = some oneCellGrid
    ∧ zeroWavenumber oneCellGrid 0 < 1
    ∧ oneCell.outputField = [[1]]
    ∧ (reverseSmallK (fun g j => zeroWavenumber g j * zeroWavenumber g j) oneCell 1).outputField
        = [[1]]
    ∧ (reverseSmallK (fun g j => zeroWavenumber g j * zeroWavenumber g j) oneCell 1).outputField
        ≠ [[-1]] := by
  have h : (reverseSmallK (fun g j => zeroWavenumber g j * zeroWavenumber g j) oneCell
      1).outputField = [[1]] := by
    simp [reverseSmallK, oneCell, oneCellGrid, zeroWavenumber, ICGenerator.new,
      reverseSmallKOnLevel, List.enum, List.enumFrom, grids.Grid.size3, List.range,
      List.range.loop]
  refine ⟨by norm_num, rfl, by norm_num [zeroWavenumber], rfl, h, ?_⟩
  rw [h]
  decide

/-- C4 (amended): for every `kmax > 0`, every level and every Fourier cell `i` of
that level, with `k i` the wavenumber of the cell (the squared wavenumber the
grid hands out is `k i * k i`), `reverseSmallK(kmax)` replaces the value of the
mode by its negation when `0 < k i < kmax`, and leaves it exactly unchanged when
`k i ≥ kmax` and when `k i = 0` (the zero mode is not negated). -/
theorem reverseSmallK_negates_nonzero_small_k (k : grids.Grid → Nat → ℚ) (s : ICGenerator)
    (kmax : ℚ) (hkmax : 0 < kmax)
    (level : Nat) (grid : grids.Grid) (data : List ℚ)
    (hgrid : s.multiLevelContext[level]? = some grid) (hdata : s.outputField[level]? = some data)
    (i : Nat) (hi : i < grid.size3) (v : ℚ) (hv : data[i]? = some v) :
    ∃ after, (reverseSmallK (fun g j => k g j * k g j) s kmax).outputField[level]? = some after
      ∧ after.length = data.length
      ∧ (0 < k grid i → k grid i < kmax → after[i]? = some (-v))
      ∧ (kmax ≤ k grid i → after[i]? = some v)
      ∧ (k grid i = 0 → after[i]? = some v) := by
  refine ⟨_, reverseSmallK_outputField _ s kmax level grid data hgrid hdata,
    reverseSmallKOnLevel_length _ _ _ _, ?_, ?_, ?_⟩
  · intro h0 hlt
    rw [reverseSmallKOnLevel_getElem?, if_pos, hv]
    · rfl
    · exact ⟨hi, by nlinarith, (mul_pos h0 h0).ne'⟩
  · intro hge
    rw [reverseSmallKOnLevel_getElem?, if_neg, hv]
    rintro ⟨_, hlt, _⟩
    nlinarith
  · intro hz
    rw [reverseSmallKOnLevel_getElem?, if_neg, hv]
    rintro ⟨_, _, hne⟩
    exact hne (by rw [hz]; ring)

/-- C4 (witness): the one-level generator with eight modes `1..8` and wavenumber
`k i = i`; with `kmax = 2` the cell `i = 1` holds the value 2. -/
theorem reverseSmallK_negates_nonzero_small_k_witness :
    (0 : ℚ) < 2 ∧ eightModes.multiLevelContext[0]?
        = some { size := 2, boxsize := 2, offsetLower := (0, 0, 0), flags := [] }
    ∧ eightModes.outputField[0]? = some [1, 2, 3, 4, 5, 6, 7, 8]
    ∧ ∃ after, (reverseSmallK (fun g j => indexWavenumber g j * indexWavenumber g j)
          eightModes 2).outputField[0]? = some after
      ∧ after.length = [1, 2, 3, 4, 5, 6, 7, (8 : ℚ)].length
      ∧ (0 < indexWavenumber { size := 2, boxsize := 2, offsetLower := (0, 0, 0), flags := [] } 1
          → indexWavenumber { size := 2, boxsize := 2, offsetLower := (0, 0, 0), flags := [] } 1 < 2
          → after[1]? = some (-(2 : ℚ)))
      ∧ (2 ≤ indexWavenumber { size := 2, boxsize := 2, offsetLower := (0, 0, 0), flags := [] } 1
          → after[1]? = some (2 : ℚ))
      ∧ (indexWavenumber { size := 2, boxsize := 2, offsetLower := (0, 0, 0), flags := [] } 1 = 0
          → after[1]? = some (2 : ℚ)) :=
  ⟨by norm_num, rfl, rfl,
    reverseSmallK_negates_nonzero_small_k indexWavenumber eightModes 2 (by norm_num) 0
      { size := 2, boxsize := 2, offsetLower := (0, 0, 0), flags := [] } [1, 2, 3, 4, 5, 6, 7, 8]
      rfl rfl 1 (by decide) 2 rfl⟩

/-! ## C5: `reseedSmallK` -/

/-- C5 (the code on the inputs of the claim): whenever a realization has already
been drawn, `reseedSmallK(kmax, seed)` does not complete: after seeding the
generator it calls `initialiseRandomComponent`, which throws; the field is the
one held before the call, no mode takes a value of a new draw. -/
theorem reseedSmallK_throws_when_drawn (realisation : Int → List grids.Grid → List (List ℚ))
    (getFourierCellKSquared : grids.Grid → Nat → ℚ) (s : ICGenerator) (kmax : ℚ) (seed : Int)
    (hdrawn : s.haveInitialisedRandomComponent = true) :
    reseedSmallK realisation getFourierCellKSquared s kmax seed
      = .threw "Trying to re-draw the random field after it was already initialised"
          { s with randomSeed := seed } := by
  simp [reseedSmallK, initialiseRandomComponent, hdrawn]

/-- C5 (witness): the one-cell generator, whose field has been drawn. -/
theorem reseedSmallK_throws_when_drawn_witness :
    oneCell.haveInitialisedRandomComponent = true
    ∧ reseedSmallK unitDraw (fun g j => zeroWavenumber g j * zeroWavenumber g j) oneCell 1 7
      = .threw "Trying to re-draw the random field after it was already initialised"
          { oneCell with randomSeed := 7 } :=
  ⟨rfl, reseedSmallK_throws_when_drawn unitDraw _ oneCell 1 7 rfl⟩

end ICGenerator

/-! ## C6: the overdensity covector -/

namespace constr_code

/-- The loop `rval[part_arr[i]] = w` over a list of valid cells: it succeeds,
keeps the length, and leaves `w` on every listed cell and the old value elsewhere. -/
theorem setAt_loop {F : Type} (w : F) :
    ∀ (part_arr : List Int) (rval : List F),
      (∀ p ∈ part_arr, 0 ≤ p ∧ p < rval.length) →
      ∃ after, part_arr.foldl (fun r p => r.bind fun r => setAt r p w) (some rval) = some after
        ∧ after.length = rval.length
        ∧ ∀ j : Nat, after[j]? = if (j : Int) ∈ part_arr ∧ j < rval.length then some w
            else rval[j]? := by
  intro part_arr
  induction part_arr with
  | nil =>
    intro rval _
    exact ⟨rval, rfl, rfl, fun j => by simp⟩
  | cons p rest ih =>
    intro rval hvalid
    have hp := hvalid p (List.mem_cons_self _ _)
    have hlt : p.toNat < rval.length := by omega
    have hset : setAt rval p w = some (rval.set p.toNat w) := by
      simp [setAt, at?, not_lt.mpr hp.1, List.getElem?_eq_getElem hlt]
    obtain ⟨after, hfold, hlen, hget⟩ := ih (rval.set p.toNat w) (by
      intro q hq
      have := hvalid q (List.mem_cons_of_mem _ hq)
      simpa using this)
    refine ⟨after, ?_, by simpa using hlen, ?_⟩
    · simp only [List.foldl_cons, Option.some_bind, hset]
      exact hfold
    · intro j
      rw [hget j, List.length_set, List.getElem?_set]
      by_cases hj : j < rval.length
      · by_cases hjr : (j : Int) ∈ rest
        · simp [hjr, hj]
        · by_cases hjp : p.toNat = j
          · have : (j : Int) = p := by omega
            simp [hjr, hj, hjp, this]
          · have : ¬ (j : Int) = p := by omega
            simp [hjr, hj, hjp, this]
      · have hne : ¬ p.toNat = j := by omega
        simp [hj, hne]

/-- What the "overdensity" branch builds for every non-empty list of valid
cells: the value `1/n_part_arr` (the length of the list, repetitions counted) on
every listed cell and 0 elsewhere. -/
theorem overdensity_vector_entries (direction : Int) (part_arr : List Int) (npartTotal : Nat)
    (dx boxlen : ℚ) (pGrid : Grid) (hvalid : ∀ p ∈ part_arr, 0 ≤ p ∧ p < npartTotal) :
    ∃ rval : List ℚ,
      calcConstraintVector.rval "overdensity" direction part_arr npartTotal dx boxlen pGrid
        = some rval
      ∧ rval.length = npartTotal
      ∧ ∀ j : Nat, j < npartTotal →
          rval[j]? = some (if (j : Int) ∈ part_arr then 1 / (part_arr.length : ℚ) else 0) := by
  have hname : strcasecmp "overdensity" "overdensity" = 0 := by decide
  obtain ⟨after, hfold, hlen, hget⟩ := setAt_loop (1 / (part_arr.length : ℚ)) part_arr
    (List.replicate npartTotal (0 : ℚ)) (by simpa using hvalid)
  refine ⟨after, ?_, by simpa using hlen, ?_⟩
  · unfold calcConstraintVector.rval
    rw [if_neg (by decide)]
    simp only [hname, if_true, Algebra.id.map_eq_id, RingHom.id_apply]
    exact hfold
  · intro j hj
    rw [hget j]
    by_cases hm : (j : Int) ∈ part_arr
    · simp [hm, hj]
    · simp [hm, hj]

/-- C6 (the code at the failing input): the list `part_arr = [3, 3]` on the grid
of side 2 names the set `F = {3}`, of one cell. The covector built for
"overdensity" has the value `1/2` on the cell 3, not `1/|F| = 1`, and its entries
sum to `1/2`, not to 1. -/
theorem overdensity_vector_with_repeated_cell :
    ([3, 3] : List Int).toFinset.card = 1
    ∧ (calcConstraintVector.rval "overdensity" 0 [3, 3] 8 (1 : ℚ) 2 (Grid.new 2) : Option (List ℚ))
        = some [0, 0, 0, 1 / 2, 0, 0, 0, 0]
    ∧ ([0, 0, 0, 1 / 2, 0, 0, 0, 0] : List ℚ).sum = 1 / 2
    ∧ (1 / 2 : ℚ) ≠ 1 / (([3, 3] : List Int).toFinset.card : ℚ) := by
  have hname : strcasecmp "overdensity" "overdensity" = 0 := by decide
  have hfits : ¬ ("overdensity".utf8ByteSize ≥ 100) := by decide
  refine ⟨by decide, ?_, by norm_num, by norm_num⟩
  unfold calcConstraintVector.rval
  rw [if_neg hfits]
  simp [hname, setAt, at?, List.replicate]

end constr_code

/-! ## C7: the stencil of `cen_deriv4_alpha` -/

namespace constr_code

/-- The length of a table filled by a loop over `range n` of rows of length `m`. -/
theorem length_flatMap_range {α : Type} (n m : Nat) (f : Nat → List α)
    (hf : ∀ i, (f i).length = m) : ((List.range n).flatMap f).length = n * m := by
  induction n with
  | zero => simp
  | succ n ih =>
    rw [List.range_succ, List.flatMap_append, List.length_append, ih]
    simp [hf, Nat.succ_mul]

/-- The entry `i * m + j` of a table filled by a loop over `range n` of rows of
length `m` is the entry `j` of the row `i`. -/
theorem getElem?_flatMap_range {α : Type} (n m : Nat) (f : Nat → List α)
    (hf : ∀ i, (f i).length = m) (i j : Nat) (hi : i < n) (hj : j < m) :
    ((List.range n).flatMap f)[i * m + j]? = (f i)[j]? := by
  induction n with
  | zero => omega
  | succ n ih =>
    rw [List.range_succ, List.flatMap_append]
    by_cases hin : i < n
    · rw [List.getElem?_append_left, ih hin]
      rw [length_flatMap_range n m f hf]
      calc i * m + j < i * m + m := by omega
        _ = (i + 1) * m := by ring
        _ ≤ n * m := Nat.mul_le_mul_right m hin
    · have hie : i = n := by omega
      subst hie
      rw [List.getElem?_append_right]
      · rw [length_flatMap_range i m f hf]
        simp
      · rw [length_flatMap_range i m f hf]
        omega

/-- The table of `Grid::Grid(n)` holds, at the index `(x*n+y)*n+z`, the cell with
grid indices `(x,y,z)`. -/
theorem at?_cells (n : Nat) (x y z : Int) (hx : 0 ≤ x ∧ x < n) (hy : 0 ≤ y ∧ y < n)
    (hz : 0 ≤ z ∧ z < n) :
    at? (Grid.new n).cells ((x * n + y) * n + z)
      = some { grid := (x, y, z),
               coords := (signedIndex n x, signedIndex n y, signedIndex n z) } := by
  obtain ⟨g1, rfl⟩ := Int.eq_ofNat_of_zero_le hx.1
  obtain ⟨g2, rfl⟩ := Int.eq_ofNat_of_zero_le hy.1
  obtain ⟨g3, rfl⟩ := Int.eq_ofNat_of_zero_le hz.1
  have h1 : g1 < n := by exact_mod_cast hx.2
  have h2 : g2 < n := by exact_mod_cast hy.2
  have h3 : g3 < n := by exact_mod_cast hz.2
  have hidx : (((g1 : Int) * n + g2) * n + g3) = (((g1 * n + g2) * n + g3 : Nat) : Int) := by
    push_cast
    ring
  have hnn : ¬ ((((g1 * n + g2) * n + g3 : Nat) : Int) < 0) := by omega
  rw [hidx, at?, if_neg hnn, Int.toNat_ofNat]
  have e : (g1 * n + g2) * n + g3 = g1 * (n * n) + (g2 * n + g3) := by ring
  rw [e]
  unfold Grid.new
  simp only
  rw [getElem?_flatMap_range n (n * n) _ _ g1 (g2 * n + g3) h1]
  · rw [getElem?_flatMap_range n n _ _ g2 g3 h2 h3]
    · simp [List.getElem?_map, List.getElem?_range h3]
    · intro i
      simp
  · calc g2 * n + g3 < g2 * n + n := by omega
      _ = (g2 + 1) * n := by ring
      _ ≤ n * n := Nat.mul_le_mul_right n h2
  · intro i
    rw [length_flatMap_range n n]
    intro j
    simp


/-- The first loop of `check_pbc_grid` leaves an index below `size` as it is. -/
theorem wrapDown_of_le (size : Int) (fuel : Nat) (x : Int) (h : x ≤ size - 1) :
    wrapDown size fuel x = x := by
  cases fuel with
  | zero => rfl
  | succ fuel => simp [wrapDown, not_lt.mpr h]

/-- The second loop of `check_pbc_grid` leaves a non-negative index as it is. -/
theorem wrapUp_of_nonneg (size : Int) (fuel : Nat) (x : Int) (h : 0 ≤ x) :
    wrapUp size fuel x = x := by
  cases fuel with
  | zero => rfl
  | succ fuel => simp [wrapUp, not_lt.mpr h]

/-- Inside the grid `check_pbc_grid` does not move an index. -/
theorem check_pbc_of_inside (size x : Int) (h0 : 0 ≤ x) (h1 : x < size) :
    check_pbc size x = x := by
  unfold check_pbc
  simp only
  rw [wrapDown_of_le size _ x (by omega), wrapUp_of_nonneg size _ x h0]

/-- Away from the seam `find_next_ind` finds the cell whose grid indices are
those of the cell plus the step. -/
theorem find_next_ind_inside (n : Nat) (x y z : Int) (step : Int × Int × Int)
    (hx : 0 ≤ x ∧ x < n) (hy : 0 ≤ y ∧ y < n) (hz : 0 ≤ z ∧ z < n)
    (hx1 : 0 ≤ x + step.1 ∧ x + step.1 < n) (hy1 : 0 ≤ y + step.2.1 ∧ y + step.2.1 < n)
    (hz1 : 0 ≤ z + step.2.2 ∧ z + step.2.2 < n) :
    (Grid.new n).find_next_ind ((x * n + y) * n + z) step
      = some (((x + step.1) * n + (y + step.2.1)) * n + (z + step.2.2)) := by
  unfold Grid.find_next_ind
  rw [at?_cells n x y z hx hy hz]
  have hs : (Grid.new n).size = n := rfl
  simp only [Option.map_some', Grid.check_pbc_grid, Grid.get_index, hs]
  rw [check_pbc_of_inside _ _ hx1.1 hx1.2, check_pbc_of_inside _ _ hy1.1 hy1.2,
    check_pbc_of_inside _ _ hz1.1 hz1.2]

/-- Adding `v` to the entry `i` of a covector adds `v` times the potential at the
cell `i` to its value on the potential. -/
theorem sum_zipWith_set_add {F : Type} [Field F] {C : Type} (phi : C → F) (v : F) :
    ∀ (cs : List C) (alpha : List F) (i : Nat) (c : C) (old : F),
      cs[i]? = some c → alpha[i]? = some old →
      (List.zipWith (fun c a => a * phi c) cs (alpha.set i (old + v))).sum
        = (List.zipWith (fun c a => a * phi c) cs alpha).sum + v * phi c := by
  intro cs
  induction cs with
  | nil => intro alpha i c old h; simp at h
  | cons c0 cs ih =>
    intro alpha i c old hc ha
    cases alpha with
    | nil => simp at ha
    | cons a0 alpha =>
      cases i with
      | zero =>
        simp only [List.getElem?_cons_zero, Option.some.injEq] at hc ha
        subst hc ha
        simp only [List.set_cons_zero, List.zipWith_cons_cons, List.sum_cons]
        ring
      | succ i =>
        simp only [List.getElem?_cons_succ] at hc ha
        simp only [List.set_cons_succ, List.zipWith_cons_cons, List.sum_cons]
        rw [ih alpha i c old hc ha]
        ring

/-- The statement `alpha[ind] += v` on a covector as long as the cell table:
it succeeds, keeps the length, and adds `v·Φ(cell)` to the value on `Φ`. -/
theorem addAt_applyCovector {K : Type} [LinearOrderedField K] {F : Type} [Field F]
    (grid : Grid) (alpha : List F) (ind : Int) (v : F) (dx : K)
    (Phi : K → K → K → F) (c : grid_struct) (hc : at? grid.cells ind = some c)
    (hlen : alpha.length = grid.cells.length) :
    ∃ alpha1, addAt alpha ind v = some alpha1 ∧ alpha1.length = grid.cells.length
      ∧ applyCovector grid alpha1 dx Phi = applyCovector grid alpha dx Phi
          + v * Phi (dx * (c.grid.1 : K)) (dx * (c.grid.2.1 : K)) (dx * (c.grid.2.2 : K)) := by
  unfold at? at hc
  by_cases hneg : ind < 0
  · simp [hneg] at hc
  · rw [if_neg hneg] at hc
    have hlt : ind.toNat < grid.cells.length := by
      by_contra h
      rw [List.getElem?_eq_none (not_lt.mp h)] at hc
      exact Option.noConfusion hc
    cases hold : alpha[ind.toNat]? with
    | none =>
      rw [List.getElem?_eq_none_iff] at hold
      omega
    | some old =>
      refine ⟨alpha.set ind.toNat (old + v), ?_, ?_, ?_⟩
      · simp [addAt, at?, hneg, hold]
      · simp [hlen]
      · unfold applyCovector
        exact sum_zipWith_set_add _ v grid.cells alpha ind.toNat c _ hc hold

/-- The four-point stencil with `a = -1/(12h)`, `b = 2/(3h)` gives minus the
derivative of every polynomial of degree at most 4, exactly. -/
theorem stencil_exact_on_quartics (p : Polynomial ℝ) (hp : p.natDegree ≤ 4) (t h : ℝ)
    (hh : h ≠ 0) :
    (-1 / 12 / h) * p.eval (t - 2 * h) + (2 / 3 / h) * p.eval (t - h)
      + -(2 / 3 / h) * p.eval (t + h) + -(-1 / 12 / h) * p.eval (t + 2 * h)
      = -(Polynomial.derivative p).eval t := by
  have hsum := p.as_sum_range' 5 (by omega)
  rw [hsum]
  simp only [Finset.sum_range_succ, Finset.sum_range_zero, Polynomial.eval_add,
    Polynomial.eval_monomial, Polynomial.derivative_add, Polynomial.derivative_monomial,
    zero_add]
  field_simp
  ring


/-- The number of cells of the table of `Grid::Grid(n)`. -/
theorem length_cells (n : Nat) : (Grid.new n).cells.length = n * n * n := by
  unfold Grid.new
  simp only
  rw [length_flatMap_range n (n * n)]
  · ring
  · intro i
    rw [length_flatMap_range n n]
    intro j
    simp

/-- One half of `cen_deriv4_alpha` away from the seam: the four neighbours along
the unit step `e` are found, the four statements `alpha[..] += ..` succeed, and
the value of the covector on a potential grows by the four weighted samples. -/
theorem stencilAlong_inside {K : Type} [LinearOrderedField K] {F : Type} [Field F] [StarRing F]
    [Algebra K F] (n : Nat) (x y z : Int) (d : Int) (e : Int × Int × Int)
    (hpos : stepAlong d 1 = e) (hneg : stepAlong d (-1) = (-e.1, -e.2.1, -e.2.2))
    (hin : ∀ k : Int, -2 ≤ k → k ≤ 2 →
      (0 ≤ x + k * e.1 ∧ x + k * e.1 < n) ∧ (0 ≤ y + k * e.2.1 ∧ y + k * e.2.1 < n)
        ∧ (0 ≤ z + k * e.2.2 ∧ z + k * e.2.2 < n))
    (alpha : List F) (hlen : alpha.length = (Grid.new n).cells.length) (w a b dx : K)
    (Phi : K → K → K → F) :
    ∃ alpha1, stencilAlong (Grid.new n) ((x * n + y) * n + z) alpha d w a b = some alpha1
      ∧ alpha1.length = (Grid.new n).cells.length
      ∧ applyCovector (Grid.new n) alpha1 dx Phi = applyCovector (Grid.new n) alpha dx Phi
          + algebraMap K F (w * a) * Phi (dx * ((x + -e.1 + -e.1 : Int) : K))
              (dx * ((y + -e.2.1 + -e.2.1 : Int) : K)) (dx * ((z + -e.2.2 + -e.2.2 : Int) : K))
          + algebraMap K F (w * b) * Phi (dx * ((x + -e.1 : Int) : K))
              (dx * ((y + -e.2.1 : Int) : K)) (dx * ((z + -e.2.2 : Int) : K))
          + algebraMap K F (-w * b) * Phi (dx * ((x + e.1 : Int) : K))
              (dx * ((y + e.2.1 : Int) : K)) (dx * ((z + e.2.2 : Int) : K))
          + algebraMap K F (-w * a) * Phi (dx * ((x + e.1 + e.1 : Int) : K))
              (dx * ((y + e.2.1 + e.2.1 : Int) : K)) (dx * ((z + e.2.2 + e.2.2 : Int) : K)) := by
  have h0 := hin 0 (by norm_num) (by norm_num)
  have hp1 := hin 1 (by norm_num) (by norm_num)
  have hp2 := hin 2 (by norm_num) (by norm_num)
  have hm1 := hin (-1) (by norm_num) (by norm_num)
  have hm2 := hin (-2) (by norm_num) (by norm_num)
  simp only [zero_mul, add_zero, one_mul, neg_mul] at h0 hp1 hm1
  have hp2x : 0 ≤ x + e.1 + e.1 ∧ x + e.1 + e.1 < n := by constructor <;> linarith [hp2.1.1, hp2.1.2]
  have hp2y : 0 ≤ y + e.2.1 + e.2.1 ∧ y + e.2.1 + e.2.1 < n := by
    constructor <;> linarith [hp2.2.1.1, hp2.2.1.2]
  have hp2z : 0 ≤ z + e.2.2 + e.2.2 ∧ z + e.2.2 + e.2.2 < n := by
    constructor <;> linarith [hp2.2.2.1, hp2.2.2.2]
  have hm2x : 0 ≤ x + -e.1 + -e.1 ∧ x + -e.1 + -e.1 < n := by
    constructor <;> linarith [hm2.1.1, hm2.1.2]
  have hm2y : 0 ≤ y + -e.2.1 + -e.2.1 ∧ y + -e.2.1 + -e.2.1 < n := by
    constructor <;> linarith [hm2.2.1.1, hm2.2.1.2]
  have hm2z : 0 ≤ z + -e.2.2 + -e.2.2 ∧ z + -e.2.2 + -e.2.2 < n := by
    constructor <;> linarith [hm2.2.2.1, hm2.2.2.2]
  have f_m1 := find_next_ind_inside n x y z (-e.1, -e.2.1, -e.2.2) h0.1 h0.2.1 h0.2.2
    hm1.1 hm1.2.1 hm1.2.2
  have f_p1 := find_next_ind_inside n x y z e h0.1 h0.2.1 h0.2.2 hp1.1 hp1.2.1 hp1.2.2
  have f_m2 := find_next_ind_inside n (x + -e.1) (y + -e.2.1) (z + -e.2.2) (-e.1, -e.2.1, -e.2.2)
    hm1.1 hm1.2.1 hm1.2.2 hm2x hm2y hm2z
  have f_p2 := find_next_ind_inside n (x + e.1) (y + e.2.1) (z + e.2.2) e
    hp1.1 hp1.2.1 hp1.2.2 hp2x hp2y hp2z
  obtain ⟨al1, e1, l1, v1⟩ := addAt_applyCovector (Grid.new n) alpha _ (algebraMap K F (w * a)) dx
    Phi _ (at?_cells n _ _ _ hm2x hm2y hm2z) hlen
  obtain ⟨al2, e2, l2, v2⟩ := addAt_applyCovector (Grid.new n) al1 _ (algebraMap K F (w * b)) dx
    Phi _ (at?_cells n _ _ _ hm1.1 hm1.2.1 hm1.2.2) l1
  obtain ⟨al3, e3, l3, v3⟩ := addAt_applyCovector (Grid.new n) al2 _ (algebraMap K F (-w * b)) dx
    Phi _ (at?_cells n _ _ _ hp1.1 hp1.2.1 hp1.2.2) l2
  obtain ⟨al4, e4, l4, v4⟩ := addAt_applyCovector (Grid.new n) al3 _ (algebraMap K F (-w * a)) dx
    Phi _ (at?_cells n _ _ _ hp2x hp2y hp2z) l3
  refine ⟨al4, ?_, l4, ?_⟩
  · unfold stencilAlong
    rw [hpos, hneg, f_m1, f_p1]
    simp only [Option.bind_eq_bind, Option.some_bind]
    rw [f_m2, f_p2]
    simp only [Option.some_bind]
    rw [e1]
    simp only [Option.some_bind]
    rw [e2]
    simp only [Option.some_bind]
    rw [e3]
    simp only [Option.some_bind]
    rw [e4]
  · rw [v4, v3, v2, v1]


/-- The stencil along one axis applied to a potential that is a polynomial of
degree at most 4 along that axis: the four weighted samples are `-w` times the
derivative. -/
theorem stencil_on_line (f : ℝ → ℝ) (hf : ∃ p : Polynomial ℝ, p.natDegree ≤ 4 ∧ ∀ u, f u = p.eval u)
    (t h w : ℝ) (hh : h ≠ 0) :
    w * (-1 / 12 / h) * f (t - 2 * h) + w * (2 / 3 / h) * f (t - h)
      + -w * (2 / 3 / h) * f (t + h) + -w * (-1 / 12 / h) * f (t + 2 * h)
      = w * -(deriv f t) := by
  obtain ⟨p, hp, hfp⟩ := hf
  have hd : deriv f t = (Polynomial.derivative p).eval t := by
    have : f = fun u => p.eval u := funext hfp
    rw [this, Polynomial.deriv]
  rw [hd, ← stencil_exact_on_quartics p hp t h hh, hfp, hfp, hfp, hfp]
  ring

/-- The two stencils of `cen_deriv4_alpha` on a cell at least two cells away from
the periodic seam on each axis, for a potential `Φ` that is a polynomial of
degree at most 4 in each coordinate: the contribution added to the covector has
the value `(r × (−∇Φ))_direc` at the cell, `r` being the triple that the function
computes with `get_wrapped_delta`. -/
theorem cen_deriv4_alpha_applied (n : Nat) (x y z : Int)
    (hx : 2 ≤ x ∧ x + 2 < n) (hy : 2 ≤ y ∧ y + 2 < n) (hz : 2 ≤ z ∧ z + 2 < n)
    (dx : ℝ) (hdx : dx ≠ 0) (xc yc zc boxlen : ℝ)
    (direc : Int) (hdirec : direc = 0 ∨ direc = 1 ∨ direc = 2)
    (Phi : ℝ → ℝ → ℝ → ℝ)
    (hPx : ∀ v w, ∃ p : Polynomial ℝ, p.natDegree ≤ 4 ∧ ∀ u, Phi u v w = p.eval u)
    (hPy : ∀ u w, ∃ p : Polynomial ℝ, p.natDegree ≤ 4 ∧ ∀ v, Phi u v w = p.eval v)
    (hPz : ∀ u v, ∃ p : Polynomial ℝ, p.natDegree ≤ 4 ∧ ∀ w, Phi u v w = p.eval w)
    (alpha : List ℝ) (hlen : alpha.length = n * n * n) :
    ∃ alpha1,
      cen_deriv4_alpha (Grid.new n) ((x * n + y) * n + z) alpha dx direc xc yc zc boxlen
        = some alpha1
      ∧ applyCovector (Grid.new n) alpha1 dx Phi - applyCovector (Grid.new n) alpha dx Phi
        = crossComponent
            (cellDisplacement
              { grid := (x, y, z), coords := (signedIndex n x, signedIndex n y, signedIndex n z) }
              dx xc yc zc boxlen)
            (-(deriv (fun u => Phi u (dx * y) (dx * z)) (dx * x)),
             -(deriv (fun v => Phi (dx * x) v (dx * z)) (dx * y)),
             -(deriv (fun w => Phi (dx * x) (dx * y) w) (dx * z)))
            direc := by
  have hlen1 : alpha.length = (Grid.new n).cells.length := by rw [length_cells, hlen]
  have hcell := at?_cells n x y z ⟨by omega, by omega⟩ ⟨by omega, by omega⟩ ⟨by omega, by omega⟩
  have ex := stencil_on_line (fun u => Phi u (dx * y) (dx * z)) (hPx _ _) (dx * x) dx
  have ey := stencil_on_line (fun v => Phi (dx * x) v (dx * z)) (hPy _ _) (dx * y) dx
  have ez := stencil_on_line (fun w => Phi (dx * x) (dx * y) w) (hPz _ _) (dx * z) dx
  simp only at ex ey ez
  have hX : ∀ k : Int, -2 ≤ k → k ≤ 2 →
      (0 ≤ x + k * 1 ∧ x + k * 1 < n) ∧ (0 ≤ y + k * 0 ∧ y + k * 0 < n)
        ∧ (0 ≤ z + k * 0 ∧ z + k * 0 < n) := by
    intro k h1 h2
    refine ⟨⟨by omega, by omega⟩, ⟨by omega, by omega⟩, ⟨by omega, by omega⟩⟩
  have hY : ∀ k : Int, -2 ≤ k → k ≤ 2 →
      (0 ≤ x + k * 0 ∧ x + k * 0 < n) ∧ (0 ≤ y + k * 1 ∧ y + k * 1 < n)
        ∧ (0 ≤ z + k * 0 ∧ z + k * 0 < n) := by
    intro k h1 h2
    refine ⟨⟨by omega, by omega⟩, ⟨by omega, by omega⟩, ⟨by omega, by omega⟩⟩
  have hZ : ∀ k : Int, -2 ≤ k → k ≤ 2 →
      (0 ≤ x + k * 0 ∧ x + k * 0 < n) ∧ (0 ≤ y + k * 0 ∧ y + k * 0 < n)
        ∧ (0 ≤ z + k * 1 ∧ z + k * 1 < n) := by
    intro k h1 h2
    refine ⟨⟨by omega, by omega⟩, ⟨by omega, by omega⟩, ⟨by omega, by omega⟩⟩
  have cx1 : dx * (x + 1 : ℝ) = dx * x + dx := by ring
  have cx2 : dx * (x + 1 + 1 : ℝ) = dx * x + 2 * dx := by ring
  have cx3 : dx * (x + -1 : ℝ) = dx * x - dx := by ring
  have cx4 : dx * (x + -1 + -1 : ℝ) = dx * x - 2 * dx := by ring
  have cy1 : dx * (y + 1 : ℝ) = dx * y + dx := by ring
  have cy2 : dx * (y + 1 + 1 : ℝ) = dx * y + 2 * dx := by ring
  have cy3 : dx * (y + -1 : ℝ) = dx * y - dx := by ring
  have cy4 : dx * (y + -1 + -1 : ℝ) = dx * y - 2 * dx := by ring
  have cz1 : dx * (z + 1 : ℝ) = dx * z + dx := by ring
  have cz2 : dx * (z + 1 + 1 : ℝ) = dx * z + 2 * dx := by ring
  have cz3 : dx * (z + -1 : ℝ) = dx * z - dx := by ring
  have cz4 : dx * (z + -1 + -1 : ℝ) = dx * z - 2 * dx := by ring
  obtain ⟨c, hcdef⟩ : ∃ c : grid_struct,
      c = ⟨(x, y, z), (signedIndex n x, signedIndex n y, signedIndex n z)⟩ := ⟨_, rfl⟩
  rw [← hcdef] at hcell ⊢
  have h10 : ((1 : Int) = 0) = False := by decide
  have h20 : ((2 : Int) = 0) = False := by decide
  have h21 : ((2 : Int) = 1) = False := by decide
  rcases hdirec with h | h | h
  · subst h
    obtain ⟨a1, s1, l1, v1⟩ := stencilAlong_inside (K := ℝ) (F := ℝ) n x y z 2 (0, 0, 1)
      (by decide) (by decide) hZ alpha hlen1 (cellDisplacement c dx xc yc zc boxlen).2.1 (-1 / 12 / dx) (2 / 3 / dx) dx Phi
    obtain ⟨a2, s2, l2, v2⟩ := stencilAlong_inside (K := ℝ) (F := ℝ) n x y z 1 (0, 1, 0)
      (by decide) (by decide) hY a1 l1 (-(cellDisplacement c dx xc yc zc boxlen).2.2) (-1 / 12 / dx) (2 / 3 / dx) dx Phi
    refine ⟨a2, ?_, ?_⟩
    · unfold cen_deriv4_alpha
      rw [hcell]
      simp only [h10, h20, h21, if_true, if_false, s1, s2]
    · rw [v2, v1]
      simp only [h10, h20, h21, Algebra.id.map_eq_id, RingHom.id_apply, neg_zero, add_zero,
        Int.cast_add, Int.cast_neg, Int.cast_one, Int.cast_zero, cy1, cy2, cy3, cy4, cz1, cz2, cz3, cz4,
        crossComponent, if_true, if_false]
      have e1 := ez (cellDisplacement c dx xc yc zc boxlen).2.1 hdx
      have e2 := ey (-(cellDisplacement c dx xc yc zc boxlen).2.2) hdx
      linarith
  · subst h
    obtain ⟨a1, s1, l1, v1⟩ := stencilAlong_inside (K := ℝ) (F := ℝ) n x y z 0 (1, 0, 0)
      (by decide) (by decide) hX alpha hlen1 (cellDisplacement c dx xc yc zc boxlen).2.2 (-1 / 12 / dx) (2 / 3 / dx) dx Phi
    obtain ⟨a2, s2, l2, v2⟩ := stencilAlong_inside (K := ℝ) (F := ℝ) n x y z 2 (0, 0, 1)
      (by decide) (by decide) hZ a1 l1 (-(cellDisplacement c dx xc yc zc boxlen).1) (-1 / 12 / dx) (2 / 3 / dx) dx Phi
    refine ⟨a2, ?_, ?_⟩
    · unfold cen_deriv4_alpha
      rw [hcell]
      simp only [h10, h20, h21, if_true, if_false, s1, s2]
    · rw [v2, v1]
      simp only [h10, h20, h21, Algebra.id.map_eq_id, RingHom.id_apply, neg_zero, add_zero,
        Int.cast_add, Int.cast_neg, Int.cast_one, Int.cast_zero, cx1, cx2, cx3, cx4, cz1, cz2, cz3, cz4,
        crossComponent, if_true, if_false]
      have e1 := ex (cellDisplacement c dx xc yc zc boxlen).2.2 hdx
      have e2 := ez (-(cellDisplacement c dx xc yc zc boxlen).1) hdx
      linarith
  · subst h
    obtain ⟨a1, s1, l1, v1⟩ := stencilAlong_inside (K := ℝ) (F := ℝ) n x y z 1 (0, 1, 0)
      (by decide) (by decide) hY alpha hlen1 (cellDisplacement c dx xc yc zc boxlen).1 (-1 / 12 / dx) (2 / 3 / dx) dx Phi
    obtain ⟨a2, s2, l2, v2⟩ := stencilAlong_inside (K := ℝ) (F := ℝ) n x y z 0 (1, 0, 0)
      (by decide) (by decide) hX a1 l1 (-(cellDisplacement c dx xc yc zc boxlen).2.1) (-1 / 12 / dx) (2 / 3 / dx) dx Phi
    refine ⟨a2, ?_, ?_⟩
    · unfold cen_deriv4_alpha
      rw [hcell]
      simp only [h10, h20, h21, if_true, if_false, s1, s2]
    · rw [v2, v1]
      simp only [h10, h20, h21, Algebra.id.map_eq_id, RingHom.id_apply, neg_zero, add_zero,
        Int.cast_add, Int.cast_neg, Int.cast_one, Int.cast_zero, cx1, cx2, cx3, cx4, cy1, cy2, cy3, cy4,
        crossComponent, if_true, if_false]
      have e1 := ey (cellDisplacement c dx xc yc zc boxlen).1 hdx
      have e2 := ex (-(cellDisplacement c dx xc yc zc boxlen).2.1) hdx
      linarith

/-- The displacement that `cen_deriv4_alpha` computes along one axis for the cell
of grid index `g`, when `boxlen` is the side `n·dx` of the grid: it is the
difference `dx·g − c` of the cell's position and the centre, moved by a whole
number `m` of box lengths; it lies within half a box length of zero when the
centre lies within one box length of the origin, and `m = 0` when the
difference itself is shorter than half a box length. -/
theorem get_wrapped_delta_of_cell (n : Nat) (g : Int) (hg : 0 ≤ g ∧ g < n) (dx c : ℝ)
    (hdx : 0 < dx) :
    ∃ m : Int,
      get_wrapped_delta (dx * ((signedIndex n g : Int) : ℝ)) c (n * dx)
        = dx * g - c + m * (n * dx)
      ∧ (|c| ≤ n * dx → |dx * g - c + m * (n * dx)| ≤ n * dx / 2)
      ∧ (|dx * g - c| < n * dx / 2 → m = 0) := by
  have hn : (0 : Int) ≤ (n : Int) := by omega
  have ht : Int.tdiv (n : Int) 2 = (n : Int) / 2 := Int.tdiv_eq_ediv hn (by norm_num)
  obtain ⟨L, hL⟩ : ∃ L : ℝ, L = n * dx := ⟨_, rfl⟩
  obtain ⟨A, hA⟩ : ∃ A : ℝ, A = dx * g := ⟨_, rfl⟩
  have hnpos : (0 : ℝ) < (n : ℝ) := by
    have : (0 : Int) < (n : Int) := by omega
    exact_mod_cast this
  have hLpos : 0 < L := by rw [hL]; exact mul_pos hnpos hdx
  have hg0 : (0 : ℝ) ≤ (g : ℝ) := by exact_mod_cast hg.1
  have hA0 : 0 ≤ A := by rw [hA]; exact mul_nonneg hdx.le hg0
  have hgn : (g : ℝ) < (n : ℝ) := by exact_mod_cast hg.2
  have hAL : A < L := by rw [hA, hL, mul_comm (n : ℝ) dx]; exact mul_lt_mul_of_pos_left hgn hdx
  rw [← hL, ← hA]
  unfold signedIndex get_wrapped_delta
  rw [ht]
  by_cases hbig : g > (n : Int) / 2
  · -- the signed index is `g - n`
    have h2 : (n : Int) < 2 * g := by omega
    have h2r : (n : ℝ) < 2 * (g : ℝ) := by exact_mod_cast h2
    have hhalf : L < 2 * A := by
      rw [hA, hL]
      nlinarith
    have hs : dx * (((if g > (n : Int) / 2 then g - (n : Int) else g : Int)) : ℝ) = A - L := by
      rw [if_pos hbig, hA, hL]
      push_cast
      ring
    rw [hs]
    simp only []
    by_cases h1 : A - L - c > L / 2
    · rw [if_pos h1]
      by_cases h3 : A - L - c - L < -L / 2
      · exfalso; linarith
      · rw [if_neg h3]
        refine ⟨-2, by push_cast; ring, fun hc => ?_, fun hd => ?_⟩
        · rw [abs_le] at hc ⊢
          constructor <;> · push_cast; linarith [hc.1, hc.2]
        · exfalso
          rw [abs_lt] at hd
          linarith [hd.1, hd.2]
    · rw [if_neg h1]
      by_cases h3 : A - L - c < -L / 2
      · rw [if_pos h3]
        refine ⟨0, by push_cast; ring, fun hc => ?_, fun _ => rfl⟩
        rw [abs_le] at hc ⊢
        constructor <;> · push_cast; linarith [hc.1, hc.2]
      · rw [if_neg h3]
        refine ⟨-1, by push_cast; ring, fun hc => ?_, fun hd => ?_⟩
        · rw [abs_le]
          constructor <;> · push_cast; linarith
        · exfalso
          rw [abs_lt] at hd
          linarith [hd.1, hd.2]
  · -- the signed index is `g`
    have h2 : 2 * g ≤ (n : Int) := by omega
    have h2r : 2 * (g : ℝ) ≤ (n : ℝ) := by exact_mod_cast h2
    have hhalf : 2 * A ≤ L := by
      rw [hA, hL]
      nlinarith
    have hs : dx * (((if g > (n : Int) / 2 then g - (n : Int) else g : Int)) : ℝ) = A := by
      rw [if_neg hbig, hA]
    rw [hs]
    simp only []
    by_cases h1 : A - c > L / 2
    · rw [if_pos h1]
      by_cases h3 : A - c - L < -L / 2
      · exfalso; linarith
      · rw [if_neg h3]
        refine ⟨-1, by push_cast; ring, fun hc => ?_, fun hd => ?_⟩
        · rw [abs_le] at hc ⊢
          constructor <;> · push_cast; linarith [hc.1, hc.2]
        · exfalso
          rw [abs_lt] at hd
          linarith [hd.1, hd.2]
    · rw [if_neg h1]
      by_cases h3 : A - c < -L / 2
      · rw [if_pos h3]
        refine ⟨1, by push_cast; ring, fun hc => ?_, fun hd => ?_⟩
        · rw [abs_le] at hc ⊢
          constructor <;> · push_cast; linarith [hc.1, hc.2]
        · exfalso
          rw [abs_lt] at hd
          linarith [hd.1, hd.2]
      · rw [if_neg h3]
        refine ⟨0, by push_cast; ring, fun _ => ?_, fun _ => rfl⟩
        rw [abs_le]
        constructor <;> · push_cast; linarith

/-- C7: for every axis `direc ∈ {0,1,2}`, every cell `(x,y,z)` at least two cells
away from the periodic seam on each axis, every centre `(xc,yc,zc)` and every
potential `Φ` that is a polynomial of degree at most 4 in each coordinate, on
the grid of side `n` with cells of size `dx > 0` and the box length `n·dx`, the
contribution that `cen_deriv4_alpha` adds to the covector satisfies
`Σ_j α_j·Φ_j = (r × (−∇Φ))_direc` at the cell. Here `r` is the displacement of
the cell, which sits at `dx·(x,y,z)`, from the centre in the periodic box: on
each axis the difference `dx·x − xc` moved by a whole number of box lengths, the
result lying within half a box length of zero when the centre lies within one
box length of the origin, and no move being made when the difference is shorter
than half a box length. Each of the two stencils with `a = −1/(12dx)`,
`b = 2/(3dx)` is an exact fourth-order central difference of `−∂Φ`. -/
theorem cen_deriv4_alpha_exact (n : Nat) (x y z : Int)
    (hx : 2 ≤ x ∧ x + 2 < n) (hy : 2 ≤ y ∧ y + 2 < n) (hz : 2 ≤ z ∧ z + 2 < n)
    (dx : ℝ) (hdx : 0 < dx) (xc yc zc : ℝ)
    (direc : Int) (hdirec : direc = 0 ∨ direc = 1 ∨ direc = 2)
    (Phi : ℝ → ℝ → ℝ → ℝ)
    (hPx : ∀ v w, ∃ p : Polynomial ℝ, p.natDegree ≤ 4 ∧ ∀ u, Phi u v w = p.eval u)
    (hPy : ∀ u w, ∃ p : Polynomial ℝ, p.natDegree ≤ 4 ∧ ∀ v, Phi u v w = p.eval v)
    (hPz : ∀ u v, ∃ p : Polynomial ℝ, p.natDegree ≤ 4 ∧ ∀ w, Phi u v w = p.eval w)
    (alpha : List ℝ) (hlen : alpha.length = n * n * n) :
    ∃ (alpha1 : List ℝ) (mx my mz : Int),
      cen_deriv4_alpha (Grid.new n) ((x * n + y) * n + z) alpha dx direc xc yc zc (n * dx)
        = some alpha1
      ∧ ((|xc| ≤ n * dx → |dx * x - xc + mx * (n * dx)| ≤ n * dx / 2)
        ∧ (|dx * x - xc| < n * dx / 2 → mx = 0))
      ∧ ((|yc| ≤ n * dx → |dx * y - yc + my * (n * dx)| ≤ n * dx / 2)
        ∧ (|dx * y - yc| < n * dx / 2 → my = 0))
      ∧ ((|zc| ≤ n * dx → |dx * z - zc + mz * (n * dx)| ≤ n * dx / 2)
        ∧ (|dx * z - zc| < n * dx / 2 → mz = 0))
      ∧ applyCovector (Grid.new n) alpha1 dx Phi - applyCovector (Grid.new n) alpha dx Phi
        = crossComponent
            (dx * x - xc + mx * (n * dx), dx * y - yc + my * (n * dx),
              dx * z - zc + mz * (n * dx))
            (-(deriv (fun u => Phi u (dx * y) (dx * z)) (dx * x)),
             -(deriv (fun v => Phi (dx * x) v (dx * z)) (dx * y)),
             -(deriv (fun w => Phi (dx * x) (dx * y) w) (dx * z)))
            direc := by
  obtain ⟨alpha1, h1, h2⟩ := cen_deriv4_alpha_applied n x y z hx hy hz dx hdx.ne' xc yc zc
    (n * dx) direc hdirec Phi hPx hPy hPz alpha hlen
  obtain ⟨mx, ex, bx, zx⟩ := get_wrapped_delta_of_cell n x ⟨by omega, by omega⟩ dx xc hdx
  obtain ⟨my, ey, bY, zy⟩ := get_wrapped_delta_of_cell n y ⟨by omega, by omega⟩ dx yc hdx
  obtain ⟨mz, ez, bz, zz⟩ := get_wrapped_delta_of_cell n z ⟨by omega, by omega⟩ dx zc hdx
  refine ⟨alpha1, mx, my, mz, h1, ⟨bx, zx⟩, ⟨bY, zy⟩, ⟨bz, zz⟩, ?_⟩
  rw [h2]
  unfold cellDisplacement
  simp only [ex, ey, ez]

/-- C7 (witness): the grid of side 9, its cell `(6,6,6)`, `dx = 1` (box length 9),
the centre `(0,0,0)`, the axis 0 and the potential `Φ(x,y,z) = x·y + z`; the
displacement of the cell is `(−3,−3,−3)`, the difference `(6,6,6)` moved by one
box length. -/
theorem cen_deriv4_alpha_exact_witness :
    ((2 : Int) ≤ 6 ∧ (6 : Int) + 2 < (9 : Nat)) ∧ (0 : ℝ) < 1
    ∧ (List.replicate 729 (0 : ℝ)).length = 9 * 9 * 9
    ∧ ∃ (alpha1 : List ℝ) (mx my mz : Int),
      cen_deriv4_alpha (Grid.new 9) ((6 * (9 : Nat) + 6) * (9 : Nat) + 6)
          (List.replicate 729 (0 : ℝ)) (1 : ℝ) 0 0 0 0 ((9 : Nat) * 1) = some alpha1
      ∧ ((|(0 : ℝ)| ≤ (9 : Nat) * 1
            → |(1 : ℝ) * (6 : Int) - 0 + mx * ((9 : Nat) * 1)| ≤ (9 : Nat) * 1 / 2)
        ∧ (|(1 : ℝ) * (6 : Int) - 0| < (9 : Nat) * 1 / 2 → mx = 0))
      ∧ ((|(0 : ℝ)| ≤ (9 : Nat) * 1
            → |(1 : ℝ) * (6 : Int) - 0 + my * ((9 : Nat) * 1)| ≤ (9 : Nat) * 1 / 2)
        ∧ (|(1 : ℝ) * (6 : Int) - 0| < (9 : Nat) * 1 / 2 → my = 0))
      ∧ ((|(0 : ℝ)| ≤ (9 : Nat) * 1
            → |(1 : ℝ) * (6 : Int) - 0 + mz * ((9 : Nat) * 1)| ≤ (9 : Nat) * 1 / 2)
        ∧ (|(1 : ℝ) * (6 : Int) - 0| < (9 : Nat) * 1 / 2 → mz = 0))
      ∧ applyCovector (Grid.new 9) alpha1 (1 : ℝ) samplePotential
          - applyCovector (Grid.new 9) (List.replicate 729 (0 : ℝ)) (1 : ℝ) samplePotential
        = crossComponent
            ((1 : ℝ) * (6 : Int) - 0 + mx * ((9 : Nat) * 1),
              (1 : ℝ) * (6 : Int) - 0 + my * ((9 : Nat) * 1),
              (1 : ℝ) * (6 : Int) - 0 + mz * ((9 : Nat) * 1))
            (-(deriv (fun u => samplePotential u ((1 : ℝ) * ((6 : Int) : ℝ)) (1 * ((6 : Int) : ℝ)))
                (1 * ((6 : Int) : ℝ))),
             -(deriv (fun v => samplePotential ((1 : ℝ) * ((6 : Int) : ℝ)) v (1 * ((6 : Int) : ℝ)))
                (1 * ((6 : Int) : ℝ))),
             -(deriv (fun w => samplePotential ((1 : ℝ) * ((6 : Int) : ℝ)) (1 * ((6 : Int) : ℝ)) w)
                (1 * ((6 : Int) : ℝ))))
            0 :=
  ⟨by decide, one_pos, by rw [List.length_replicate],
    cen_deriv4_alpha_exact 9 6 6 6 (by decide) (by decide) (by decide) 1 one_pos 0 0 0 0
      (Or.inl rfl) samplePotential
      (fun v w => ⟨Polynomial.C v * Polynomial.X + Polynomial.C w,
        Polynomial.natDegree_linear_le.trans (by norm_num),
        fun u => by simp [samplePotential]; ring⟩)
      (fun u w => ⟨Polynomial.C u * Polynomial.X + Polynomial.C w,
        Polynomial.natDegree_linear_le.trans (by norm_num),
        fun v => by simp [samplePotential]⟩)
      (fun u v => ⟨Polynomial.X + Polynomial.C (u * v),
        by rw [Polynomial.natDegree_X_add_C]; norm_num,
        fun w => by simp [samplePotential]; ring⟩)
      (List.replicate 729 0) (by rw [List.length_replicate])⟩

end constr_code

/-! ## C8: the centre of the flagged region -/

namespace ICGenerator

/-- On a one-level generator with exactly one flagged cell the centre that
`getCentre` sets is `(0,0,0)`, whatever the centroid of the cell is: the mean of
the wrapped differences is taken, the coordinate of the first cell is not added
back. -/
theorem getCentre_single_cell (getCellCentroid : grids.Grid → Nat → ℚ × ℚ × ℚ)
    (s : ICGenerator) (g : grids.Grid) (p : Nat) (hctx : s.multiLevelContext = [g])
    (hflags : g.flags = [p]) (hbox : 0 ≤ g.boxsize) :
    getCentre getCellCentroid s = .returned () { s with x0 := 0, y0 := 0, z0 := 0 } := by
  have hw : ∀ x : ℚ, g.getWrappedDelta x x = 0 := by
    intro x
    unfold grids.Grid.getWrappedDelta
    simp only [sub_self]
    have h1 : ¬ (0 > g.boxsize / 2) := by linarith
    have h2 : ¬ ((0 : ℚ) < -g.boxsize / 2) := by linarith
    rw [if_neg h1, if_neg h2]
  simp [getCentre, deepestLevelWithParticlesSelected, deepestLevelFrom, getNumLevels, hctx,
    grids.Grid.hasFlaggedCells, grids.Grid.getFlaggedCells, hflags, hw]

/-- C8 (the code at the failing input): the only flagged cell is the cell 7 of a
grid of side 2 and box length 2, whose centroid is `(3/2,3/2,3/2)`.
`ICGenerator::getCentre` sets the centre to `(0,0,0)`, not to the centroid of
the cell, whereas the legacy `getCentre` returns the coordinate `(1,1,1)` of the
cell: it adds the coordinate of the first cell to the mean of the wrapped
differences. -/
theorem getCentre_single_cell_is_origin :
    oneFlaggedCell.multiLevelContext.map (fun g => g.flags) = [[7]]
    ∧ cellCentre { size := 2, boxsize := 2, offsetLower := (0, 0, 0), flags := [7] } 7
        = (3 / 2, 3 / 2, 3 / 2)
    ∧ getCentre cellCentre oneFlaggedCell
        = .returned () { oneFlaggedCell with x0 := 0, y0 := 0, z0 := 0 }
    ∧ (constr_code.Grid.new 2).cells[7]?
        = some { grid := (1, 1, 1), coords := (1, 1, 1) }
    ∧ constr_code.getCentre [7] (2 : ℚ) 1 (constr_code.Grid.new 2) = some (1, 1, 1) := by
  refine ⟨rfl, ?_, getCentre_single_cell cellCentre oneFlaggedCell _ 7 rfl rfl (by norm_num),
    by decide, ?_⟩
  · simp [cellCentre, grids.Grid.getCellCoordinate, grids.Grid.dx]
    norm_num
  · have hc : constr_code.at? (constr_code.Grid.new 2).cells 7
        = some { grid := (1, 1, 1), coords := (1, 1, 1) } := by decide
    simp [constr_code.getCentre, hc, constr_code.get_wrapped_delta]
    norm_num

end ICGenerator

/-! ## C9: the targets of `constrain_direction` -/

namespace constr_code

/-- The complex square root (principal branch) of a non-negative real number is
its real square root. -/
theorem csqrt_ofReal (x : ℝ) (hx : 0 ≤ x) :
    ((x : ℝ) : ℂ) ^ ((1 : ℂ) / 2) = ((Real.sqrt x : ℝ) : ℂ) := by
  rw [Real.sqrt_eq_rpow, Complex.ofReal_cpow hx]
  norm_num

/-- The sum `dot(vals, vals, 3)` is the real number `Σ_j |v_j|²`. -/
theorem dot_self_three (v1 v2 v3 : ℂ) :
    dot [v1, v2, v3] [v1, v2, v3] 3
      = ((Complex.normSq v1 + Complex.normSq v2 + Complex.normSq v3 : ℝ) : ℂ) := by
  simp [dot, List.range, List.range.loop, Complex.normSq_eq_conj_mul_self]

/-- For every triple of current values `v_j` and every non-zero direction `d`,
the three targets that `constrain_direction` computes are `r·m·d_j/|d|`, with
`m = sqrt(Σ_j |v_j|²)` and `r` the renormalization factor (`r = 1` when
`and_renormalize` is absent); the target vector is a multiple of `d`, the sum of
the squares of its entries is `(r·m)²`, and its Euclidean norm is `r·m` (for a
factor `r ≥ 0`). -/
theorem targets_along_direction (v1 v2 v3 : ℂ) (d1 d2 d3 : ℝ)
    (hd : (d1, d2, d3) ≠ (0, 0, 0)) (renorm : Option ℝ) :
    constrain_direction.targets Real.sqrt (fun z : ℂ => z ^ ((1 : ℂ) / 2)) (v1, v2, v3)
        (d1, d2, d3) renorm
      = (((renorm.getD 1
            * Real.sqrt (Complex.normSq v1 + Complex.normSq v2 + Complex.normSq v3) * d1
            / Real.sqrt (d1 * d1 + d2 * d2 + d3 * d3) : ℝ) : ℂ),
         ((renorm.getD 1
            * Real.sqrt (Complex.normSq v1 + Complex.normSq v2 + Complex.normSq v3) * d2
            / Real.sqrt (d1 * d1 + d2 * d2 + d3 * d3) : ℝ) : ℂ),
         ((renorm.getD 1
            * Real.sqrt (Complex.normSq v1 + Complex.normSq v2 + Complex.normSq v3) * d3
            / Real.sqrt (d1 * d1 + d2 * d2 + d3 * d3) : ℝ) : ℂ))
    ∧ (∃ c : ℝ,
        constrain_direction.targets Real.sqrt (fun z : ℂ => z ^ ((1 : ℂ) / 2)) (v1, v2, v3)
            (d1, d2, d3) renorm
          = (((c * d1 : ℝ) : ℂ), ((c * d2 : ℝ) : ℂ), ((c * d3 : ℝ) : ℂ)))
    ∧ Complex.normSq (constrain_direction.targets Real.sqrt (fun z : ℂ => z ^ ((1 : ℂ) / 2))
          (v1, v2, v3) (d1, d2, d3) renorm).1
        + Complex.normSq (constrain_direction.targets Real.sqrt (fun z : ℂ => z ^ ((1 : ℂ) / 2))
          (v1, v2, v3) (d1, d2, d3) renorm).2.1
        + Complex.normSq (constrain_direction.targets Real.sqrt (fun z : ℂ => z ^ ((1 : ℂ) / 2))
          (v1, v2, v3) (d1, d2, d3) renorm).2.2
        = (renorm.getD 1
            * Real.sqrt (Complex.normSq v1 + Complex.normSq v2 + Complex.normSq v3)) ^ 2
    ∧ (0 ≤ renorm.getD 1 →
        Real.sqrt
          (Complex.normSq (constrain_direction.targets Real.sqrt
              (fun z : ℂ => z ^ ((1 : ℂ) / 2)) (v1, v2, v3) (d1, d2, d3) renorm).1
            + Complex.normSq (constrain_direction.targets Real.sqrt
              (fun z : ℂ => z ^ ((1 : ℂ) / 2)) (v1, v2, v3) (d1, d2, d3) renorm).2.1
            + Complex.normSq (constrain_direction.targets Real.sqrt
              (fun z : ℂ => z ^ ((1 : ℂ) / 2)) (v1, v2, v3) (d1, d2, d3) renorm).2.2)
          = renorm.getD 1
            * Real.sqrt (Complex.normSq v1 + Complex.normSq v2 + Complex.normSq v3)) := by
  have hS : 0 ≤ Complex.normSq v1 + Complex.normSq v2 + Complex.normSq v3 := by
    have := Complex.normSq_nonneg v1
    have := Complex.normSq_nonneg v2
    have := Complex.normSq_nonneg v3
    linarith
  have hD : 0 < d1 * d1 + d2 * d2 + d3 * d3 := by
    have h1 := mul_self_nonneg d1
    have h2 := mul_self_nonneg d2
    have h3 := mul_self_nonneg d3
    rcases lt_or_eq_of_le (add_nonneg (add_nonneg h1 h2) h3) with h | h
    · exact h
    · exfalso
      apply hd
      have e1 : d1 * d1 = 0 := by linarith
      have e2 : d2 * d2 = 0 := by linarith
      have e3 : d3 * d3 = 0 := by linarith
      rw [mul_self_eq_zero] at e1 e2 e3
      rw [e1, e2, e3]
  have hdn : Real.sqrt (d1 * d1 + d2 * d2 + d3 * d3) ≠ 0 := (Real.sqrt_pos.mpr hD).ne'
  have htarget : constrain_direction.targets Real.sqrt (fun z : ℂ => z ^ ((1 : ℂ) / 2))
      (v1, v2, v3) (d1, d2, d3) renorm
      = (((renorm.getD 1
            * Real.sqrt (Complex.normSq v1 + Complex.normSq v2 + Complex.normSq v3) * d1
            / Real.sqrt (d1 * d1 + d2 * d2 + d3 * d3) : ℝ) : ℂ),
         ((renorm.getD 1
            * Real.sqrt (Complex.normSq v1 + Complex.normSq v2 + Complex.normSq v3) * d2
            / Real.sqrt (d1 * d1 + d2 * d2 + d3 * d3) : ℝ) : ℂ),
         ((renorm.getD 1
            * Real.sqrt (Complex.normSq v1 + Complex.normSq v2 + Complex.normSq v3) * d3
            / Real.sqrt (d1 * d1 + d2 * d2 + d3 * d3) : ℝ) : ℂ)) := by
    unfold constrain_direction.targets
    simp only [dot_self_three, csqrt_ofReal _ hS]
    cases renorm with
    | none =>
      simp only [Option.getD_none, Complex.coe_algebraMap]
      refine Prod.ext ?_ (Prod.ext ?_ ?_) <;> · push_cast; ring
    | some r =>
      simp only [Option.getD_some, Complex.coe_algebraMap]
      refine Prod.ext ?_ (Prod.ext ?_ ?_) <;> · push_cast; ring
  have hsq : Complex.normSq (constrain_direction.targets Real.sqrt
          (fun z : ℂ => z ^ ((1 : ℂ) / 2)) (v1, v2, v3) (d1, d2, d3) renorm).1
        + Complex.normSq (constrain_direction.targets Real.sqrt
          (fun z : ℂ => z ^ ((1 : ℂ) / 2)) (v1, v2, v3) (d1, d2, d3) renorm).2.1
        + Complex.normSq (constrain_direction.targets Real.sqrt
          (fun z : ℂ => z ^ ((1 : ℂ) / 2)) (v1, v2, v3) (d1, d2, d3) renorm).2.2
        = (renorm.getD 1
            * Real.sqrt (Complex.normSq v1 + Complex.normSq v2 + Complex.normSq v3)) ^ 2 := by
    rw [htarget]
    simp only [Complex.normSq_ofReal]
    field_simp
    ring
  refine ⟨htarget, ⟨renorm.getD 1
      * Real.sqrt (Complex.normSq v1 + Complex.normSq v2 + Complex.normSq v3)
      / Real.sqrt (d1 * d1 + d2 * d2 + d3 * d3), ?_⟩, hsq, ?_⟩
  · rw [htarget]
    refine Prod.ext ?_ (Prod.ext ?_ ?_) <;> · simp only; congr 1; ring
  · intro hr
    rw [hsq]
    exact Real.sqrt_sq (mul_nonneg hr (Real.sqrt_nonneg _))

/-- The command `constrain_direction` registers three constraints, the covectors
`vecs[0], vecs[1], vecs[2]` in this order, each with the target computed for its
axis. -/
theorem constrain_direction_registers {K : Type} [LinearOrderedField K] {F : Type} [Field F]
    [StarRing F] [Algebra K F] (sqrt : K → K) (csqrt : F → F) (vecs : List F × List F × List F)
    (ftsc : List F) (npartTotal : Nat) (direction : K × K × K) (renorm : Option K)
    (constr : List (StoredConstraint F)) :
    ∃ i1 i2 i3 : F,
      constrain_direction sqrt csqrt vecs ftsc npartTotal direction renorm constr
        = constr ++
          [{ alpha := vecs.1
             target := (constrain_direction.targets sqrt csqrt
                (dot vecs.1 ftsc npartTotal, dot vecs.2.1 ftsc npartTotal,
                  dot vecs.2.2 ftsc npartTotal) direction renorm).1
             initial := i1 },
           { alpha := vecs.2.1
             target := (constrain_direction.targets sqrt csqrt
                (dot vecs.1 ftsc npartTotal, dot vecs.2.1 ftsc npartTotal,
                  dot vecs.2.2 ftsc npartTotal) direction renorm).2.1
             initial := i2 },
           { alpha := vecs.2.2
             target := (constrain_direction.targets sqrt csqrt
                (dot vecs.1 ftsc npartTotal, dot vecs.2.1 ftsc npartTotal,
                  dot vecs.2.2 ftsc npartTotal) direction renorm).2.2
             initial := i3 }] := by
  unfold constrain_direction add_constraint
  simp only [List.append_assoc, List.singleton_append, List.cons_append, List.nil_append]
  exact ⟨_, _, _, rfl⟩

/-- The command `constrain` of the legacy program stores, as initial value, the
value `dot(vec, ftsc)` that the field attains for the covector. -/
theorem constrain_stores_dot {K : Type} [LinearOrderedField K] {F : Type} [Field F] [StarRing F]
    [Algebra K F] (vec ftsc : List F) (npartTotal : Nat) (command : String) (constraint_real : K)
    (constr after : List (StoredConstraint F))
    (h : constrain vec ftsc npartTotal command constraint_real constr = some after) :
    ∃ c, after = constr ++ [c] ∧ c.alpha = vec ∧ c.initial = dot vec ftsc npartTotal := by
  unfold constrain at h
  split_ifs at h
  simp only [Option.some.injEq] at h
  exact ⟨_, h.symm, rfl, rfl⟩

/-- The square root of the rational number 1. -/
theorem rat_sqrt_one : Rat.sqrt 1 = 1 := by
  rw [show (1 : ℚ) = 1 * 1 by norm_num, Rat.sqrt_eq]
  norm_num

/-- C10 (the code at the failing input): one mode, the field `δ = [2]`, the
covectors `[1]`, `[0]`, `[0]` for the three axes (current values 2, 0, 0) and the
direction `(0, 1, 0)`. `constrain_direction` stores the targets `0, 2, 0` with the
initial values `0, 1, 0`: the components of the unit direction, not the values
`2, 0, 0` that the field attains for the covectors. -/
theorem constrain_direction_stores_direction_as_initial :
    (dot [1] [2] 1, dot [0] [2] 1, dot [0] [2] 1) = ((2 : ℚ), (0 : ℚ), (0 : ℚ))
    ∧ (constrain_direction Rat.sqrt Rat.sqrt (([1] : List ℚ), [0], [0]) [2] 1
          ((0 : ℚ), 1, 0) none []).map (fun c => (c.alpha, c.target, c.initial))
        = [([1], 0, 0), ([0], 2, 1), ([0], 0, 0)] := by
  constructor
  · simp [dot, List.range, List.range.loop]
  · simp [constrain_direction, constrain_direction.targets, add_constraint, dot, List.range,
      List.range.loop, rat_sqrt_one, Rat.sqrt_eq]

end constr_code

namespace ICGenerator

/-- The function `ICGenerator::constrain` stores, as initial value, the inner
product of the covector with the output field, whenever it returns. -/
theorem constrain_stores_innerProduct (realisation : Int → List grids.Grid → List (List ℚ))
    (calcConstraint : String → List (List ℚ)) (s after : ICGenerator) (name type : String)
    (value : ℚ) (h : constrain realisation calcConstraint s name type value = .returned () after) :
    ∃ c before, after.constraintApplicator = before ++ [c] ∧ c.alpha = calcConstraint name
      ∧ c.initial = innerProduct (calcConstraint name) after.outputField := by
  unfold constrain at h
  by_cases hd : s.haveInitialisedRandomComponent = false
  · simp only [hd, if_true, initialiseRandomComponent, Bool.false_eq_true, if_false] at h
    split_ifs at h <;> cases h <;> exact ⟨_, _, rfl, rfl, rfl⟩
  · rw [if_neg hd] at h
    simp only at h
    split_ifs at h <;> cases h <;> exact ⟨_, _, rfl, rfl, rfl⟩

end ICGenerator

/-! ## C11: the displacement modes of the Zel'dovich loop -/

namespace constr_code

/-- The signed index of a coordinate `0 ≤ g < res` vanishes only for `g = 0`. -/
theorem signedIndex_eq_zero (res g : Int) (hg : 0 ≤ g ∧ g < res) (h : signedIndex res g = 0) :
    g = 0 := by
  unfold signedIndex at h
  split_ifs at h <;> omega

/-- One displacement mode: the pair `(-Im δ / kfft² · i / kw, Re δ / kfft² · i / kw)`
is the complex number `i·k·δ / k²` with `k = kw·i` and `k² = kw²·s`, `s` being the
sum of the squared indices. -/
theorem mode_eq (s i kw : ℝ) (hs : s ≠ 0) (hkw : kw ≠ 0) (δ : ℂ) :
    (⟨-δ.im / s * i / kw, δ.re / s * i / kw⟩ : ℂ)
      = Complex.I * ((kw * i : ℝ) : ℂ) * δ / ((kw ^ 2 * s : ℝ) : ℂ) := by
  have hR : Complex.I * ((kw * i : ℝ) : ℂ) * δ / ((kw ^ 2 * s : ℝ) : ℂ)
      = ((i / (kw * s) : ℝ) : ℂ) * (Complex.I * δ) := by
    have h1 : (kw : ℂ) ≠ 0 := by exact_mod_cast hkw
    have h2 : (s : ℂ) ≠ 0 := by exact_mod_cast hs
    push_cast
    field_simp
    ring
  rw [hR]
  apply Complex.ext
  · simp only [Complex.mul_re, Complex.ofReal_re, Complex.ofReal_im, Complex.I_re, Complex.I_im,
      Complex.mul_im]
    field_simp
    ring
  · simp only [Complex.mul_re, Complex.ofReal_re, Complex.ofReal_im, Complex.I_re, Complex.I_im,
      Complex.mul_im]
    field_simp
    ring

/-- C11 (the claim fails): the grid size `res = 2`, the cell `(1,0,0)` (signed
index vector `(1,0,0)`), the box length `L = 2π` (so `k = (1,0,0)` and `k² = 1`)
and the mode `δ_k = 1`. The loop builds the x-component `ψ_k = i`, whereas
`−i·k_x·δ_k/k²` is `−i`. -/
theorem zeldovichModes_unit_mode :
    (⟨(zeldovichModes Real.sqrt 2 1 0 0 (2 * Real.pi / (2 * Real.pi)) (1, 0)).1.1,
      (zeldovichModes Real.sqrt 2 1 0 0 (2 * Real.pi / (2 * Real.pi)) (1, 0)).1.2⟩ : ℂ)
        = Complex.I
      ∧ -Complex.I * ((2 * Real.pi / (2 * Real.pi) * (signedIndex 2 1 : ℝ) : ℝ) : ℂ) * 1
          / (((2 * Real.pi / (2 * Real.pi) * (signedIndex 2 1 : ℝ)) ^ 2
              + (2 * Real.pi / (2 * Real.pi) * (signedIndex 2 0 : ℝ)) ^ 2
              + (2 * Real.pi / (2 * Real.pi) * (signedIndex 2 0 : ℝ)) ^ 2 : ℝ) : ℂ)
        = -Complex.I
      ∧ Complex.I ≠ -Complex.I := by
  have hkw : 2 * Real.pi / (2 * Real.pi) = 1 :=
    div_self (mul_ne_zero two_ne_zero Real.pi_ne_zero)
  have e1 : signedIndex 2 1 = 1 := by decide
  have e0 : signedIndex 2 0 = 0 := by decide
  have e : ∀ g : Int, (if g > Int.tdiv 2 2 then g - 2 else g) = signedIndex 2 g := fun _ => rfl
  refine ⟨?_, ?_, ?_⟩
  · unfold zeldovichModes
    simp only [e, e1, e0, hkw]
    apply Complex.ext <;> simp
  · rw [hkw, e1, e0]
    simp
  · intro h
    have h2 := congrArg Complex.im h
    simp only [Complex.I_im, Complex.neg_im] at h2
    norm_num at h2

/-- C11 (amended): for every grid size and every non-zero Fourier cell
`(ix,iy,iz)` with signed index vector `(i_x,i_y,i_z)` and wavevector
`k_j = (2π/L)·i_j`, the three displacement modes built in the Zel'dovich loop
equal `ψ_k(j) = +i·k_j·δ_k / k²` (`i` the imaginary unit, `k² = Σ k_j²`). -/
theorem zeldovichModes_eq (res ix iy iz : Int) (hx : 0 ≤ ix ∧ ix < res)
    (hy : 0 ≤ iy ∧ iy < res) (hz : 0 ≤ iz ∧ iz < res) (hcell : (ix, iy, iz) ≠ (0, 0, 0))
    (L : ℝ) (hL : L ≠ 0) (δ : ℂ) :
    (⟨(zeldovichModes Real.sqrt res ix iy iz (2 * Real.pi / L) (δ.re, δ.im)).1.1,
      (zeldovichModes Real.sqrt res ix iy iz (2 * Real.pi / L) (δ.re, δ.im)).1.2⟩ : ℂ)
      = Complex.I * ((2 * Real.pi / L * (signedIndex res ix : ℝ) : ℝ) : ℂ) * δ
        / (((2 * Real.pi / L * (signedIndex res ix : ℝ)) ^ 2
            + (2 * Real.pi / L * (signedIndex res iy : ℝ)) ^ 2
            + (2 * Real.pi / L * (signedIndex res iz : ℝ)) ^ 2 : ℝ) : ℂ)
    ∧ (⟨(zeldovichModes Real.sqrt res ix iy iz (2 * Real.pi / L) (δ.re, δ.im)).2.1.1,
      (zeldovichModes Real.sqrt res ix iy iz (2 * Real.pi / L) (δ.re, δ.im)).2.1.2⟩ : ℂ)
      = Complex.I * ((2 * Real.pi / L * (signedIndex res iy : ℝ) : ℝ) : ℂ) * δ
        / (((2 * Real.pi / L * (signedIndex res ix : ℝ)) ^ 2
            + (2 * Real.pi / L * (signedIndex res iy : ℝ)) ^ 2
            + (2 * Real.pi / L * (signedIndex res iz : ℝ)) ^ 2 : ℝ) : ℂ)
    ∧ (⟨(zeldovichModes Real.sqrt res ix iy iz (2 * Real.pi / L) (δ.re, δ.im)).2.2.1,
      (zeldovichModes Real.sqrt res ix iy iz (2 * Real.pi / L) (δ.re, δ.im)).2.2.2⟩ : ℂ)
      = Complex.I * ((2 * Real.pi / L * (signedIndex res iz : ℝ) : ℝ) : ℂ) * δ
        / (((2 * Real.pi / L * (signedIndex res ix : ℝ)) ^ 2
            + (2 * Real.pi / L * (signedIndex res iy : ℝ)) ^ 2
            + (2 * Real.pi / L * (signedIndex res iz : ℝ)) ^ 2 : ℝ) : ℂ) := by
  have hkw : 2 * Real.pi / L ≠ 0 := div_ne_zero (mul_ne_zero two_ne_zero Real.pi_ne_zero) hL
  have hsI : signedIndex res ix * signedIndex res ix + signedIndex res iy * signedIndex res iy
      + signedIndex res iz * signedIndex res iz ≠ 0 := by
    intro h
    have h1 := mul_self_nonneg (signedIndex res ix)
    have h2 := mul_self_nonneg (signedIndex res iy)
    have h3 := mul_self_nonneg (signedIndex res iz)
    have e1 : signedIndex res ix * signedIndex res ix = 0 := by omega
    have e2 : signedIndex res iy * signedIndex res iy = 0 := by omega
    have e3 : signedIndex res iz * signedIndex res iz = 0 := by omega
    rw [mul_self_eq_zero] at e1 e2 e3
    apply hcell
    rw [signedIndex_eq_zero res ix hx e1, signedIndex_eq_zero res iy hy e2,
      signedIndex_eq_zero res iz hz e3]
  have hnn : (0 : ℝ) ≤ ((signedIndex res ix * signedIndex res ix
      + signedIndex res iy * signedIndex res iy + signedIndex res iz * signedIndex res iz : Int) : ℝ) := by
    have : (0 : Int) ≤ signedIndex res ix * signedIndex res ix
        + signedIndex res iy * signedIndex res iy + signedIndex res iz * signedIndex res iz := by
      have h1 := mul_self_nonneg (signedIndex res ix)
      have h2 := mul_self_nonneg (signedIndex res iy)
      have h3 := mul_self_nonneg (signedIndex res iz)
      omega
    exact_mod_cast this
  have hs : (((signedIndex res ix * signedIndex res ix
      + signedIndex res iy * signedIndex res iy + signedIndex res iz * signedIndex res iz : Int)) : ℝ)
      ≠ 0 := by exact_mod_cast hsI
  have hk2 : ∀ a b c kw : ℝ, (kw * a) ^ 2 + (kw * b) ^ 2 + (kw * c) ^ 2
      = kw ^ 2 * (a * a + b * b + c * c) := by
    intro a b c kw
    ring
  have hcast : (((signedIndex res ix * signedIndex res ix
      + signedIndex res iy * signedIndex res iy + signedIndex res iz * signedIndex res iz : Int)) : ℝ)
      = (signedIndex res ix : ℝ) * (signedIndex res ix : ℝ)
        + (signedIndex res iy : ℝ) * (signedIndex res iy : ℝ)
        + (signedIndex res iz : ℝ) * (signedIndex res iz : ℝ) := by
    push_cast
    ring
  have hmodes : zeldovichModes Real.sqrt res ix iy iz (2 * Real.pi / L) (δ.re, δ.im)
      = ((-δ.im / (((signedIndex res ix * signedIndex res ix
            + signedIndex res iy * signedIndex res iy
            + signedIndex res iz * signedIndex res iz : Int)) : ℝ)
            * (signedIndex res ix : ℝ) / (2 * Real.pi / L),
          δ.re / (((signedIndex res ix * signedIndex res ix
            + signedIndex res iy * signedIndex res iy
            + signedIndex res iz * signedIndex res iz : Int)) : ℝ)
            * (signedIndex res ix : ℝ) / (2 * Real.pi / L)),
         (-δ.im / (((signedIndex res ix * signedIndex res ix
            + signedIndex res iy * signedIndex res iy
            + signedIndex res iz * signedIndex res iz : Int)) : ℝ)
            * (signedIndex res iy : ℝ) / (2 * Real.pi / L),
          δ.re / (((signedIndex res ix * signedIndex res ix
            + signedIndex res iy * signedIndex res iy
            + signedIndex res iz * signedIndex res iz : Int)) : ℝ)
            * (signedIndex res iy : ℝ) / (2 * Real.pi / L)),
         (-δ.im / (((signedIndex res ix * signedIndex res ix
            + signedIndex res iy * signedIndex res iy
            + signedIndex res iz * signedIndex res iz : Int)) : ℝ)
            * (signedIndex res iz : ℝ) / (2 * Real.pi / L),
          δ.re / (((signedIndex res ix * signedIndex res ix
            + signedIndex res iy * signedIndex res iy
            + signedIndex res iz * signedIndex res iz : Int)) : ℝ)
            * (signedIndex res iz : ℝ) / (2 * Real.pi / L))) := by
    have e : ∀ g : Int, (if g > Int.tdiv res 2 then g - res else g) = signedIndex res g :=
      fun _ => rfl
    unfold zeldovichModes
    simp only [e, Real.mul_self_sqrt hnn]
  rw [hmodes, hk2, ← hcast]
  exact ⟨mode_eq _ _ _ hs hkw δ, mode_eq _ _ _ hs hkw δ, mode_eq _ _ _ hs hkw δ⟩

/-- C11 (witness): the grid size `res = 2`, the cell `(1,0,0)`, the box length
`L = 2` and the mode `δ_k = 1`; the x-component. -/
theorem zeldovichModes_eq_witness :
    ((0 : Int) ≤ 1 ∧ (1 : Int) < 2) ∧ ((0 : Int) ≤ 0 ∧ (0 : Int) < 2)
      ∧ ((1 : Int), (0 : Int), (0 : Int)) ≠ (0, 0, 0) ∧ (2 : ℝ) ≠ 0
      ∧ (⟨(zeldovichModes Real.sqrt 2 1 0 0 (2 * Real.pi / 2) ((1 : ℂ).re, (1 : ℂ).im)).1.1,
          (zeldovichModes Real.sqrt 2 1 0 0 (2 * Real.pi / 2) ((1 : ℂ).re, (1 : ℂ).im)).1.2⟩ : ℂ)
        = Complex.I * ((2 * Real.pi / 2 * (signedIndex 2 1 : ℝ) : ℝ) : ℂ) * 1
          / (((2 * Real.pi / 2 * (signedIndex 2 1 : ℝ)) ^ 2
              + (2 * Real.pi / 2 * (signedIndex 2 0 : ℝ)) ^ 2
              + (2 * Real.pi / 2 * (signedIndex 2 0 : ℝ)) ^ 2 : ℝ) : ℂ) :=
  ⟨by decide, by decide, by decide, two_ne_zero,
    (zeldovichModes_eq 2 1 0 0 (by decide) (by decide) (by decide) (by decide) 2 two_ne_zero
      1).1⟩

end constr_code

/-! ## C12: the particle coordinate of the Zel'dovich loop -/

namespace constr_code

/-- For a cell coordinate in `[0, N)` and a displacement with `|ψ| < L` the
coordinate that the loop produces lies in the closed interval `[0, L]`. -/
theorem zaPosition_mem_closed {K : Type} [LinearOrderedField K] (psi : K) (n : Int)
    (Boxlength : K) (ix : Int) (hL : 0 < Boxlength) (hix : 0 ≤ ix ∧ ix < n)
    (hpsi : |psi| < Boxlength) :
    0 ≤ zaPosition psi n Boxlength ix ∧ zaPosition psi n Boxlength ix ≤ Boxlength := by
  have hn : (0 : K) < (n : K) := by
    have : (0 : Int) < n := by omega
    exact_mod_cast this
  have hix0 : (0 : K) ≤ (ix : K) := by exact_mod_cast hix.1
  have hixn : (ix : K) + 1 ≤ (n : K) := by
    have : ix + 1 ≤ n := by omega
    exact_mod_cast this
  have hratio : 0 < Boxlength / (n : K) := div_pos hL hn
  have hfull : (n : K) * (Boxlength / (n : K)) = Boxlength := by
    field_simp
  obtain ⟨hlo, hhi⟩ := abs_lt.mp hpsi
  have h1 : -(n : K) < psi * (n : K) / Boxlength := by
    rw [lt_div_iff₀ hL]
    nlinarith
  have h2 : psi * (n : K) / Boxlength < (n : K) := by
    rw [div_lt_iff₀ hL]
    nlinarith
  have key : ∀ q : K, 0 ≤ q → q ≤ (n : K) →
      0 ≤ q * (Boxlength / (n : K)) ∧ q * (Boxlength / (n : K)) ≤ Boxlength := by
    intro q hq0 hqn
    refine ⟨mul_nonneg hq0 hratio.le, ?_⟩
    calc q * (Boxlength / (n : K)) ≤ (n : K) * (Boxlength / (n : K)) :=
          mul_le_mul_of_nonneg_right hqn hratio.le
      _ = Boxlength := hfull
  unfold zaPosition
  simp only
  split_ifs with ha hb
  · exact key _ (by linarith) (by linarith)
  · exact key _ (by linarith) (by linarith)
  · exact key _ (not_lt.mp ha) (not_lt.mp hb)

/-- C12 (the code at the failing input): on a grid of side `N = 2` in a box of
length `L = 2`, the cell coordinate `ix = 1` with the displacement `ψ = 1`
(`|ψ| < L`) gives `ψ·N/L + ix = 2`, which is neither below 0 nor above `res`, so
it is not wrapped: the particle coordinate is `2 = L`, outside `[0, L)`. -/
theorem zaPosition_reaches_boxlength :
    |(1 : ℚ)| < 2 ∧ ((0 : Int) ≤ 1 ∧ (1 : Int) < 2)
    ∧ zaPosition (1 : ℚ) 2 2 1 = 2
    ∧ ¬ (zaPosition (1 : ℚ) 2 2 1 < 2) := by
  have h : zaPosition (1 : ℚ) 2 2 1 = 2 := by
    norm_num [zaPosition]
  refine ⟨by norm_num, by decide, h, ?_⟩
  rw [h]
  norm_num

/-! ## C13: `get_wrapped_delta` -/

/-- C13 (counterexample): with `L = 2`, `x0 = 0` and `x1 = 1` the difference is
`-1 = -L/2`; it is not below `-L/2`, so it is not shifted, and the result `-1`
is outside the half-open interval `(-L/2, L/2]`. -/
theorem get_wrapped_delta_keeps_minus_half :
    (0 : ℚ) < 2 ∧ ((0 : ℚ) ≤ 0 ∧ (0 : ℚ) < 2) ∧ ((0 : ℚ) ≤ 1 ∧ (1 : ℚ) < 2)
    ∧ get_wrapped_delta (0 : ℚ) 1 2 = -1
    ∧ ¬ (-(2 : ℚ) / 2 < get_wrapped_delta (0 : ℚ) 1 2 ∧ get_wrapped_delta (0 : ℚ) 1 2 ≤ 2 / 2) := by
  have h : get_wrapped_delta (0 : ℚ) 1 2 = -1 := by
    norm_num [get_wrapped_delta]
  refine ⟨by norm_num, by norm_num, by norm_num, h, ?_⟩
  rw [h]
  norm_num

/-- C13 (amended): for every box length `L > 0` and all coordinates
`x0, x1 ∈ [0, L)` (a box that holds a coordinate has `L > 0`),
`get_wrapped_delta(x0, x1, L)` returns `x0 − x1` shifted by `−L`, `0` or `+L`,
and the result lies in the closed interval `[−L/2, L/2]`. -/
theorem get_wrapped_delta_mem_closed {K : Type} [LinearOrderedField K] (x0 x1 boxlen : K)
    (h0 : 0 ≤ x0 ∧ x0 < boxlen) (h1 : 0 ≤ x1 ∧ x1 < boxlen) :
    (get_wrapped_delta x0 x1 boxlen = x0 - x1 - boxlen
        ∨ get_wrapped_delta x0 x1 boxlen = x0 - x1
        ∨ get_wrapped_delta x0 x1 boxlen = x0 - x1 + boxlen)
    ∧ -boxlen / 2 ≤ get_wrapped_delta x0 x1 boxlen
    ∧ get_wrapped_delta x0 x1 boxlen ≤ boxlen / 2 := by
  have hneg : -boxlen / 2 = -(boxlen / 2) := by ring
  unfold get_wrapped_delta
  simp only
  rw [hneg]
  by_cases ha : x0 - x1 > boxlen / 2
  · rw [if_pos ha]
    have hb : ¬ (x0 - x1 - boxlen < -(boxlen / 2)) := by linarith
    rw [if_neg hb]
    exact ⟨Or.inl rfl, by linarith, by linarith⟩
  · rw [if_neg ha]
    by_cases hb : x0 - x1 < -(boxlen / 2)
    · rw [if_pos hb]
      exact ⟨Or.inr (Or.inr rfl), by linarith, by linarith⟩
    · rw [if_neg hb]
      exact ⟨Or.inr (Or.inl rfl), by linarith, by linarith⟩

/-- C13 (witness): the box length 2 and the coordinates `0` and `1`. -/
theorem get_wrapped_delta_mem_closed_witness :
    ((0 : ℚ) ≤ 0 ∧ (0 : ℚ) < 2) ∧ ((0 : ℚ) ≤ 1 ∧ (1 : ℚ) < 2)
    ∧ (get_wrapped_delta (0 : ℚ) 1 2 = 0 - 1 - 2
        ∨ get_wrapped_delta (0 : ℚ) 1 2 = 0 - 1
        ∨ get_wrapped_delta (0 : ℚ) 1 2 = 0 - 1 + 2)
    ∧ -(2 : ℚ) / 2 ≤ get_wrapped_delta (0 : ℚ) 1 2
    ∧ get_wrapped_delta (0 : ℚ) 1 2 ≤ 2 / 2 :=
  ⟨by norm_num, by norm_num, get_wrapped_delta_mem_closed 0 1 2 (by norm_num) (by norm_num)⟩

/-! ## C14: the signed indices of the cell table -/

/-- The rule `gg = g; if (g > n/2) gg = g - n` on an index `0 ≤ g < n`: twice the
signed index lies in `(-n, n]`. -/
theorem signedIndex_range (n g : Int) (hg : 0 ≤ g ∧ g < n) :
    -n < 2 * signedIndex n g ∧ 2 * signedIndex n g ≤ n := by
  have hn : 0 ≤ n := by omega
  have ht : Int.tdiv n 2 = n / 2 := Int.tdiv_eq_ediv hn (by norm_num)
  unfold signedIndex
  rw [ht]
  split_ifs with h <;> constructor <;> omega

/-- The entries of the table of `Grid::Grid(n)`. -/
theorem mem_cells (n : Nat) (c : grid_struct) (hc : c ∈ (Grid.new n).cells) :
    ∃ g1 g2 g3 : Nat, g1 < n ∧ g2 < n ∧ g3 < n
      ∧ c = { grid := ((g1 : Int), (g2 : Int), (g3 : Int)),
              coords := (signedIndex n g1, signedIndex n g2, signedIndex n g3) } := by
  unfold Grid.new at hc
  simp only [List.mem_flatMap, List.mem_map, List.mem_range] at hc
  obtain ⟨g1, h1, g2, h2, g3, h3, rfl⟩ := hc
  exact ⟨g1, g2, g3, h1, h2, h3, rfl⟩

/-- C14 (counterexample): on the grid of side `N = 2` the cell of index 1 has
the signed index `1 = N/2` along the last axis, which is not below `N/2`. -/
theorem cells_hold_plus_half :
    (Grid.new 2).cells[1]? = some { grid := (0, 0, 1), coords := (0, 0, 1) }
    ∧ ¬ (-((2 : Nat) : ℚ) / 2 ≤ (((1 : Int)) : ℚ) ∧ (((1 : Int)) : ℚ) < ((2 : Nat) : ℚ) / 2) := by
  refine ⟨by decide, ?_⟩
  norm_num

/-- C14 (amended): for every grid side `N ≥ 1` and every cell, each signed
per-axis index that `Grid::Grid` stores in `cells[ind].coords` (the rule
`g > N/2 ? g − N : g`, the one the Poisson and Zel'dovich loops recompute) lies
in the signed range `(−N/2, N/2]` (a grid that has a cell has `N ≥ 1`). -/
theorem cells_coords_range (n : Nat) (c : grid_struct) (hc : c ∈ (Grid.new n).cells) :
    (-(n : ℚ) / 2 < (c.coords.1 : ℚ) ∧ (c.coords.1 : ℚ) ≤ (n : ℚ) / 2)
    ∧ (-(n : ℚ) / 2 < (c.coords.2.1 : ℚ) ∧ (c.coords.2.1 : ℚ) ≤ (n : ℚ) / 2)
    ∧ (-(n : ℚ) / 2 < (c.coords.2.2 : ℚ) ∧ (c.coords.2.2 : ℚ) ≤ (n : ℚ) / 2) := by
  obtain ⟨g1, g2, g3, h1, h2, h3, rfl⟩ := mem_cells n c hc
  have key : ∀ g : Nat, g < n →
      -(n : ℚ) / 2 < (signedIndex n g : ℚ) ∧ (signedIndex n g : ℚ) ≤ (n : ℚ) / 2 := by
    intro g hg
    obtain ⟨ha, hb⟩ := signedIndex_range n g ⟨by omega, by omega⟩
    have ha1 : (-(n : Int) : ℚ) < ((2 * signedIndex n g : Int) : ℚ) := by exact_mod_cast ha
    have hb1 : ((2 * signedIndex n g : Int) : ℚ) ≤ ((n : Int) : ℚ) := by exact_mod_cast hb
    push_cast at ha1 hb1
    constructor <;> linarith
  exact ⟨key g1 h1, key g2 h2, key g3 h3⟩

/-- C14 (witness): the grid of side 2 and its cell `(0,0,1)`. -/
theorem cells_coords_range_witness :
    ({ grid := (0, 0, 1), coords := (0, 0, 1) } : grid_struct) ∈ (Grid.new 2).cells
    ∧ (-((2 : Nat) : ℚ) / 2 < ((0 : Int) : ℚ) ∧ ((0 : Int) : ℚ) ≤ ((2 : Nat) : ℚ) / 2)
    ∧ (-((2 : Nat) : ℚ) / 2 < ((0 : Int) : ℚ) ∧ ((0 : Int) : ℚ) ≤ ((2 : Nat) : ℚ) / 2)
    ∧ (-((2 : Nat) : ℚ) / 2 < ((1 : Int) : ℚ) ∧ ((1 : Int) : ℚ) ≤ ((2 : Nat) : ℚ) / 2) :=
  ⟨by decide,
    cells_coords_range 2 { grid := (0, 0, 1), coords := (0, 0, 1) } (by decide)⟩

end constr_code

/-! ## C15: the cells that `brute_interpol_new` assigns -/

namespace constr_code

/-- An assignment at an index inside the array succeeds. -/
theorem setAt_inside {F : Type} [Field F] [StarRing F] (l : List F) (i : Int) (v : F) (h0 : 0 ≤ i) (h1 : i.toNat < l.length) :
    setAt l i v = some (l.set i.toNat v) := by
  unfold setAt at?
  rw [if_neg (by omega), List.getElem?_eq_getElem h1]
  rfl

/-- One round of the innermost loop of `brute_interpol_new` with its index `idk`
inside the arrays leaves every other cell `c` of `P` and `ftsc` as it was. -/
theorem body_keeps_cell {K : Type} [LinearOrderedField K] {F : Type} [Field F] [StarRing F]
    [Algebra K F] (sqrt : K → K) (csqrt : F → F) (pow : K → K → K) (spline : K → K)
    (res : Int) (kw ns norm_amp : K) (ft : List F) (k1 k2 k3 : Int) (c n : Nat)
    (idk : Int)
    (hidk : ((if k1 < 0 then k1 + res else k1) * res + (if k2 < 0 then k2 + res else k2)) * res
      + (if k3 < 0 then k3 + res else k3) = idk)
    (h0 : 0 ≤ idk) (hn : idk.toNat < n) (hc : idk.toNat ≠ c) (hft : ft.length = n)
    (a : Option (List F × List F))
    (ha : ∃ f p, a = some (f, p) ∧ f.length = n ∧ p.length = n) :
    ∃ f1 p1, brute_interpol_new.body sqrt csqrt pow spline res kw ns norm_amp ft k1 k2 k3 a
        = some (f1, p1) ∧ f1.length = n ∧ p1.length = n
      ∧ a.map (fun fp => (fp.1[c]?, fp.2[c]?)) = some (f1[c]?, p1[c]?) := by
  obtain ⟨f, p, rfl, hf, hp⟩ := ha
  unfold brute_interpol_new.body
  simp only [hidk]
  split_ifs with hz
  · exact ⟨f, p, rfl, hf, hp, rfl⟩
  · have hft1 : at? ft idk = some (ft.get ⟨idk.toNat, by omega⟩) := by
      unfold at?
      rw [if_neg (by omega), List.getElem?_eq_getElem (by omega)]
      rfl
    rw [setAt_inside p idk _ h0 (by omega), hft1]
    simp only []
    rw [setAt_inside f idk _ h0 (by omega)]
    refine ⟨_, _, rfl, by simpa using hf, by simpa using hp, ?_⟩
    simp only [Option.map_some']
    rw [List.getElem?_set_ne hc, List.getElem?_set_ne hc]

/-- A property that every round of a loop preserves holds after the loop. -/
theorem foldl_preserves {α β : Type} (Inv : α → Prop) (f : α → β → α) (l : List β)
    (h : ∀ a x, x ∈ l → Inv a → Inv (f a x)) (a : α) (ha : Inv a) : Inv (l.foldl f a) := by
  induction l generalizing a with
  | nil => exact ha
  | cons x t ih =>
    rw [List.foldl_cons]
    exact ih (fun a y hy => h a y (List.mem_cons_of_mem _ hy)) _
      (h a x (List.mem_cons_self _ _) ha)

/-- The loops of `brute_interpol_new` run through `-1, 0` for `res = 3`. -/
theorem signedRange_three : signedRange 3 = [-1, 0] := by
  decide

/-- For `res = 3` and arrays of `27` cells, `brute_interpol_new` returns and
leaves the cell `1` (the mode `(0,0,1)`) of `ftsc` and `P` as it was. -/
theorem brute_interpol_new_three_keeps_cell {K : Type} [LinearOrderedField K] {F : Type}
    [Field F] [StarRing F] [Algebra K F] (sqrt : K → K) (csqrt : F → F) (pow : K → K → K)
    (spline : K → K) (kw ns norm_amp : K) (ft ftsc P : List F) (hft : ft.length = 27)
    (hftsc : ftsc.length = 27) (hP : P.length = 27) :
    ∃ f1 p1, brute_interpol_new sqrt csqrt pow spline 3 kw ns norm_amp ft ftsc P = some (f1, p1)
      ∧ f1[1]? = ftsc[1]? ∧ p1[1]? = P[1]? := by
  obtain ⟨Inv, hInv⟩ : ∃ Inv : Option (List F × List F) → Prop, Inv = fun a =>
      (∃ f p, a = some (f, p) ∧ f.length = 27 ∧ p.length = 27)
        ∧ a.map (fun fp => (fp.1[1]?, fp.2[1]?)) = some (ftsc[1]?, P[1]?) := ⟨_, rfl⟩
  have key : Inv (brute_interpol_new sqrt csqrt pow spline 3 kw ns norm_amp ft ftsc P) := by
    unfold brute_interpol_new
    rw [signedRange_three]
    refine foldl_preserves Inv _ _ ?_ _ (by rw [hInv]; exact ⟨⟨ftsc, P, rfl, hftsc, hP⟩, rfl⟩)
    intro a k1 hk1 ha
    refine foldl_preserves Inv _ _ ?_ _ ha
    intro a k2 hk2 ha
    refine foldl_preserves Inv _ _ ?_ _ ha
    intro a k3 hk3 ha
    rw [hInv] at ha ⊢
    have h1 : k1 = -1 ∨ k1 = 0 := by simpa using hk1
    have h2 : k2 = -1 ∨ k2 = 0 := by simpa using hk2
    have h3 : k3 = -1 ∨ k3 = 0 := by simpa using hk3
    obtain ⟨f1, p1, e, hf1, hp1, hc⟩ := body_keeps_cell sqrt csqrt pow spline 3 kw ns norm_amp ft
      k1 k2 k3 1 27 _ rfl
      (by rcases h1 with rfl | rfl <;> rcases h2 with rfl | rfl <;> rcases h3 with rfl | rfl <;>
        decide)
      (by rcases h1 with rfl | rfl <;> rcases h2 with rfl | rfl <;> rcases h3 with rfl | rfl <;>
        decide)
      (by rcases h1 with rfl | rfl <;> rcases h2 with rfl | rfl <;> rcases h3 with rfl | rfl <;>
        decide) hft a ha.1
    refine ⟨⟨f1, p1, e, hf1, hp1⟩, ?_⟩
    rw [e, Option.map_some', ← hc]
    exact ha.2
  rw [hInv] at key
  obtain ⟨⟨f1, p1, e, -, -⟩, h⟩ := key
  refine ⟨f1, p1, e, ?_, ?_⟩
  · rw [e] at h
    simp only [Option.map_some', Option.some.injEq, Prod.mk.injEq] at h
    exact h.1
  · rw [e] at h
    simp only [Option.map_some', Option.some.injEq, Prod.mk.injEq] at h
    exact h.2

/-- C15 (the code at the failing input): the grid size `res = 3` (27 cells), the
transfer function `T = 1`, `kw = 1`, `ns = 1`, `norm_amp = 1`, the modes
`ft = 1` and zero-initialised arrays `ftsc` and `P`. The loops run through
`k = -1, 0` only, so `brute_interpol_new` returns with the cell `1` (the mode
`(0,0,1)`, wavenumber `k = kw·sqrt(0+0+1)`) still at `P[1] = 0`, while
`norm_amp · k^ns · T(k)²` is `1` there. -/
theorem brute_interpol_new_three_misses_cell :
    (∃ f1 p1, brute_interpol_new Real.sqrt (fun z : ℂ => z ^ ((1 : ℂ) / 2)) Real.rpow
          (fun _ => (1 : ℝ)) 3 1 1 1 (List.replicate 27 (1 : ℂ)) (List.replicate 27 0)
          (List.replicate 27 0) = some (f1, p1)
        ∧ f1[1]? = some 0 ∧ p1[1]? = some 0)
      ∧ (1 : ℝ) * Real.rpow (1 * Real.sqrt ((0 * 0 + 0 * 0 + 1 * 1 : Int) : ℝ)) 1 * 1 ^ 2 = 1 := by
  constructor
  · obtain ⟨f1, p1, e, hf, hp⟩ := brute_interpol_new_three_keeps_cell Real.sqrt
      (fun z : ℂ => z ^ ((1 : ℂ) / 2)) Real.rpow (fun _ => (1 : ℝ)) 1 1 1
      (List.replicate 27 (1 : ℂ)) (List.replicate 27 0) (List.replicate 27 0) rfl rfl rfl
    refine ⟨f1, p1, e, ?_, ?_⟩
    · rw [hf]
      rfl
    · rw [hp]
      rfl
  · simp

end constr_code

/-! ## C16: the sum computed by `sig` -/

namespace constr_code

/-- The loop of `sig` on a table with `kmax = kmin + 10000·dk`, `dk > 0`: entered
at the step `j` with `m` steps left and more than `m` rounds of fuel, it ends and
has added the summands of the steps `j, …, j + m - 1`. -/
theorem sig_loop_sum (pow : ℝ → ℝ → ℝ) (sin cos spline : ℝ → ℝ) (R ns kmin dk : ℝ)
    (hdk : 0 < dk) (m : Nat) :
    ∀ (j fuel : Nat) (s : ℝ), j + m = 10000 → m < fuel →
      sig.loop pow sin cos spline R ns (kmin + 10000 * dk) dk fuel (kmin + (j : ℝ) * dk) s
        = some (s + ∑ i ∈ Finset.range m,
            sig.summand pow sin cos spline R ns (kmin + ((j + i : Nat) : ℝ) * dk)) := by
  induction m with
  | zero =>
    intro j fuel s hj hfuel
    obtain ⟨f, rfl⟩ : ∃ f, fuel = f + 1 := ⟨fuel - 1, by omega⟩
    have hj1 : j = 10000 := by omega
    subst hj1
    unfold sig.loop
    rw [if_neg (by push_cast; exact lt_irrefl _)]
    simp
  | succ m ih =>
    intro j fuel s hj hfuel
    obtain ⟨f, rfl⟩ : ∃ f, fuel = f + 1 := ⟨fuel - 1, by omega⟩
    have hlt : kmin + (j : ℝ) * dk < kmin + 10000 * dk := by
      have : (j : ℝ) < 10000 := by
        have : j < 10000 := by omega
        exact_mod_cast this
      nlinarith
    unfold sig.loop
    rw [if_pos hlt]
    have hk : kmin + (j : ℝ) * dk + dk = kmin + ((j + 1 : Nat) : ℝ) * dk := by
      push_cast
      ring
    rw [hk, ih (j + 1) f _ (by omega) (by omega), Finset.sum_range_succ']
    congr 1
    have e : ∀ i : Nat, j + 1 + i = j + (i + 1) := fun i => by omega
    simp only [e, Nat.add_zero]
    ring

/-- The summand of `sig` at a wavenumber `k > 0`, written with the power
spectrum `k^ns·T(k)²` and the window `W(y) = 3(sin y − y cos y)/y³`: the factor
`9/(2π²)` of the code times the summand is `1/(2π²)·k²·P(k)·W(kR)²`. -/
theorem sig_summand_eq (T : ℝ → ℝ) (R ns k : ℝ) (hk : 0 < k) :
    9 / 2 / Real.pi / Real.pi * sig.summand Real.rpow Real.sin Real.cos T R ns k
      = 1 / (2 * Real.pi ^ 2) * k ^ 2 * (k ^ ns * T k ^ 2)
        * (3 * (Real.sin (k * R) - k * R * Real.cos (k * R)) / (k * R) ^ 3) ^ 2 := by
  unfold sig.summand
  simp only [Real.rpow_eq_pow]
  rw [Real.rpow_add hk, Real.rpow_two]
  ring

/-- The summand of `sig` at a wavenumber `k ≥ 0` is not negative. -/
theorem sig_summand_nonneg (T : ℝ → ℝ) (R ns k : ℝ) (hk : 0 ≤ k) :
    0 ≤ sig.summand Real.rpow Real.sin Real.cos T R ns k := by
  unfold sig.summand
  simp only [Real.rpow_eq_pow]
  have h1 : 0 ≤ k ^ (ns + 2) := Real.rpow_nonneg hk _
  have h2 := mul_self_nonneg
    ((Real.sin (k * R) - k * R * Real.cos (k * R)) / (k * R * (k * R) * (k * R)))
  have h3 := mul_self_nonneg (T k)
  have e : k ^ (ns + 2)
      * ((Real.sin (k * R) - k * R * Real.cos (k * R)) / (k * R * (k * R) * (k * R)))
      * ((Real.sin (k * R) - k * R * Real.cos (k * R)) / (k * R * (k * R) * (k * R)))
      * T k * T k
      = k ^ (ns + 2)
        * (((Real.sin (k * R) - k * R * Real.cos (k * R)) / (k * R * (k * R) * (k * R)))
          * ((Real.sin (k * R) - k * R * Real.cos (k * R)) / (k * R * (k * R) * (k * R))))
        * (T k * T k) := by ring
  rw [e]
  exact mul_nonneg (mul_nonneg h1 h2) h3

/-- The value of `sig` on a table from `kmin` to `kmax`, `0 ≤ kmin < kmax`, with
more than 10000 rounds of fuel: the square root of the sum of the 10000 summands
times `9/(2π²)` times `dk`, a sum that is not negative. -/
theorem sig_value (T : ℝ → ℝ) (R ns kmin kmax : ℝ) (kcamb : List ℝ) (quoppa : Int)
    (fuel : Nat) (hkmin : at? kcamb 0 = some kmin) (hkmax : at? kcamb (quoppa - 1) = some kmax)
    (h0 : 0 ≤ kmin) (h1 : kmin < kmax) (hfuel : 10000 < fuel) :
    sig Real.sqrt Real.rpow Real.sin Real.cos Real.pi T fuel R kcamb ns quoppa
        = some (Real.sqrt ((∑ i ∈ Finset.range 10000,
            sig.summand Real.rpow Real.sin Real.cos T R ns
              (kmin + (i : ℝ) * ((kmax - kmin) / 10000)))
            * (9 / 2 / Real.pi / Real.pi) * ((kmax - kmin) / 10000)))
      ∧ 0 ≤ ∑ i ∈ Finset.range 10000,
            sig.summand Real.rpow Real.sin Real.cos T R ns
              (kmin + (i : ℝ) * ((kmax - kmin) / 10000)) := by
  have hdk : 0 < (kmax - kmin) / 10000 := by
    apply div_pos
    · linarith
    · norm_num
  have hmax : kmax = kmin + 10000 * ((kmax - kmin) / 10000) := by ring
  constructor
  · unfold sig
    simp only [hkmin, hkmax]
    have h := sig_loop_sum Real.rpow Real.sin Real.cos T R ns kmin ((kmax - kmin) / 10000) hdk
      10000 0 fuel 0 (by norm_num) hfuel
    rw [← hmax] at h
    simp only [Nat.cast_zero, zero_mul, add_zero, zero_add] at h
    rw [h]
    simp
  · apply Finset.sum_nonneg
    intro i _
    apply sig_summand_nonneg
    have : 0 ≤ (i : ℝ) * ((kmax - kmin) / 10000) := mul_nonneg (Nat.cast_nonneg _) hdk.le
    linarith

/-- C16 (the claim fails): the table `kcamb = [π, 2π]`, the transfer function
`T = 1`, `ns = 0` and `R = 1`. `sig` returns a number whose square is not the sum
of `(9/(2π²))·k²·P(k)·W(kR)²·dk` over the 10000 steps: that sum is nine times the
square of the result, which is positive. -/
theorem sig_sq_is_not_claimed_sum :
    ∃ σ : ℝ, sig Real.sqrt Real.rpow Real.sin Real.cos Real.pi (fun _ => 1) 10001 1
        [Real.pi, 2 * Real.pi] 0 2 = some σ
      ∧ σ ^ 2 ≠ ∑ i ∈ Finset.range 10000,
          9 / (2 * Real.pi ^ 2) * (Real.pi + (i : ℝ) * ((2 * Real.pi - Real.pi) / 10000)) ^ 2
            * ((Real.pi + (i : ℝ) * ((2 * Real.pi - Real.pi) / 10000)) ^ (0 : ℝ) * 1 ^ 2)
            * (3 * (Real.sin ((Real.pi + (i : ℝ) * ((2 * Real.pi - Real.pi) / 10000)) * 1)
                - (Real.pi + (i : ℝ) * ((2 * Real.pi - Real.pi) / 10000)) * 1
                  * Real.cos ((Real.pi + (i : ℝ) * ((2 * Real.pi - Real.pi) / 10000)) * 1))
                / ((Real.pi + (i : ℝ) * ((2 * Real.pi - Real.pi) / 10000)) * 1) ^ 3) ^ 2
            * ((2 * Real.pi - Real.pi) / 10000) := by
  have hpi := Real.pi_pos
  obtain ⟨hv, hS⟩ := sig_value (fun _ => 1) 1 0 Real.pi (2 * Real.pi) [Real.pi, 2 * Real.pi] 2
    10001 (by simp [at?]) (by simp [at?]) hpi.le (by linarith) (by norm_num)
  refine ⟨_, hv, ?_⟩
  have hdk : 0 < (2 * Real.pi - Real.pi) / 10000 := by
    apply div_pos
    · linarith
    · norm_num
  have hpos : 0 < ∑ i ∈ Finset.range 10000,
      sig.summand Real.rpow Real.sin Real.cos (fun _ => 1) 1 0
        (Real.pi + (i : ℝ) * ((2 * Real.pi - Real.pi) / 10000)) := by
    apply Finset.sum_pos'
    · intro i _
      apply sig_summand_nonneg
      have : 0 ≤ (i : ℝ) * ((2 * Real.pi - Real.pi) / 10000) :=
        mul_nonneg (Nat.cast_nonneg _) hdk.le
      linarith
    · refine ⟨0, by simp, ?_⟩
      unfold sig.summand
      simp only [Nat.cast_zero, zero_mul, add_zero, mul_one, Real.sin_pi, Real.cos_pi,
        Real.rpow_eq_pow, zero_add, Real.rpow_two]
      have h3 : 0 < Real.pi * Real.pi * Real.pi := by positivity
      have h4 : 0 < (0 - Real.pi * -1) / (Real.pi * Real.pi * Real.pi) := by
        apply div_pos
        · linarith
        · exact h3
      exact mul_pos (mul_pos (pow_pos hpi 2) h4) h4
  have hamp : 0 < 9 / 2 / Real.pi / Real.pi := by positivity
  have hval : 0 < (∑ i ∈ Finset.range 10000,
      sig.summand Real.rpow Real.sin Real.cos (fun _ => 1) 1 0
        (Real.pi + (i : ℝ) * ((2 * Real.pi - Real.pi) / 10000)))
      * (9 / 2 / Real.pi / Real.pi) * ((2 * Real.pi - Real.pi) / 10000) :=
    mul_pos (mul_pos hpos hamp) hdk
  rw [Real.sq_sqrt hval.le]
  have hsum : ∑ i ∈ Finset.range 10000,
      9 / (2 * Real.pi ^ 2) * (Real.pi + (i : ℝ) * ((2 * Real.pi - Real.pi) / 10000)) ^ 2
        * ((Real.pi + (i : ℝ) * ((2 * Real.pi - Real.pi) / 10000)) ^ (0 : ℝ) * 1 ^ 2)
        * (3 * (Real.sin ((Real.pi + (i : ℝ) * ((2 * Real.pi - Real.pi) / 10000)) * 1)
            - (Real.pi + (i : ℝ) * ((2 * Real.pi - Real.pi) / 10000)) * 1
              * Real.cos ((Real.pi + (i : ℝ) * ((2 * Real.pi - Real.pi) / 10000)) * 1))
            / ((Real.pi + (i : ℝ) * ((2 * Real.pi - Real.pi) / 10000)) * 1) ^ 3) ^ 2
        * ((2 * Real.pi - Real.pi) / 10000)
      = 9 * ((∑ i ∈ Finset.range 10000,
          sig.summand Real.rpow Real.sin Real.cos (fun _ => 1) 1 0
            (Real.pi + (i : ℝ) * ((2 * Real.pi - Real.pi) / 10000)))
          * (9 / 2 / Real.pi / Real.pi) * ((2 * Real.pi - Real.pi) / 10000)) := by
    rw [Finset.sum_mul, Finset.sum_mul, Finset.mul_sum]
    apply Finset.sum_congr rfl
    intro i _
    have hk : 0 < Real.pi + (i : ℝ) * ((2 * Real.pi - Real.pi) / 10000) := by
      have : 0 ≤ (i : ℝ) * ((2 * Real.pi - Real.pi) / 10000) :=
        mul_nonneg (Nat.cast_nonneg _) hdk.le
      linarith
    have h := sig_summand_eq (fun _ => 1) 1 0 _ hk
    simp only [] at h
    calc _ = 9 * (1 / (2 * Real.pi ^ 2)
              * (Real.pi + (i : ℝ) * ((2 * Real.pi - Real.pi) / 10000)) ^ 2
              * ((Real.pi + (i : ℝ) * ((2 * Real.pi - Real.pi) / 10000)) ^ (0 : ℝ) * 1 ^ 2)
              * (3 * (Real.sin ((Real.pi + (i : ℝ) * ((2 * Real.pi - Real.pi) / 10000)) * 1)
                - (Real.pi + (i : ℝ) * ((2 * Real.pi - Real.pi) / 10000)) * 1
                  * Real.cos ((Real.pi + (i : ℝ) * ((2 * Real.pi - Real.pi) / 10000)) * 1))
                / ((Real.pi + (i : ℝ) * ((2 * Real.pi - Real.pi) / 10000)) * 1) ^ 3) ^ 2)
              * ((2 * Real.pi - Real.pi) / 10000) := by ring
      _ = _ := by
        rw [← h]
        ring
  rw [hsum]
  intro h
  linarith

/-- C16 (amended): for every `R`, every transfer function `T` and every table
whose first and last wavenumbers are `0 < kmin < kmax`, with `dk = (kmax −
kmin)/10000`, `sig` returns (the loop ends within 10001 rounds) and the square of
its result equals the Riemann sum, over the 10000 steps `k = kmin + i·dk`, of
`(1/(2π²)) · k² · P(k) · W(kR)² · dk` with `P(k) = k^ns·T(k)²` and the window
`W(y) = 3(sin y − y cos y)/y³`; the factor `9/(2π²)` of the code goes with the
window without its factor 3. -/
theorem sig_sq_riemann_sum (T : ℝ → ℝ) (R ns kmin kmax : ℝ) (kcamb : List ℝ) (quoppa : Int)
    (fuel : Nat) (hkmin : at? kcamb 0 = some kmin) (hkmax : at? kcamb (quoppa - 1) = some kmax)
    (h0 : 0 < kmin) (h1 : kmin < kmax) (hfuel : 10000 < fuel) :
    ∃ σ : ℝ, sig Real.sqrt Real.rpow Real.sin Real.cos Real.pi T fuel R kcamb ns quoppa = some σ
      ∧ σ ^ 2 = ∑ i ∈ Finset.range 10000,
          1 / (2 * Real.pi ^ 2) * (kmin + (i : ℝ) * ((kmax - kmin) / 10000)) ^ 2
            * ((kmin + (i : ℝ) * ((kmax - kmin) / 10000)) ^ ns
              * T (kmin + (i : ℝ) * ((kmax - kmin) / 10000)) ^ 2)
            * (3 * (Real.sin ((kmin + (i : ℝ) * ((kmax - kmin) / 10000)) * R)
                - (kmin + (i : ℝ) * ((kmax - kmin) / 10000)) * R
                  * Real.cos ((kmin + (i : ℝ) * ((kmax - kmin) / 10000)) * R))
                / ((kmin + (i : ℝ) * ((kmax - kmin) / 10000)) * R) ^ 3) ^ 2
            * ((kmax - kmin) / 10000) := by
  obtain ⟨hv, hS⟩ := sig_value T R ns kmin kmax kcamb quoppa fuel hkmin hkmax h0.le h1 hfuel
  refine ⟨_, hv, ?_⟩
  have hdk : 0 < (kmax - kmin) / 10000 := by
    apply div_pos
    · linarith
    · norm_num
  have hamp : 0 < 9 / 2 / Real.pi / Real.pi := by
    have := Real.pi_pos
    positivity
  rw [Real.sq_sqrt (mul_nonneg (mul_nonneg hS hamp.le) hdk.le), Finset.sum_mul, Finset.sum_mul]
  apply Finset.sum_congr rfl
  intro i _
  have hk : 0 < kmin + (i : ℝ) * ((kmax - kmin) / 10000) := by
    have : 0 ≤ (i : ℝ) * ((kmax - kmin) / 10000) := mul_nonneg (Nat.cast_nonneg _) hdk.le
    linarith
  rw [← sig_summand_eq T R ns _ hk]
  ring

/-- C16 (witness): the table `kcamb = [1, 2]`, `T = 1`, `ns = 1`, `R = 8`. -/
theorem sig_sq_riemann_sum_witness :
    at? [(1 : ℝ), 2] 0 = some 1 ∧ at? [(1 : ℝ), 2] (2 - 1) = some 2 ∧ (0 : ℝ) < 1
      ∧ (1 : ℝ) < 2 ∧ 10000 < 10001
      ∧ ∃ σ : ℝ, sig Real.sqrt Real.rpow Real.sin Real.cos Real.pi (fun _ => 1) 10001 8 [1, 2]
            1 2 = some σ
        ∧ σ ^ 2 = ∑ i ∈ Finset.range 10000,
            1 / (2 * Real.pi ^ 2) * (1 + (i : ℝ) * ((2 - 1) / 10000)) ^ 2
              * ((1 + (i : ℝ) * ((2 - 1) / 10000)) ^ (1 : ℝ) * 1 ^ 2)
              * (3 * (Real.sin ((1 + (i : ℝ) * ((2 - 1) / 10000)) * 8)
                  - (1 + (i : ℝ) * ((2 - 1) / 10000)) * 8
                    * Real.cos ((1 + (i : ℝ) * ((2 - 1) / 10000)) * 8))
                  / ((1 + (i : ℝ) * ((2 - 1) / 10000)) * 8) ^ 3) ^ 2
              * ((2 - 1) / 10000) :=
  ⟨by simp [at?], by simp [at?], by norm_num, by norm_num, by norm_num,
    sig_sq_riemann_sum (fun _ => 1) 8 1 1 2 [1, 2] 2 10001 (by simp [at?]) (by simp [at?])
      (by norm_num) (by norm_num) (by norm_num)⟩

end constr_code

/-! ## C17: `initBaseGrid` on an initialised context -/

namespace ICGenerator

/-- C17: whenever the multi-level context already contains at least one level,
`initBaseGrid` fails with an error, for every box size and every side: with the
error "Cannot re-initialize the base grid" when the box size is positive, at the
`assert(boxSize > 0)` before that test otherwise. In both cases the generator is
left as it was: no level is added and the existing levels are unchanged. -/
theorem initBaseGrid_fails_when_initialised (s : ICGenerator) (boxSize : ℚ) (n : Nat)
    (h : 1 ≤ s.getNumLevels) :
    (initBaseGrid s boxSize n).exception
        = some (if boxSize > 0 then "Cannot re-initialize the base grid"
            else "assert(boxSize > 0)")
    ∧ (initBaseGrid s boxSize n).value? = none
    ∧ (initBaseGrid s boxSize n).state = s
    ∧ (initBaseGrid s boxSize n).state.getNumLevels = s.getNumLevels
    ∧ (initBaseGrid s boxSize n).state.multiLevelContext = s.multiLevelContext := by
  have h0 : s.getNumLevels > 0 := h
  by_cases hb : boxSize > 0
  · simp [initBaseGrid, h0, hb, Outcome.state, Outcome.exception, Outcome.value?]
  · simp [initBaseGrid, hb, Outcome.state, Outcome.exception, Outcome.value?]

/-- C17 (witness): the generator with a base grid of side 2, asked for a base grid
of box size 100 and side 32. -/
theorem initBaseGrid_fails_when_initialised_witness :
    1 ≤ freshBase.getNumLevels
    ∧ (initBaseGrid freshBase 100 32).exception = some "Cannot re-initialize the base grid"
    ∧ (initBaseGrid freshBase 100 32).state.multiLevelContext
        = [{ size := 2, boxsize := 2, offsetLower := (0, 0, 0), flags := [] }] :=
  ⟨by decide,
    ((initBaseGrid_fails_when_initialised freshBase 100 32 (by decide)).1).trans (by decide!),
    ((initBaseGrid_fails_when_initialised freshBase 100 32 (by decide)).2.2.2.2).trans
      (by decide!)⟩

/-! ## C18: the fit test of `initZoomGrid` -/

/-- C18 (the code at the failing input): on a parent grid of side 4 with zoom
factor 2 (sub-box of `4/2 = 2` parent cells) and strays not allowed, the flagged
cells `(0,0,0)` and `(2,0,0)` have a bounding box that spans 3 cells along the
first axis. The test `x1 - x0 > n_user` is `2 > 2`: `initZoomGrid` does not fail,
it adds the zoom level and trims the flagged cell `(2,0,0)`. -/
theorem initZoomGrid_accepts_three_cell_span :
    baseWithThreeCellSpan.allowStrayParticles = false
    ∧ findBoundaries { size := 4, boxsize := 4, offsetLower := (0, 0, 0), flags := [0, 32] }
        [0, 32] = { x0 := 0, y0 := 0, z0 := 0, x1 := 2, y1 := 0, z1 := 0 }
    ∧ (2 : Int) - 0 + 1 > 4 / 2
    ∧ (initZoomGrid baseWithThreeCellSpan 2 4).exception = none
    ∧ (initZoomGrid baseWithThreeCellSpan 2 4).state.getNumLevels = 2
    ∧ (initZoomGrid baseWithThreeCellSpan 2 4).state.zoomParticleArray = [[0]] := by
  decide!

/-! ## C19: the origin of the zoom window -/

/-- The corner that `initZoomGrid` computes along one axis lies in
`[0, nAbove - nAbove / zoomfac]`, whatever the bounding box is. -/
theorem zoomOrigin_range (nAbove : Int) (zoomfac : Nat) (lo hi : Int)
    (hn : 1 ≤ nAbove ∧ nAbove < 2147483648) (hz : 1 ≤ zoomfac ∧ (zoomfac : Int) ≤ nAbove) :
    0 ≤ zoomOrigin nAbove zoomfac lo hi
    ∧ zoomOrigin nAbove zoomfac lo hi + nAbove / (zoomfac : Int) ≤ nAbove := by
  have hzpos : (0 : Int) < (zoomfac : Int) := by omega
  have hq1 : 1 ≤ nAbove / (zoomfac : Int) := by
    rw [Int.le_ediv_iff_mul_le hzpos]
    omega
  have hq2 : nAbove / (zoomfac : Int) ≤ nAbove :=
    Int.ediv_le_self _ (by omega)
  have hv : ∀ w : Int, -2147483648 ≤ toInt32 w ∧ toInt32 w < 2147483648 := by
    intro w
    unfold toInt32
    omega
  have hS : toSizeT nAbove = nAbove := by
    unfold toSizeT
    omega
  have hT : toSizeT (nAbove - nAbove / (zoomfac : Int)) = nAbove - nAbove / (zoomfac : Int) := by
    unfold toSizeT
    omega
  simp only [zoomOrigin, hS, hT]
  obtain ⟨hv1, hv2⟩ := hv (toSizeT (toSizeT (Int.tdiv (toInt32 (lo + hi)) 2)
    - nAbove / toSizeT (2 * (zoomfac : Int))))
  generalize toInt32 (toSizeT (toSizeT (Int.tdiv (toInt32 (lo + hi)) 2)
    - nAbove / toSizeT (2 * (zoomfac : Int)))) = v at hv1 hv2 ⊢
  generalize nAbove / (zoomfac : Int) = q at hq1 hq2 ⊢
  have hU : ∀ w : Int, 0 ≤ w → w < 2147483648 → toSizeT (toUnsigned w) = w := by
    intro w h0 h1
    unfold toSizeT toUnsigned
    omega
  have hI : toInt32 (nAbove - q) = nAbove - q := by
    unfold toInt32
    omega
  rw [hI]
  by_cases hneg : v < 0
  · rw [if_pos hneg, hU 0 (by norm_num) (by norm_num)]
    split_ifs <;> omega
  · rw [if_neg hneg, hU v (by omega) hv2]
    split_ifs <;> omega

/-- The function `storeCurrentCellFlagsAsZoomMask` does not touch the levels. -/
theorem storeCurrentCellFlagsAsZoomMask_context (s : ICGenerator) (level : Nat) :
    (storeCurrentCellFlagsAsZoomMask s level).state.multiLevelContext = s.multiLevelContext := by
  unfold storeCurrentCellFlagsAsZoomMask
  by_cases h0 : level = 0
  · rw [if_pos h0]
    rfl
  · rw [if_neg h0]
    simp only []
    cases s.multiLevelContext[level - 1]? with
    | none => split_ifs <;> rfl
    | some grid => split_ifs <;> rfl

/-- The level that `initZoomGridWithOriginAt` adds when it returns: its side is
`n`, its box length is that of the grid above divided by `zoomfac`, and its low
corner is that of the grid above moved by `(x0, y0, z0)` cells. -/
theorem initZoomGridWithOriginAt_level (s : ICGenerator) (x0 y0 z0 : Int) (zoomfac n : Nat)
    (gridAbove : grids.Grid) (hlast : s.multiLevelContext.getLast? = some gridAbove)
    (hret : (initZoomGridWithOriginAt s x0 y0 z0 zoomfac n).exception = none) :
    (initZoomGridWithOriginAt s x0 y0 z0 zoomfac n).state.multiLevelContext
      = s.multiLevelContext ++
        [{ size := n
           boxsize := gridAbove.boxsize / zoomfac
           offsetLower := (gridAbove.offsetLower.1 + x0 * gridAbove.dx,
             gridAbove.offsetLower.2.1 + y0 * gridAbove.dx,
             gridAbove.offsetLower.2.2 + z0 * gridAbove.dx)
           flags := [] }] := by
  have hctx := storeCurrentCellFlagsAsZoomMask_context s s.getNumLevels
  unfold initZoomGridWithOriginAt at hret ⊢
  rw [hlast] at hret ⊢
  simp only [] at hret ⊢
  cases hst : storeCurrentCellFlagsAsZoomMask s s.getNumLevels with
  | threw what s1 =>
    rw [hst] at hret
    simp [Outcome.exception] at hret
  | returned u s1 =>
    rw [hst] at hret hctx
    simp only [Outcome.state] at hctx
    simp only [] at hret ⊢
    by_cases hz : toInt32 zoomfac = 0
    · rw [if_pos hz] at hret
      simp [Outcome.exception] at hret
    · rw [if_neg hz]
      simp only [Outcome.state, addLevelToContext, hctx]

/-- The level that `initZoomGrid` adds when it returns: the low corner is that of
the grid above moved by the origin computed from the bounding box of a list of
cells. -/
theorem initZoomGrid_level (s : ICGenerator) (zoomfac n : Nat) (gridAbove : grids.Grid)
    (hlast : s.multiLevelContext.getLast? = some gridAbove)
    (hret : (initZoomGrid s zoomfac n).exception = none) :
    ∃ cells : List Nat,
      (initZoomGrid s zoomfac n).state.multiLevelContext
        = s.multiLevelContext ++
          [{ size := n
             boxsize := gridAbove.boxsize / zoomfac
             offsetLower :=
              (gridAbove.offsetLower.1 + zoomOrigin (toInt32 gridAbove.size) zoomfac
                  (findBoundaries gridAbove cells).x0 (findBoundaries gridAbove cells).x1
                * gridAbove.dx,
               gridAbove.offsetLower.2.1 + zoomOrigin (toInt32 gridAbove.size) zoomfac
                  (findBoundaries gridAbove cells).y0 (findBoundaries gridAbove cells).y1
                * gridAbove.dx,
               gridAbove.offsetLower.2.2 + zoomOrigin (toInt32 gridAbove.size) zoomfac
                  (findBoundaries gridAbove cells).z0 (findBoundaries gridAbove cells).z1
                * gridAbove.dx)
             flags := [] }] := by
  have hctx := storeCurrentCellFlagsAsZoomMask_context s s.getNumLevels
  unfold initZoomGrid at hret ⊢
  by_cases h1 : s.haveInitialisedRandomComponent = true
  · rw [if_pos h1] at hret
    simp [Outcome.exception] at hret
  rw [if_neg h1] at hret ⊢
  by_cases h2 : s.getNumLevels < 1
  · rw [if_pos h2] at hret
    simp [Outcome.exception] at hret
  rw [if_neg h2] at hret ⊢
  rw [hlast] at hret ⊢
  simp only [] at hret ⊢
  cases hst : storeCurrentCellFlagsAsZoomMask s s.getNumLevels with
  | threw what s1 =>
    rw [hst] at hret
    simp [Outcome.exception] at hret
  | returned u s1 =>
    rw [hst] at hret hctx
    simp only [Outcome.state] at hctx
    simp only [] at hret ⊢
    by_cases h3 : zoomfac = 0
    · rw [if_pos h3] at hret
      simp [Outcome.exception] at hret
    rw [if_neg h3] at hret ⊢
    split_ifs at hret ⊢ with h4 h5
    · simp [Outcome.exception] at hret
    · simp [Outcome.exception] at hret
    · refine ⟨s1.zoomParticleArray.getLast?.getD [], ?_⟩
      rw [initZoomGridWithOriginAt_level s1 _ _ _ zoomfac n gridAbove (by rw [hctx]; exact hlast)
        hret, hctx]

/-- The footprint along one axis: a window of `N/zoomfac` parent cells that starts
at the cell `o` lies within the parent when `zoomfac` divides `N`. -/
theorem window_within (N zoomfac : Nat) (o : Int) (L off : ℚ) (hN : 1 ≤ N)
    (hz : 1 ≤ zoomfac) (hdiv : zoomfac ∣ N) (ho : 0 ≤ o)
    (ho2 : o + (N : Int) / (zoomfac : Int) ≤ N) (hL : 0 ≤ L) :
    off ≤ off + o * (L / N) ∧ off + o * (L / N) + L / zoomfac ≤ off + L := by
  obtain ⟨k, rfl⟩ := hdiv
  have hk : 1 ≤ k := by
    rcases Nat.eq_zero_or_pos k with h | h
    · subst h; simp at hN
    · exact h
  have hq : ((zoomfac * k : Nat) : Int) / (zoomfac : Int) = k := by
    push_cast
    rw [Int.mul_ediv_cancel_left]
    exact_mod_cast (by omega : zoomfac ≠ 0)
  rw [hq] at ho2
  have hoQ : (0 : ℚ) ≤ (o : ℚ) := by exact_mod_cast ho
  have ho2Q : (o : ℚ) + k ≤ (zoomfac : ℚ) * k := by exact_mod_cast ho2
  have hzQ : (0 : ℚ) < (zoomfac : ℚ) := by exact_mod_cast hz
  have hkQ : (0 : ℚ) < (k : ℚ) := by exact_mod_cast hk
  have hNQ : (0 : ℚ) < ((zoomfac * k : Nat) : ℚ) := by push_cast; exact mul_pos hzQ hkQ
  constructor
  · have : 0 ≤ (o : ℚ) * (L / ((zoomfac * k : Nat) : ℚ)) :=
      mul_nonneg hoQ (div_nonneg hL hNQ.le)
    linarith
  · have e : (o : ℚ) * (L / ((zoomfac * k : Nat) : ℚ)) + L / zoomfac
        = L * (((o : ℚ) + k) / ((zoomfac : ℚ) * k)) := by
      push_cast
      field_simp
      ring
    have hle : ((o : ℚ) + k) / ((zoomfac : ℚ) * k) ≤ 1 := by
      rw [div_le_one (mul_pos hzQ hkQ)]
      exact ho2Q
    have : L * (((o : ℚ) + k) / ((zoomfac : ℚ) * k)) ≤ L * 1 :=
      mul_le_mul_of_nonneg_left hle hL
    linarith


end ICGenerator

/-! ## C20: the end of the conjugate-gradient loop -/

namespace tools.numerics

/-- When the loop of `conjugateGradient` computes its residual maxima (no
quotient with a zero divisor), it returns a field, and it computes at most one
maximum per round. -/
theorem cgLoop_returns (Q : Field → Field) (b : Field) (rtol atol scale : ℚ) (fuel : Nat) :
    ∀ (x residual direction : Field) (norms : List ℚ),
      cgNorms Q b rtol atol scale fuel x residual direction = some norms →
      (∃ y, cgLoop Q b rtol atol scale fuel x residual direction = some y)
        ∧ norms.length ≤ fuel := by
  induction fuel with
  | zero =>
    intro x residual direction norms h
    simp only [cgNorms, Option.some.injEq] at h
    subst h
    exact ⟨⟨x, rfl⟩, le_refl _⟩
  | succ fuel ih =>
    intro x residual direction norms h
    simp only [cgNorms, cgLoop] at h ⊢
    cases hq : quotient (-innerProduct residual direction)
        (innerProduct direction (Q direction)) with
    | none => simp [hq] at h
    | some alpha =>
      simp only [hq] at h ⊢
      split_ifs at h ⊢ with hstop
      · simp only [Option.some.injEq] at h
        subst h
        exact ⟨⟨_, rfl⟩, by simp⟩
      · cases hq2 : quotient (innerProduct (subField (Q (addScaled x direction alpha)) b)
            (Q direction)) (innerProduct direction (Q direction)) with
        | none => simp [hq2] at h
        | some beta =>
          simp only [hq2] at h ⊢
          cases hrest : cgNorms Q b rtol atol scale fuel (addScaled x direction alpha)
              (subField (Q (addScaled x direction alpha)) b)
              (subField (scaleField direction beta)
                (subField (Q (addScaled x direction alpha)) b)) with
          | none => simp [hrest] at h
          | some rest =>
            simp only [hrest, Option.map_some', Option.some.injEq] at h
            subst h
            obtain ⟨hy, hlen⟩ := ih _ _ _ _ hrest
            exact ⟨hy, by simpa using hlen⟩

/-- The loop of `conjugateGradient` always ends at `return x`: the way it ends is
the return of what `cgLoop` computes, for every state and every bound. -/
theorem cgLoop_callEnd (Q : Field → Field) (b : Field) (rtol atol scale : ℚ) (fuel : Nat) :
    ∀ x residual direction : Field,
      cgLoop.callEnd Q b rtol atol scale fuel x residual direction
        = .returned (cgLoop Q b rtol atol scale fuel x residual direction) := by
  induction fuel with
  | zero =>
    intro x residual direction
    rfl
  | succ fuel ih =>
    intro x residual direction
    unfold cgLoop.callEnd cgLoop
    simp only []
    cases quotient (-(innerProduct residual direction))
        (innerProduct direction (Q direction)) with
    | none => rfl
    | some alpha =>
      simp only []
      split_ifs
      · rfl
      · cases quotient (innerProduct (subField (Q (addScaled x direction alpha)) b)
            (Q direction)) (innerProduct direction (Q direction)) with
        | none => rfl
        | some beta => exact ih _ _ _

/-- C20 (the claim fails): the operator `(v0, v1, ...) ↦ (-v0, v0 + v1, 0, ...)` on
the 27 cells of a grid of side 3, the right-hand side `(1, 0, ..., 0)` and the
default tolerances. The residual maximum increases at every one of the 28
iterations (`2, 3, 6, 9, 15, 24, ...`), in particular over ten consecutive ones,
and `conjugateGradient` returns a field: there is no failure. -/
theorem conjugateGradient_returns_despite_increase :
    conjugateGradient.norms shearOperator firstCellOne (1 / 1000000) (1 / 1000000000000)
        = some [2, 3, 6, 9, 15, 24, 39, 63, 102, 165, 267, 432, 699, 1131, 1830, 2961, 4791,
            7752, 12543, 20295, 32838, 53133, 85971, 139104, 225075, 364179, 589254, 953433]
      ∧ increasesOverTenIterations [2, 3, 6, 9, 15, 24, 39, 63, 102, 165, 267, 432, 699, 1131,
            1830, 2961, 4791, 7752, 12543, 20295, 32838, 53133, 85971, 139104, 225075, 364179,
            589254, 953433] = true
      ∧ conjugateGradient shearOperator firstCellOne (1 / 1000000) (1 / 1000000000000)
        = some (589253 :: 364180 :: List.replicate 25 0)
      ∧ conjugateGradient.callEnd shearOperator firstCellOne (1 / 1000000) (1 / 1000000000000)
        = .returned (some (589253 :: 364180 :: List.replicate 25 0)) := by
  decide!

/-- C20 (amended): `conjugateGradient` has no convergence failure. For every
operator, right-hand side and tolerances the call ends at a `return x`, never
with an exception: at the test `scale==0.0`, at the `break` of the loop when the
residual maximum drops below `rtol·scale` or `atol`, or when the loop has run
`dimension + 1` times, whether the residual maximum increases over ten
consecutive iterations or not. The field returned is the one `conjugateGradient`
computes; when the quotients of the loop are defined, so that the loop computes
its residual maxima `norms`, there are at most `dimension + 1` of them and the
field returned is a field of numbers. -/
theorem conjugateGradient_returns_field (Q : Field → Field) (b : Field) (rtol atol : ℚ) :
    conjugateGradient.callEnd Q b rtol atol = .returned (conjugateGradient Q b rtol atol)
    ∧ (∀ what : String, conjugateGradient.callEnd Q b rtol atol ≠ .threw what)
    ∧ ∀ norms : List ℚ, conjugateGradient.norms Q b rtol atol = some norms →
        (∃ x, conjugateGradient.callEnd Q b rtol atol = .returned (some x))
          ∧ norms.length ≤ b.length + 1 := by
  have hend : conjugateGradient.callEnd Q b rtol atol
      = .returned (conjugateGradient Q b rtol atol) := by
    unfold conjugateGradient.callEnd conjugateGradient
    simp only []
    split_ifs
    · rfl
    · exact cgLoop_callEnd Q b rtol atol _ _ _ _ _
  refine ⟨hend, fun what h => ?_, fun norms h => ?_⟩
  · rw [hend] at h
    exact CallEnd.noConfusion h
  · rw [hend]
    unfold conjugateGradient.norms at h
    unfold conjugateGradient
    simp only []
    split_ifs at h ⊢ with hz
    · simp only [Option.some.injEq] at h
      subst h
      exact ⟨⟨_, rfl⟩, by simp⟩
    · obtain ⟨⟨y, hy⟩, hlen⟩ :=
        cgLoop_returns Q b rtol atol (Maximum b) (b.length + 1) _ _ _ norms h
      exact ⟨⟨y, by rw [hy]⟩, hlen⟩

/-- C20 (witness): the operator `shearOperator` with the right-hand side
`(1, 0, ..., 0)`, whose residual maxima increase over ten consecutive
iterations: the call ends at `return x`. -/
theorem conjugateGradient_returns_field_witness :
    increasesOverTenIterations [2, 3, 6, 9, 15, 24, 39, 63, 102, 165, 267, 432, 699, 1131,
            1830, 2961, 4791, 7752, 12543, 20295, 32838, 53133, 85971, 139104, 225075, 364179,
            589254, 953433] = true
      ∧ ((∃ x, conjugateGradient.callEnd shearOperator firstCellOne (1 / 1000000)
            (1 / 1000000000000) = .returned (some x))
        ∧ [2, 3, 6, 9, 15, 24, 39, 63, 102, 165, 267, 432, 699, 1131, 1830, 2961, 4791,
            7752, 12543, 20295, 32838, 53133, 85971, 139104, 225075, 364179, 589254,
            (953433 : ℚ)].length ≤ firstCellOne.length + 1) :=
  ⟨by decide!,
    (conjugateGradient_returns_field shearOperator firstCellOne (1 / 1000000)
      (1 / 1000000000000)).2.2 _ (by decide!)⟩

end tools.numerics

/-! ## C21: the transfer-function table read by `main` -/

namespace constr_code

/-- The entries of a list built over `List.range`. -/
theorem getElem?_map_range {α : Type} (f : Nat → α) (q j : Nat) :
    ((List.range q).map f)[j]? = if j < q then some (f j) else none := by
  rw [List.getElem?_map]
  by_cases hj : j < q
  · rw [if_pos hj, List.getElem?_range hj]
    rfl
  · rw [if_neg hj, List.getElem?_eq_none (by simpa using hj)]
    rfl

/-- The arrays after the first `m` rounds of the loop that reads the transfer
function, for a buffer whose row `j` starts with the numbers `k j`, `t j`: the
row `j` is stored at the index `j` when its `k` is positive, the index `j` is
left at zero otherwise, and `quoppa` counts the rows with positive `k`. -/
theorem transferLoop_prefix {K : Type} [LinearOrderedField K] (quoppas c : Nat) (inarr : List K)
    (ap : K) (k t : Nat → K) (hk : ∀ j, j < quoppas → inarr[c * j]? = some (k j))
    (ht : ∀ j, j < quoppas → inarr[c * j + 1]? = some (t j)) (m : Nat) (hm : m ≤ quoppas) :
    (List.range m).foldl (main.transferLoop.body c inarr ap)
        (some (List.replicate quoppas 0, List.replicate quoppas 0, 0))
      = some
        ((List.range quoppas).map (fun j => if j < m ∧ 0 < k j then k j else 0),
          (List.range quoppas).map (fun j => if j < m ∧ 0 < k j then t j / ap else 0),
          (((List.range m).countP (fun j => decide (0 < k j)) : Nat) : Int)) := by
  induction m with
  | zero =>
    have e : (List.replicate quoppas (0 : K)) = (List.range quoppas).map (fun _ => (0 : K)) := by
      apply List.ext_getElem?
      intro j
      rw [getElem?_map_range, List.getElem?_replicate]
    simp only [List.range_zero, List.foldl_nil, List.countP_nil, Nat.cast_zero, Nat.not_lt_zero,
      false_and, if_false, e]
  | succ m ih =>
    have hmq : m < quoppas := hm
    have hset : ∀ (f g : Nat → K), (∀ j, j ≠ m → g j = f j) →
        ((List.range quoppas).map f).set m (g m) = (List.range quoppas).map g := by
      intro f g hfg
      apply List.ext_getElem?
      intro j
      rw [List.getElem?_set, getElem?_map_range, getElem?_map_range]
      by_cases hjm : m = j
      · subst hjm
        simp [hmq]
      · rw [if_neg hjm, hfg j (fun h => hjm h.symm)]
    have hlt : ∀ j, j ≠ m → ((j < m + 1) = (j < m)) := by
      intro j hj
      apply propext
      omega
    rw [List.range_succ, List.foldl_append, ih (by omega), List.countP_append]
    simp only [List.foldl_cons, List.foldl_nil, main.transferLoop.body, hk m hmq, ht m hmq]
    by_cases hpos : k m > 0
    · have hpos1 : 0 < k m := hpos
      rw [if_pos hpos]
      have e1 := hset (fun j => if j < m ∧ 0 < k j then k j else 0)
        (fun j => if j < m + 1 ∧ 0 < k j then k j else 0) (fun j hj => by simp only [hlt j hj])
      have e2 := hset (fun j => if j < m ∧ 0 < k j then t j / ap else 0)
        (fun j => if j < m + 1 ∧ 0 < k j then t j / ap else 0)
        (fun j hj => by simp only [hlt j hj])
      simp only [Nat.lt_succ_self, hpos1, and_self, if_true] at e1 e2
      rw [e1, e2]
      simp [hpos1]
    · have hpos1 : ¬ 0 < k m := hpos
      rw [if_neg hpos]
      have e1 : (List.range quoppas).map (fun j => if j < m ∧ 0 < k j then k j else 0)
          = (List.range quoppas).map (fun j => if j < m + 1 ∧ 0 < k j then k j else 0) := by
        apply List.map_congr_left
        intro j _
        by_cases hj : j = m
        · subst hj
          simp [hpos1]
        · simp only [hlt j hj]
      have e2 : (List.range quoppas).map (fun j => if j < m ∧ 0 < k j then t j / ap else 0)
          = (List.range quoppas).map (fun j => if j < m + 1 ∧ 0 < k j then t j / ap else 0) := by
        apply List.map_congr_left
        intro j _
        by_cases hj : j = m
        · subst hj
          simp [hpos1]
        · simp only [hlt j hj]
      rw [e1, e2]
      simp [hpos1]

set_option maxRecDepth 100000 in
/-- C21 (the code at the failing input): a transfer-function file of three rows
`(k, T) = (1, 1), (0, 5), (2, 3)`, the second with a non-positive `k`. The loop
stores the row `j` at `kcamb[j]`, not at `kcamb[quoppa]`: it ends with
`quoppa = 2`, `kcamb = [1, 0, 2, …]` and `Tcamb = [1, 0, 3, …]`, so the first
`quoppa` entries are `[1, 0]`, not the rows with positive `k`, `[1, 2]`. -/
theorem readTransferTable_leaves_gap :
    ∃ kcamb Tcamb : List ℚ, main.readTransferTable transferBuffer = some (kcamb, Tcamb, 2)
      ∧ kcamb.take 3 = [1, 0, 2] ∧ Tcamb.take 3 = [1, 0, 3] := by
  have hget : ∀ i, i < 4200 → transferBuffer[i]? = some
      (if i = 0 then 1 else if i = 1 then 1 else if i = 8 then 5 else if i = 14 then 2
        else if i = 15 then 3 else 0) := by
    intro i hi
    unfold transferBuffer
    rw [getElem?_map_range, if_pos hi]
  have h := transferLoop_prefix 600 7 transferBuffer 1
    (fun j => if 7 * j = 0 then 1 else if 7 * j = 1 then 1 else if 7 * j = 8 then 5
      else if 7 * j = 14 then 2 else if 7 * j = 15 then 3 else 0)
    (fun j => if 7 * j + 1 = 0 then 1 else if 7 * j + 1 = 1 then 1 else if 7 * j + 1 = 8 then 5
      else if 7 * j + 1 = 14 then 2 else if 7 * j + 1 = 15 then 3 else 0)
    (fun j hj => hget (7 * j) (by omega)) (fun j hj => hget (7 * j + 1) (by omega)) 600
    (le_refl _)
  have hap : transferBuffer[1]? = some 1 := hget 1 (by norm_num)
  have hres : main.readTransferTable transferBuffer = some
      ((List.range 600).map (fun j => if j < 600 ∧ (0 : ℚ) <
          (if 7 * j = 0 then 1 else if 7 * j = 1 then 1 else if 7 * j = 8 then 5
            else if 7 * j = 14 then 2 else if 7 * j = 15 then 3 else 0)
        then (if 7 * j = 0 then 1 else if 7 * j = 1 then 1 else if 7 * j = 8 then 5
            else if 7 * j = 14 then 2 else if 7 * j = 15 then 3 else 0) else 0),
        (List.range 600).map (fun j => if j < 600 ∧ (0 : ℚ) <
          (if 7 * j = 0 then 1 else if 7 * j = 1 then 1 else if 7 * j = 8 then 5
            else if 7 * j = 14 then 2 else if 7 * j = 15 then 3 else 0)
        then (if 7 * j + 1 = 0 then 1 else if 7 * j + 1 = 1 then 1 else if 7 * j + 1 = 8 then 5
            else if 7 * j + 1 = 14 then 2 else if 7 * j + 1 = 15 then 3 else 0) / 1 else 0),
        2) := by
    unfold main.readTransferTable main.transferLoop
    simp only [hap]
    rw [h]
    congr 3
  exact ⟨_, _, hres, by decide!, by decide!⟩

end constr_code

/-! ## C22: the normalisation of `fft_r` -/

namespace constr_code

/-- The function `dot` on two arrays whose entries are those of `a` and `b`
divided by `s`: the value is `dot(a, b)` divided by `conj(s)·s`. -/
theorem dot_scaled (a b : List ℂ) (s : ℂ) (n m : Nat) (hm : m ≤ n) :
    dot ((List.range n).map fun i => a.getD i 0 / s) ((List.range n).map fun i => b.getD i 0 / s) m
      = dot a b m / (star s * s) := by
  unfold dot
  induction m with
  | zero => simp
  | succ m ih =>
    have hmn : m < n := hm
    have hget : ∀ c : List ℂ, ((List.range n).map fun i => c.getD i 0 / s).getD m 0
        = c.getD m 0 / s := by
      intro c
      rw [List.getD_eq_getElem?_getD, List.getElem?_map, List.getElem?_range hmn]
      rfl
    rw [List.range_succ, List.foldl_append, List.foldl_append, ih (by omega)]
    simp only [List.foldl_cons, List.foldl_nil, hget, star_div₀]
    ring

/-- The product `res*res*res` of `fft_r`, taken in `int`, is the number of cells
when that number is below `2^31`. -/
theorem cube_in_int (N : Nat) (h : N * N * N < 2147483648) :
    toInt32 (toInt32 ((N : Int) * N) * N) = ((N * N * N : Nat) : Int) := by
  have h1 : N * N ≤ N * N * N := by
    rcases Nat.eq_zero_or_pos N with h0 | h0
    · subst h0; simp
    · exact Nat.le_mul_of_pos_right _ h0
  have e1 : ((N : Int) * N) = ((N * N : Nat) : Int) := by push_cast; ring
  have e2 : toInt32 ((N * N : Nat) : Int) = ((N * N : Nat) : Int) := by
    unfold toInt32
    omega
  have e3 : ((N * N : Nat) : Int) * N = ((N * N * N : Nat) : Int) := by push_cast; ring
  rw [e1, e2, e3]
  unfold toInt32
  omega

/-- What `fft_r` returns in the two directions when `res*res*res` is below
`2^31`: the transform of the entries of `ftin` divided by `sqrt(res*res*res)`. -/
theorem fft_r_some (N : Nat) (h : N * N * N < 2147483648) (forward backward : List ℂ → List ℂ)
    (fto a : List ℂ) :
    fft_r Real.sqrt forward backward fto a N 1
        = some (forward ((List.range (N * N * N)).map fun i =>
            a.getD i 0 / algebraMap ℝ ℂ (Real.sqrt ((N * N * N : Nat) : ℝ))))
    ∧ fft_r Real.sqrt forward backward fto a N (-1)
        = some (backward ((List.range (N * N * N)).map fun i =>
            a.getD i 0 / algebraMap ℝ ℂ (Real.sqrt ((N * N * N : Nat) : ℝ)))) := by
  have hc := cube_in_int N h
  have hn : ((N : Int) * N * N).toNat = N * N * N := by
    have : ((N : Int) * N * N) = ((N * N * N : Nat) : Int) := by push_cast; ring
    rw [this, Int.toNat_natCast]
  constructor
  · unfold fft_r
    simp only [hc, hn, Int.toNat_natCast, List.length_map, List.length_range, lt_irrefl,
      if_true, if_false, Int.cast_natCast]
  · unfold fft_r
    simp only [hc, hn, Int.toNat_natCast, List.length_map, List.length_range, lt_irrefl,
      if_true, if_false, Int.cast_natCast, show ((-1 : Int) = 1) = False from by decide]

/-- C22 (amended): for every grid side `N ≥ 1` with `N³ < 2^31` and all complex
arrays `a`, `b`, taking the library's unnormalised transforms (forward and
backward) to satisfy `⟨Fa, Fb⟩ = N³·⟨a, b⟩` on arrays of `N³` entries, `fft_r` in
either direction (`dir = 1` or `dir = −1`) returns and preserves the inner
product: `dot(fft_r(a), fft_r(b)) = dot(a, b)`, both directions dividing by
`√N³`. -/
theorem fft_r_preserves_dot (N : Nat) (hN : 1 ≤ N) (hint : N * N * N < 2147483648)
    (a b fto1 fto2 : List ℂ) (forward backward : List ℂ → List ℂ)
    (hF : ∀ u v : List ℂ, u.length = N * N * N → v.length = N * N * N →
      dot (forward u) (forward v) (N * N * N) = ((N * N * N : Nat) : ℂ) * dot u v (N * N * N))
    (hB : ∀ u v : List ℂ, u.length = N * N * N → v.length = N * N * N →
      dot (backward u) (backward v) (N * N * N) = ((N * N * N : Nat) : ℂ) * dot u v (N * N * N))
    (dir : Int) (hdir : dir = 1 ∨ dir = -1) :
    ∃ fa fb : List ℂ,
      fft_r Real.sqrt forward backward fto1 a N dir = some fa
      ∧ fft_r Real.sqrt forward backward fto2 b N dir = some fb
      ∧ dot fa fb (N * N * N) = dot a b (N * N * N) := by
  have hpos : (0 : ℝ) < ((N * N * N : Nat) : ℝ) := by
    have : 0 < N * N * N := by positivity
    exact_mod_cast this
  have hs : star (algebraMap ℝ ℂ (Real.sqrt ((N * N * N : Nat) : ℝ)))
      * algebraMap ℝ ℂ (Real.sqrt ((N * N * N : Nat) : ℝ)) = ((N * N * N : Nat) : ℂ) := by
    simp only [Complex.coe_algebraMap, Complex.star_def, Complex.conj_ofReal]
    rw [← Complex.ofReal_mul, Real.mul_self_sqrt hpos.le]
    simp
  have hne : ((N * N * N : Nat) : ℂ) ≠ 0 := by
    have : (N * N * N : Nat) ≠ 0 := by positivity
    exact_mod_cast this
  have key : ∀ T : List ℂ → List ℂ,
      (∀ u v : List ℂ, u.length = N * N * N → v.length = N * N * N →
        dot (T u) (T v) (N * N * N) = ((N * N * N : Nat) : ℂ) * dot u v (N * N * N)) →
      dot (T ((List.range (N * N * N)).map fun i =>
            a.getD i 0 / algebraMap ℝ ℂ (Real.sqrt ((N * N * N : Nat) : ℝ))))
          (T ((List.range (N * N * N)).map fun i =>
            b.getD i 0 / algebraMap ℝ ℂ (Real.sqrt ((N * N * N : Nat) : ℝ))))
          (N * N * N)
        = dot a b (N * N * N) := by
    intro T hT
    rw [hT _ _ (by simp) (by simp), dot_scaled a b _ _ _ (le_refl _), hs, ← mul_div_assoc,
      mul_div_cancel_left₀ _ hne]
  rcases hdir with rfl | rfl
  · exact ⟨_, _, (fft_r_some N hint forward backward fto1 a).1,
      (fft_r_some N hint forward backward fto2 b).1, key forward hF⟩
  · exact ⟨_, _, (fft_r_some N hint forward backward fto1 a).2,
      (fft_r_some N hint forward backward fto2 b).2, key backward hB⟩

/-- The transform of a plan of `2 × 2 × 2` points satisfies
`⟨Fu, Fv⟩ = 8·⟨u, v⟩` on arrays of 8 entries. -/
theorem transformOfSideTwo_dot (u v : List ℂ) (hu : u.length = 8) (hv : v.length = 8) :
    dot (transformOfSideTwo u) (transformOfSideTwo v) 8 = 8 * dot u v 8 := by
  match u, hu with
  | [u0, u1, u2, u3, u4, u5, u6, u7], _ =>
    match v, hv with
    | [v0, v1, v2, v3, v4, v5, v6, v7], _ =>
      simp only [dot, transformOfSideTwo, List.range, List.range.loop, List.map, List.foldl,
        List.sum_cons, List.sum_nil, List.getD_cons_zero, List.getD_cons_succ]
      norm_num
      ring

/-- C22 (witness): the grid of side 2 with its transform of `2 × 2 × 2` points,
the backward direction, and the arrays `(1, 2, …, 8)` and `(1, i, 0, 0, 2, 0, 0, −1)`;
the entries are divided by `√8`. -/
theorem fft_r_preserves_dot_witness :
    1 ≤ 2 ∧ 2 * 2 * 2 < 2147483648
    ∧ (∀ u v : List ℂ, u.length = 2 * 2 * 2 → v.length = 2 * 2 * 2 →
        dot (transformOfSideTwo u) (transformOfSideTwo v) (2 * 2 * 2)
          = ((2 * 2 * 2 : Nat) : ℂ) * dot u v (2 * 2 * 2))
    ∧ ((-1 : Int) = 1 ∨ (-1 : Int) = -1)
    ∧ ∃ fa fb : List ℂ,
      fft_r Real.sqrt transformOfSideTwo transformOfSideTwo [] [1, 2, 3, 4, 5, 6, 7, 8]
          (2 : Nat) (-1) = some fa
      ∧ fft_r Real.sqrt transformOfSideTwo transformOfSideTwo []
          [1, Complex.I, 0, 0, 2, 0, 0, -1] (2 : Nat) (-1) = some fb
      ∧ dot fa fb (2 * 2 * 2)
        = dot [1, 2, 3, 4, 5, 6, 7, 8] [1, Complex.I, 0, 0, 2, 0, 0, -1] (2 * 2 * 2) :=
  ⟨by decide, by decide,
    fun u v hu hv => by
      have := transformOfSideTwo_dot u v hu hv
      norm_num at this ⊢
      exact this,
    Or.inr rfl,
    fft_r_preserves_dot 2 (by decide) (by decide) [1, 2, 3, 4, 5, 6, 7, 8]
      [1, Complex.I, 0, 0, 2, 0, 0, -1] [] [] transformOfSideTwo transformOfSideTwo
      (fun u v hu hv => by
        have := transformOfSideTwo_dot u v hu hv
        norm_num at this ⊢
        exact this)
      (fun u v hu hv => by
        have := transformOfSideTwo_dot u v hu hv
        norm_num at this ⊢
        exact this)
      (-1) (Or.inr rfl)⟩

/-- C22 (the claim fails): for the grid side `N = 1291` the product
`res*res*res`, taken in `int`, is `2151685171 − 2^32 = −2143282125`: the loop
that fills the scratch array `fti` does not run, the library is handed an array
without the `N³` entries it reads, and `fft_r` has no result in either
direction, whatever the arrays and the transforms are. -/
theorem fft_r_leaves_array_at_1291 :
    (1291 : Int) * 1291 * 1291 = 2151685171
    ∧ toInt32 (toInt32 ((1291 : Int) * 1291) * 1291) = -2143282125
    ∧ ∀ (forward backward : List ℂ → List ℂ) (fto a : List ℂ),
        fft_r Real.sqrt forward backward fto a 1291 1 = none
        ∧ fft_r Real.sqrt forward backward fto a 1291 (-1) = none := by
  have h3 : toInt32 (toInt32 ((1291 : Int) * 1291) * 1291) = -2143282125 := by
    norm_num [toInt32]
  refine ⟨by norm_num, h3, ?_⟩
  intro forward backward fto a
  constructor
  · unfold fft_r
    simp only [h3]
    norm_num
  · unfold fft_r
    simp only [h3]
    norm_num

/-! ## C23: the function `chi2` -/

/-- The loop of `chi2` as a sum over `1 ≤ i ≤ m`. -/
theorem chi2_loop (f : Nat → ℂ) (m : Nat) :
    (List.range' 1 m).foldl (fun res i => res + f i) 0 = ∑ i ∈ Finset.Ico 1 (m + 1), f i := by
  induction m with
  | zero => simp
  | succ m ih =>
    rw [List.range'_1_concat, List.foldl_append, ih,
      Finset.sum_Ico_succ_top (Nat.le_add_left 1 m)]
    simp only [List.foldl_cons, List.foldl_nil]
    rw [Nat.add_comm 1 m]

/-- The value of `chi2`: the sum over `1 ≤ i < n` of `|a_i|²/b_i`, divided by
`n`. -/
theorem chi2_value (a b : List ℂ) (n : Nat) :
    chi2 (K := ℝ) a b n
      = (∑ i ∈ Finset.Ico 1 n, ((Complex.normSq (a.getD i 0) : ℝ) : ℂ) / b.getD i 0) / (n : ℂ) := by
  unfold chi2
  rw [chi2_loop (fun i => star (a.getD i 0) * a.getD i 0 / b.getD i 0)]
  have hn : (algebraMap ℝ ℂ ((n : ℝ))) = (n : ℂ) := by simp
  rw [hn]
  rcases Nat.eq_zero_or_pos n with h0 | hpos
  · subst h0
    simp
  · have e : n - 1 + 1 = n := by omega
    rw [e]
    congr 1
    apply Finset.sum_congr rfl
    intro i _
    rw [Complex.normSq_eq_conj_mul_self]
    rfl

/-- C23 (the claim fails): `n = 2`, the field `a = [0, 2]` and the spectrum
`P = [0, 1]`. The sum `Σ_{i=1}^{n−1} |a_i|²/P_i` is `4`; `chi2` returns `2`, the
sum divided by `n`. -/
theorem chi2_divides_by_n :
    chi2 (K := ℝ) ([0, 2] : List ℂ) [0, 1] 2 = 2
    ∧ ∑ i ∈ Finset.Ico 1 2, ((Complex.normSq (([0, 2] : List ℂ).getD i 0) : ℝ) : ℂ)
        / ([0, 1] : List ℂ).getD i 0 = 4 := by
  have hsum : ∑ i ∈ Finset.Ico 1 2, ((Complex.normSq (([0, 2] : List ℂ).getD i 0) : ℝ) : ℂ)
      / ([0, 1] : List ℂ).getD i 0 = 4 := by
    simp
    norm_num
  refine ⟨?_, hsum⟩
  rw [chi2_value, hsum]
  norm_num

/-- C23 (amended): for every `n`, field `a` and spectrum `P`, `chi2(a, P, n)`
equals the sum `Σ_{i=1}^{n−1} |a_i|² / P_i` divided by `n`, the zero mode `i = 0`
being skipped. -/
theorem chi2_eq_sum_over_n (a P : List ℂ) (n : Nat) :
    chi2 (K := ℝ) a P n
      = (∑ i ∈ Finset.Ico 1 n, ((Complex.normSq (a.getD i 0) : ℝ) : ℂ) / P.getD i 0) / (n : ℂ) :=
  chi2_value a P n

end constr_code

/-! ## C24: the state of `conjugateGradient` before its first iteration -/

namespace tools.numerics

/-- The loop of `conjugateGradient` starts from the state `initialState`. -/
theorem conjugateGradient_from_initialState (Q : Field → Field) (b : Field) (rtol atol : ℚ) :
    conjugateGradient Q b rtol atol
      = if Maximum b = 0 then some (conjugateGradient.initialState b).1
        else cgLoop Q b rtol atol (Maximum b) (b.length + 1) (conjugateGradient.initialState b).1
          (conjugateGradient.initialState b).2.1 (conjugateGradient.initialState b).2.2 :=
  rfl

/-- C24 (the code at the failing input): the right-hand side `b = [4]`. Before
its first iteration `conjugateGradient` holds `x = [0]`, `residual = [4] = b` and
`direction = [-4] = -b`, not `r = −b = [-4]` and `d = b = [4]`; the residual that
the loop itself computes, `Q(x) − b`, is `[-4]` at `x = 0` (here for `Q = 2·`). -/
theorem conjugateGradient_starts_with_residual_b :
    conjugateGradient.initialState [4] = ([0], [4], [-4])
    ∧ conjugateGradient.initialState [4] ≠ ([0], negField [4], [4])
    ∧ subField (scaleField [0] 2) [4] = [-4] := by
  decide!

end tools.numerics

/-! ## C25: `densityToPotential` and the legacy `poiss` -/

/-- A value in the range of `int` is its own conversion. -/
theorem toInt32_of_range (v : Int) (h : -2147483648 ≤ v ∧ v < 2147483648) : toInt32 v = v := by
  unfold toInt32
  omega

/-- A value in the range of `size_t` is its own conversion. -/
theorem toSizeT_of_range (v : Int) (h : 0 ≤ v ∧ v < 18446744073709551616) : toSizeT v = v := by
  unfold toSizeT
  omega

/-- A value in the range of `long` is its own conversion. -/
theorem toInt64_of_range (v : Int) (h : -9223372036854775808 ≤ v ∧ v < 9223372036854775808) :
    toInt64 v = v := by
  unfold toInt64
  omega

/-- The square of a `size_t` that holds a wrapped negative number `-m` is `m²`. -/
theorem toSizeT_sq_wrapped (s : Int) (h : s * s < 18446744073709551616) :
    toSizeT (toSizeT s * toSizeT s) = s * s := by
  unfold toSizeT
  have h0 : 0 ≤ s * s := mul_self_nonneg s
  rw [← Int.mul_emod]
  exact Int.emod_eq_of_lt h0 h

namespace constr_code

/-- Bounds on a cell index and on the squares of the signed indices for a grid
whose number of cells fits an `int`. -/
theorem cell_bounds (N k1 k2 k3 : Nat) (hN : N * N * N < 2147483648) (h1 : k1 < N) (h2 : k2 < N)
    (h3 : k3 < N) :
    k1 * N < 2147483648 ∧ k1 * N + k2 < 2147483648 ∧ (k1 * N + k2) * N < 2147483648
      ∧ (k1 * N + k2) * N + k3 < N * N * N := by
  have hN1 : 1 ≤ N := by omega
  have a1 : k1 * N + k2 < N * N := by
    calc k1 * N + k2 < k1 * N + N := by omega
      _ = (k1 + 1) * N := by ring
      _ ≤ N * N := Nat.mul_le_mul_right N h1
  have a2 : (k1 * N + k2) * N + k3 < N * N * N := by
    calc (k1 * N + k2) * N + k3 < (k1 * N + k2) * N + N := by omega
      _ = (k1 * N + k2 + 1) * N := by ring
      _ ≤ N * N * N := Nat.mul_le_mul_right N a1
  have a3 : N * N ≤ N * N * N := Nat.le_mul_of_pos_right _ hN1
  refine ⟨by omega, by omega, by omega, a2⟩

/-- The square of a signed index is at most `N²/4`. -/
theorem signedIndex_sq_le (N k : Nat) (hk : k < N) :
    0 ≤ signedIndex N k * signedIndex N k ∧ 4 * (signedIndex N k * signedIndex N k) ≤ (N : Int) * N := by
  obtain ⟨ha, hb⟩ := signedIndex_range N k ⟨by omega, by omega⟩
  refine ⟨mul_self_nonneg _, ?_⟩
  nlinarith

/-- The digits of the index `(k1*N+k2)*N+k3`. -/
theorem cell_digits (N k1 k2 k3 : Nat) (h2 : k2 < N) (h3 : k3 < N) :
    ((k1 * N + k2) * N + k3) / (N * N) = k1 ∧ ((k1 * N + k2) * N + k3) / N % N = k2
      ∧ ((k1 * N + k2) * N + k3) % N = k3 := by
  have hN : 0 < N := by omega
  have e1 : ((k1 * N + k2) * N + k3) / N = k1 * N + k2 := by
    rw [Nat.add_comm, Nat.add_mul_div_right _ _ hN, Nat.div_eq_of_lt h3, Nat.zero_add]
  have e2 : (k1 * N + k2) / N = k1 := by
    rw [Nat.add_comm, Nat.add_mul_div_right _ _ hN, Nat.div_eq_of_lt h2, Nat.zero_add]
  refine ⟨?_, ?_, ?_⟩
  · rw [← Nat.div_div_eq_div_mul, e1, e2]
  · rw [e1, Nat.add_comm, Nat.add_mul_mod_self_right, Nat.mod_eq_of_lt h2]
  · rw [Nat.add_comm, Nat.add_mul_mod_self_right, Nat.mod_eq_of_lt h3]

/-- A loop whose round `k` rewrites the block `k` of width `w` (from `base` on) of
an array of length `n`, each entry `j` to `V j` of its old value, rewrites after
`m` rounds the first `m` blocks in that way and leaves the rest. -/
theorem foldl_blocks {α : Type} (n base w : Nat) (V : Nat → Option α → Option α)
    (body : Nat → Option (List α) → Option (List α)) (m : Nat)
    (hbody : ∀ k, k < m → ∀ l : List α, l.length = n →
      ∃ l1, body k (some l) = some l1 ∧ l1.length = n
        ∧ (∀ j, (j < base + k * w ∨ base + (k + 1) * w ≤ j) → l1[j]? = l[j]?)
        ∧ (∀ j, base + k * w ≤ j → j < base + (k + 1) * w → l1[j]? = V j l[j]?)) :
    ∀ l : List α, l.length = n →
      ∃ l1, (List.range m).foldl (fun a k => body k a) (some l) = some l1 ∧ l1.length = n
        ∧ (∀ j, (j < base ∨ base + m * w ≤ j) → l1[j]? = l[j]?)
        ∧ (∀ j, base ≤ j → j < base + m * w → l1[j]? = V j l[j]?) := by
  induction m with
  | zero =>
    intro l hl
    exact ⟨l, rfl, hl, fun _ _ => rfl, fun j h1 h2 => by omega⟩
  | succ m ih =>
    intro l hl
    obtain ⟨l1, e1, hl1, hout1, hin1⟩ := ih (fun k hk => hbody k (by omega)) l hl
    obtain ⟨l2, e2, hl2, hout2, hin2⟩ := hbody m (by omega) l1 hl1
    have e : (m + 1) * w = m * w + w := by ring
    refine ⟨l2, ?_, hl2, ?_, ?_⟩
    · rw [List.range_succ, List.foldl_append, e1]
      simpa using e2
    · intro j hj
      rw [hout2 j (by omega), hout1 j (by omega)]
    · intro j hj1 hj2
      by_cases hjm : j < base + m * w
      · rw [hout2 j (by omega), hin1 j hj1 hjm]
      · rw [hin2 j (by omega) (by omega), hout1 j (by omega)]

/-- Three nested loops over `0 ≤ k1, k2, k3 < N` whose body rewrites the entry
`(k1·N + k2)·N + k3` of an array of `N³` entries to `V` of its old value rewrite
every entry `j` to `V j` of its old value. -/
theorem foldl_cells {α : Type} (N : Nat) (V : Nat → Option α → Option α)
    (body : Nat → Nat → Nat → Option (List α) → Option (List α))
    (hcell : ∀ k1 k2 k3, k1 < N → k2 < N → k3 < N → ∀ l : List α, l.length = N * N * N →
      ∃ l1, body k1 k2 k3 (some l) = some l1 ∧ l1.length = N * N * N
        ∧ (∀ j, j ≠ (k1 * N + k2) * N + k3 → l1[j]? = l[j]?)
        ∧ l1[(k1 * N + k2) * N + k3]? = V ((k1 * N + k2) * N + k3) l[(k1 * N + k2) * N + k3]?) :
    ∀ l : List α, l.length = N * N * N →
      ∃ l1, (List.range N).foldl (fun a k1 => (List.range N).foldl
          (fun a k2 => (List.range N).foldl (fun a k3 => body k1 k2 k3 a) a) a) (some l) = some l1
        ∧ l1.length = N * N * N ∧ ∀ j, j < N * N * N → l1[j]? = V j l[j]? := by
  have inner : ∀ k1 k2, k1 < N → k2 < N → ∀ l : List α, l.length = N * N * N →
      ∃ l1, (List.range N).foldl (fun a k3 => body k1 k2 k3 a) (some l) = some l1
        ∧ l1.length = N * N * N
        ∧ (∀ j, (j < k1 * (N * N) + k2 * N ∨ k1 * (N * N) + (k2 + 1) * N ≤ j) → l1[j]? = l[j]?)
        ∧ (∀ j, k1 * (N * N) + k2 * N ≤ j → j < k1 * (N * N) + (k2 + 1) * N →
            l1[j]? = V j l[j]?) := by
    intro k1 k2 h1 h2 l hl
    have e : (k1 * N + k2) * N = k1 * (N * N) + k2 * N := by ring
    have e2 : (k2 + 1) * N = k2 * N + N := by ring
    obtain ⟨l1, he, hl1, hout, hin⟩ := foldl_blocks (N * N * N) ((k1 * N + k2) * N) 1 V
      (fun k3 a => body k1 k2 k3 a) N
      (fun k3 h3 l hl => by
        obtain ⟨l1, he, hl1, hne, heq⟩ := hcell k1 k2 k3 h1 h2 h3 l hl
        refine ⟨l1, he, hl1, fun j hj => hne j (by omega), fun j hj1 hj2 => ?_⟩
        have : j = (k1 * N + k2) * N + k3 := by omega
        rw [this]
        exact heq) l hl
    exact ⟨l1, he, hl1, fun j hj => hout j (by omega), fun j hj1 hj2 => hin j (by omega) (by omega)⟩
  have middle : ∀ k1, k1 < N → ∀ l : List α, l.length = N * N * N →
      ∃ l1, (List.range N).foldl (fun a k2 => (List.range N).foldl
          (fun a k3 => body k1 k2 k3 a) a) (some l) = some l1
        ∧ l1.length = N * N * N
        ∧ (∀ j, (j < 0 + k1 * (N * N) ∨ 0 + (k1 + 1) * (N * N) ≤ j) → l1[j]? = l[j]?)
        ∧ (∀ j, 0 + k1 * (N * N) ≤ j → j < 0 + (k1 + 1) * (N * N) → l1[j]? = V j l[j]?) := by
    intro k1 h1 l hl
    have e2 : (k1 + 1) * (N * N) = k1 * (N * N) + N * N := by ring
    obtain ⟨l1, he, hl1, hout, hin⟩ := foldl_blocks (N * N * N) (k1 * (N * N)) N V
      (fun k2 a => (List.range N).foldl (fun a k3 => body k1 k2 k3 a) a) N
      (fun k2 h2 l hl => inner k1 k2 h1 h2 l hl) l hl
    exact ⟨l1, he, hl1, fun j hj => hout j (by omega), fun j hj1 hj2 => hin j (by omega) (by omega)⟩
  intro l hl
  obtain ⟨l1, he, hl1, -, hin⟩ := foldl_blocks (N * N * N) 0 (N * N) V
    (fun k1 a => (List.range N).foldl (fun a k2 => (List.range N).foldl
      (fun a k3 => body k1 k2 k3 a) a) a) N
    (fun k1 h1 l hl => middle k1 h1 l hl) l hl
  have e : N * N * N = N * (N * N) := by ring
  exact ⟨l1, he, hl1, fun j hj => hin j (by omega) (by omega)⟩

/-- The squared length of the signed index vector of the cell `(k1,k2,k3)`. -/
theorem signedIndexNormSq_cell (N k1 k2 k3 : Nat) (h2 : k2 < N) (h3 : k3 < N) :
    signedIndexNormSq N ((k1 * N + k2) * N + k3)
      = signedIndex N k1 * signedIndex N k1 + signedIndex N k2 * signedIndex N k2
        + signedIndex N k3 * signedIndex N k3 := by
  obtain ⟨d1, d2, d3⟩ := cell_digits N k1 k2 k3 h2 h3
  unfold signedIndexNormSq
  rw [d1, d2, d3]

/-- Bounds on the squared length of the signed index vector. -/
theorem signedIndexNormSq_bounds (N k1 k2 k3 : Nat) (h1 : k1 < N) (h2 : k2 < N) (h3 : k3 < N) :
    0 ≤ signedIndex N k1 * signedIndex N k1 + signedIndex N k2 * signedIndex N k2
        + signedIndex N k3 * signedIndex N k3
    ∧ signedIndex N k1 * signedIndex N k1 + signedIndex N k2 * signedIndex N k2
        + signedIndex N k3 * signedIndex N k3 ≤ (N : Int) * N := by
  obtain ⟨a1, b1⟩ := signedIndex_sq_le N k1 h1
  obtain ⟨a2, b2⟩ := signedIndex_sq_le N k2 h2
  obtain ⟨a3, b3⟩ := signedIndex_sq_le N k3 h3
  have : 0 ≤ (N : Int) * N := mul_self_nonneg _
  constructor <;> omega

/-- The `int` arithmetic of `poiss` for a cell of a grid with fewer than `2^31`
cells: the index is `(k1·N+k2)·N+k3`, the numbers `kk` are the signed indices,
and their squares add up without overflow. -/
theorem poiss_arithmetic (N k1 k2 k3 : Nat) (hN : N * N * N < 2147483648) (h1 : k1 < N)
    (h2 : k2 < N) (h3 : k3 < N) :
    toInt32 (toInt32 (toInt32 (toInt32 ((k1 : Int) * N) + k2) * N) + k3)
        = (((k1 * N + k2) * N + k3 : Nat) : Int)
    ∧ (∀ k : Nat, k < N →
        (if (k : Int) > Int.tdiv N 2 then toInt32 ((k : Int) - N) else (k : Int))
          = signedIndex N k)
    ∧ toInt32 (toInt32 (toInt32 (signedIndex N k1 * signedIndex N k1)
          + toInt32 (signedIndex N k2 * signedIndex N k2))
          + toInt32 (signedIndex N k3 * signedIndex N k3))
        = signedIndexNormSq N ((k1 * N + k2) * N + k3) := by
  obtain ⟨b1, b2, b3, b4⟩ := cell_bounds N k1 k2 k3 hN h1 h2 h3
  have c1 : ((k1 : Int) * N) < 2147483648 := by exact_mod_cast b1
  have c2 : ((k1 : Int) * N + k2) < 2147483648 := by exact_mod_cast b2
  have c3 : (((k1 : Int) * N + k2) * N) < 2147483648 := by exact_mod_cast b3
  have c4 : (((k1 : Int) * N + k2) * N + k3) < 2147483648 := by
    have : (((k1 * N + k2) * N + k3 : Nat) : Int) < 2147483648 := by
      have := Nat.lt_trans b4 hN
      exact_mod_cast this
    push_cast at this
    exact this
  have p1 : 0 ≤ (k1 : Int) * N := by positivity
  have p3 : 0 ≤ ((k1 : Int) * N + k2) * N := by positivity
  have hNN : (N : Int) * N < 2147483648 := by
    have h : N * N ≤ N * N * N := Nat.le_mul_of_pos_right _ (by omega)
    have : N * N < 2147483648 := by omega
    exact_mod_cast this
  have hNlt : (N : Int) < 2147483648 := by
    have h : N ≤ N * N := Nat.le_mul_of_pos_right _ (by omega)
    have : (N : Int) ≤ (N : Int) * N := by exact_mod_cast h
    omega
  refine ⟨?_, ?_, ?_⟩
  · rw [toInt32_of_range _ ⟨by omega, c1⟩, toInt32_of_range _ ⟨by omega, c2⟩,
      toInt32_of_range _ ⟨by omega, c3⟩, toInt32_of_range _ ⟨by omega, c4⟩]
    push_cast
    ring
  · intro k hk
    unfold signedIndex
    split_ifs with h
    · exact toInt32_of_range _ ⟨by omega, by omega⟩
    · rfl
  · obtain ⟨a1, q1⟩ := signedIndex_sq_le N k1 h1
    obtain ⟨a2, q2⟩ := signedIndex_sq_le N k2 h2
    obtain ⟨a3, q3⟩ := signedIndex_sq_le N k3 h3
    rw [toInt32_of_range (signedIndex N k1 * signedIndex N k1) ⟨by omega, by omega⟩,
      toInt32_of_range (signedIndex N k2 * signedIndex N k2) ⟨by omega, by omega⟩,
      toInt32_of_range (signedIndex N k3 * signedIndex N k3) ⟨by omega, by omega⟩,
      toInt32_of_range (signedIndex N k1 * signedIndex N k1 + signedIndex N k2 * signedIndex N k2)
        ⟨by omega, by omega⟩,
      toInt32_of_range (signedIndex N k1 * signedIndex N k1 + signedIndex N k2 * signedIndex N k2
        + signedIndex N k3 * signedIndex N k3) ⟨by omega, by omega⟩,
      signedIndexNormSq_cell N k1 k2 k3 h2 h3]

/-- The `size_t` arithmetic of `densityToPotential` for a cell of a grid with
fewer than `2^31` cells: the index is `(k1·N+k2)·N+k3`, and the squares of the
numbers `kk`, wrapped or not, add up to the squared length of the signed index
vector. -/
theorem densityToPotential_arithmetic (N k1 k2 k3 : Nat) (hN : N * N * N < 2147483648)
    (h1 : k1 < N) (h2 : k2 < N) (h3 : k3 < N) :
    toInt64 (toSizeT (toSizeT (toSizeT (toSizeT ((k1 : Int) * N) + k2) * N) + k3))
        = (((k1 * N + k2) * N + k3 : Nat) : Int)
    ∧ toSizeT (toSizeT
          (toSizeT ((if (k1 : Int) > (N : Int) / 2 then toSizeT ((k1 : Int) - N) else (k1 : Int))
            * (if (k1 : Int) > (N : Int) / 2 then toSizeT ((k1 : Int) - N) else (k1 : Int)))
          + toSizeT ((if (k2 : Int) > (N : Int) / 2 then toSizeT ((k2 : Int) - N) else (k2 : Int))
            * (if (k2 : Int) > (N : Int) / 2 then toSizeT ((k2 : Int) - N) else (k2 : Int))))
          + toSizeT ((if (k3 : Int) > (N : Int) / 2 then toSizeT ((k3 : Int) - N) else (k3 : Int))
            * (if (k3 : Int) > (N : Int) / 2 then toSizeT ((k3 : Int) - N) else (k3 : Int))))
        = signedIndexNormSq N ((k1 * N + k2) * N + k3) := by
  obtain ⟨b1, b2, b3, b4⟩ := cell_bounds N k1 k2 k3 hN h1 h2 h3
  have c1 : ((k1 : Int) * N) < 2147483648 := by exact_mod_cast b1
  have c2 : ((k1 : Int) * N + k2) < 2147483648 := by exact_mod_cast b2
  have c3 : (((k1 : Int) * N + k2) * N) < 2147483648 := by exact_mod_cast b3
  have c4 : (((k1 : Int) * N + k2) * N + k3) < 2147483648 := by
    have : (((k1 * N + k2) * N + k3 : Nat) : Int) < 2147483648 := by
      have := Nat.lt_trans b4 hN
      exact_mod_cast this
    push_cast at this
    exact this
  have p1 : 0 ≤ (k1 : Int) * N := by positivity
  have p3 : 0 ≤ ((k1 : Int) * N + k2) * N := by positivity
  have hNN : (N : Int) * N < 2147483648 := by
    have h : N * N ≤ N * N * N := Nat.le_mul_of_pos_right _ (by omega)
    have : N * N < 2147483648 := by omega
    exact_mod_cast this
  have hsq : ∀ k : Nat, k < N →
      toSizeT ((if (k : Int) > (N : Int) / 2 then toSizeT ((k : Int) - N) else (k : Int))
        * (if (k : Int) > (N : Int) / 2 then toSizeT ((k : Int) - N) else (k : Int)))
      = signedIndex N k * signedIndex N k := by
    intro k hk
    obtain ⟨a1, q1⟩ := signedIndex_sq_le N k hk
    have ht : Int.tdiv (N : Int) 2 = (N : Int) / 2 :=
      Int.tdiv_eq_ediv (by omega) (by norm_num)
    unfold signedIndex
    rw [ht]
    split_ifs with h
    · have hs : signedIndex N k = (k : Int) - N := by
        unfold signedIndex
        rw [ht, if_pos h]
      rw [hs] at a1 q1
      exact toSizeT_sq_wrapped _ (by omega)
    · have hs : signedIndex N k = (k : Int) := by
        unfold signedIndex
        rw [ht, if_neg h]
      rw [hs] at a1 q1
      exact toSizeT_of_range _ ⟨a1, by omega⟩
  refine ⟨?_, ?_⟩
  · rw [toSizeT_of_range ((k1 : Int) * N) ⟨by omega, by omega⟩,
      toSizeT_of_range ((k1 : Int) * N + k2) ⟨by omega, by omega⟩,
      toSizeT_of_range (((k1 : Int) * N + k2) * N) ⟨by omega, by omega⟩,
      toSizeT_of_range (((k1 : Int) * N + k2) * N + k3) ⟨by omega, by omega⟩,
      toInt64_of_range _ ⟨by omega, by omega⟩]
    push_cast
    ring
  · obtain ⟨a1, q1⟩ := signedIndex_sq_le N k1 h1
    obtain ⟨a2, q2⟩ := signedIndex_sq_le N k2 h2
    obtain ⟨a3, q3⟩ := signedIndex_sq_le N k3 h3
    rw [hsq k1 h1, hsq k2 h2, hsq k3 h3,
      toSizeT_of_range (signedIndex N k1 * signedIndex N k1 + signedIndex N k2 * signedIndex N k2)
        ⟨by omega, by omega⟩,
      toSizeT_of_range (signedIndex N k1 * signedIndex N k1 + signedIndex N k2 * signedIndex N k2
        + signedIndex N k3 * signedIndex N k3) ⟨by omega, by omega⟩,
      signedIndexNormSq_cell N k1 k2 k3 h2 h3]

/-- The body of the loop of `poiss` on an array. -/
theorem poiss_body_some {K : Type} [LinearOrderedField K] {F : Type} [Field F] [StarRing F]
    [Algebra K F] (pi : K) (input : List F) (res : Int) (Boxlength a Om : K) (k1 k2 k3 : Int)
    (out : List F) :
    poiss.body pi input res Boxlength a Om k1 k2 k3 (some out)
      = (at? input (toInt32 (toInt32 (toInt32 (toInt32 (k1 * res) + k2) * res) + k3))).bind
        fun v => setAt out (toInt32 (toInt32 (toInt32 (toInt32 (k1 * res) + k2) * res) + k3))
          (-v * algebraMap K F (3 / 2 * Om / a * 100 * 100 / (3 * 100000) / (3 * 100000))
            / algebraMap K F (((toInt32 (toInt32
                (toInt32 ((if k1 > Int.tdiv res 2 then toInt32 (k1 - res) else k1)
                  * (if k1 > Int.tdiv res 2 then toInt32 (k1 - res) else k1))
                + toInt32 ((if k2 > Int.tdiv res 2 then toInt32 (k2 - res) else k2)
                  * (if k2 > Int.tdiv res 2 then toInt32 (k2 - res) else k2)))
                + toInt32 ((if k3 > Int.tdiv res 2 then toInt32 (k3 - res) else k3)
                  * (if k3 > Int.tdiv res 2 then toInt32 (k3 - res) else k3))) : Int) : K)
              * (2 * pi / Boxlength) * (2 * pi / Boxlength))) := by
  unfold poiss.body
  simp only []
  cases at? input (toInt32 (toInt32 (toInt32 (toInt32 (k1 * res) + k2) * res) + k3)) <;> rfl

/-- The body of the loop of `densityToPotential` on an array. -/
theorem densityToPotential_body_some {K : Type} [LinearOrderedField K] {F : Type} [Field F]
    [StarRing F] [Algebra K F] (pi : K) (res : Int) (Boxlength : K)
    (cosmo : cosmology.CosmologicalParameters K) (k1 k2 k3 : Int) (field : List F) :
    cosmology.densityToPotential.body pi res Boxlength cosmo k1 k2 k3 (some field)
      = (at? field (toInt64 (toSizeT (toSizeT (toSizeT (toSizeT (k1 * res) + k2) * res)
          + k3)))).bind
        fun v => setAt field
          (toInt64 (toSizeT (toSizeT (toSizeT (toSizeT (k1 * res) + k2) * res) + k3)))
          (v * algebraMap K F
            (-(3 / 2 * cosmo.OmegaM0 / cosmo.scalefactor * 100 * 100 / (3 * 100000)
                / (3 * 100000))
              * (if toInt64 (toSizeT (toSizeT (toSizeT (toSizeT (k1 * res) + k2) * res) + k3)) = 0
                then 0
                else 1 / (((toSizeT (toSizeT
                  (toSizeT ((if k1 > res / 2 then toSizeT (k1 - res) else k1)
                    * (if k1 > res / 2 then toSizeT (k1 - res) else k1))
                  + toSizeT ((if k2 > res / 2 then toSizeT (k2 - res) else k2)
                    * (if k2 > res / 2 then toSizeT (k2 - res) else k2)))
                  + toSizeT ((if k3 > res / 2 then toSizeT (k3 - res) else k3)
                    * (if k3 > res / 2 then toSizeT (k3 - res) else k3))) : Int) : K)
                  * (2 * pi / Boxlength) * (2 * pi / Boxlength))))) := by
  unfold cosmology.densityToPotential.body
  simp only []
  cases at? field (toInt64 (toSizeT (toSizeT (toSizeT (toSizeT (k1 * res) + k2) * res) + k3)))
    <;> rfl

/-- The body of the loop of `poiss` for a cell of a grid with fewer than `2^31`
cells: it writes the entry `j = (k1·N+k2)·N+k3` of `out`, the new value being
`-in[j]·prefac/k` with `k = |i|²·kw²`. -/
theorem poiss_body_cell {K : Type} [LinearOrderedField K] {F : Type} [Field F] [StarRing F]
    [Algebra K F] (pi : K) (input : List F) (N : Nat) (Boxlength a Om : K)
    (hN : N * N * N < 2147483648) (hin : input.length = N * N * N) (k1 k2 k3 : Nat)
    (h1 : k1 < N) (h2 : k2 < N) (h3 : k3 < N) (l : List F) (hl : l.length = N * N * N) :
    ∃ l1, poiss.body pi input N Boxlength a Om k1 k2 k3 (some l) = some l1
      ∧ l1.length = N * N * N
      ∧ (∀ j, j ≠ (k1 * N + k2) * N + k3 → l1[j]? = l[j]?)
      ∧ l1[(k1 * N + k2) * N + k3]? = (input[(k1 * N + k2) * N + k3]?).map fun v =>
          -v * algebraMap K F (3 / 2 * Om / a * 100 * 100 / (3 * 100000) / (3 * 100000))
            / algebraMap K F (((signedIndexNormSq N ((k1 * N + k2) * N + k3) : Int) : K)
              * (2 * pi / Boxlength) * (2 * pi / Boxlength)) := by
  obtain ⟨hidx, hkk, hsum⟩ := poiss_arithmetic N k1 k2 k3 hN h1 h2 h3
  obtain ⟨-, -, -, b4⟩ := cell_bounds N k1 k2 k3 hN h1 h2 h3
  cases hv : input[(k1 * N + k2) * N + k3]? with
  | none =>
    rw [List.getElem?_eq_none_iff] at hv
    omega
  | some v =>
    have hat : at? input ((((k1 * N + k2) * N + k3 : Nat)) : Int) = some v := by
      unfold at?
      rw [if_neg (by omega), Int.toNat_natCast]
      exact hv
    have hb : poiss.body pi input N Boxlength a Om k1 k2 k3 (some l)
        = some (l.set ((k1 * N + k2) * N + k3)
          (-v * algebraMap K F (3 / 2 * Om / a * 100 * 100 / (3 * 100000) / (3 * 100000))
            / algebraMap K F (((signedIndexNormSq N ((k1 * N + k2) * N + k3) : Int) : K)
              * (2 * pi / Boxlength) * (2 * pi / Boxlength)))) := by
      rw [poiss_body_some, hidx, hkk k1 h1, hkk k2 h2, hkk k3 h3, hsum, hat, Option.some_bind,
        setAt_inside l _ _ (by omega) (by rw [Int.toNat_natCast]; omega), Int.toNat_natCast]
    refine ⟨_, hb, by simp [hl], fun j hj => ?_, ?_⟩
    · rw [List.getElem?_set_ne (Ne.symm hj)]
    · rw [List.getElem?_set_self (by omega)]
      rfl

/-- The body of the loop of `densityToPotential` for a cell of a grid with fewer
than `2^31` cells: it multiplies the entry `j = (k1·N+k2)·N+k3` of the field by
the factor `poissonFactor j`. -/
theorem densityToPotential_body_cell {K : Type} [LinearOrderedField K] {F : Type} [Field F]
    [StarRing F] [Algebra K F] (pi : K) (N : Nat) (Boxlength : K)
    (cosmo : cosmology.CosmologicalParameters K) (hN : N * N * N < 2147483648) (k1 k2 k3 : Nat)
    (h1 : k1 < N) (h2 : k2 < N) (h3 : k3 < N) (l : List F) (hl : l.length = N * N * N) :
    ∃ l1, cosmology.densityToPotential.body pi N Boxlength cosmo k1 k2 k3 (some l) = some l1
      ∧ l1.length = N * N * N
      ∧ (∀ j, j ≠ (k1 * N + k2) * N + k3 → l1[j]? = l[j]?)
      ∧ l1[(k1 * N + k2) * N + k3]? = (l[(k1 * N + k2) * N + k3]?).map fun v =>
          v * algebraMap K F (poissonFactor pi N Boxlength cosmo.scalefactor
            cosmo.OmegaM0 ((k1 * N + k2) * N + k3)) := by
  obtain ⟨hidx, hsum⟩ := densityToPotential_arithmetic N k1 k2 k3 hN h1 h2 h3
  obtain ⟨-, -, -, b4⟩ := cell_bounds N k1 k2 k3 hN h1 h2 h3
  cases hv : l[(k1 * N + k2) * N + k3]? with
  | none =>
    rw [List.getElem?_eq_none_iff] at hv
    omega
  | some v =>
    have hat : at? l ((((k1 * N + k2) * N + k3 : Nat)) : Int) = some v := by
      unfold at?
      rw [if_neg (by omega), Int.toNat_natCast]
      exact hv
    have hfac : -(3 / 2 * cosmo.OmegaM0 / cosmo.scalefactor * 100 * 100 / (3 * 100000)
          / (3 * 100000))
        * (if ((((k1 * N + k2) * N + k3 : Nat)) : Int) = 0 then (0 : K)
          else 1 / (((signedIndexNormSq N ((k1 * N + k2) * N + k3) : Int) : K)
            * (2 * pi / Boxlength) * (2 * pi / Boxlength)))
        = poissonFactor pi N Boxlength cosmo.scalefactor cosmo.OmegaM0
            ((k1 * N + k2) * N + k3) := by
      unfold poissonFactor
      by_cases hz : (k1 * N + k2) * N + k3 = 0
      · rw [if_pos hz, if_pos (by exact_mod_cast hz), mul_zero]
      · rw [if_neg hz, if_neg (by exact_mod_cast hz), mul_one_div]
    have hb : cosmology.densityToPotential.body pi N Boxlength cosmo k1 k2 k3 (some l)
        = some (l.set ((k1 * N + k2) * N + k3)
          (v * algebraMap K F (poissonFactor pi N Boxlength cosmo.scalefactor cosmo.OmegaM0
            ((k1 * N + k2) * N + k3)))) := by
      rw [densityToPotential_body_some, hidx, hsum, hat, hfac, Option.some_bind,
        setAt_inside l _ _ (by omega) (by rw [Int.toNat_natCast]; omega), Int.toNat_natCast]
    refine ⟨_, hb, by simp [hl], fun j hj => ?_, ?_⟩
    · rw [List.getElem?_set_ne (Ne.symm hj)]
    · rw [List.getElem?_set_self (by omega)]
      rfl

/-- The values of `poiss` and of `densityToPotential` on a grid of side `N ≥ 1`
with fewer than `2^31` cells: both return the field with every mode `j`
multiplied by `poissonFactor j`. -/
theorem poiss_densityToPotential_value {K : Type} [LinearOrderedField K] {F : Type} [Field F]
    [StarRing F] [Algebra K F] (pi : K) (N : Nat) (Boxlength : K)
    (cosmo : cosmology.CosmologicalParameters K) (field out : List F) (hN1 : 1 ≤ N)
    (hN : N * N * N < 2147483648) (hfield : field.length = N * N * N)
    (hout : out.length = N * N * N) :
    poiss pi out field N Boxlength cosmo.scalefactor cosmo.OmegaM0
        = some ((List.range (N * N * N)).map fun j => field.getD j 0
            * algebraMap K F (poissonFactor pi N Boxlength cosmo.scalefactor cosmo.OmegaM0 j))
    ∧ cosmology.densityToPotential pi field N Boxlength cosmo
        = some ((List.range (N * N * N)).map fun j => field.getD j 0
            * algebraMap K F (poissonFactor pi N Boxlength cosmo.scalefactor cosmo.OmegaM0 j)) := by
  have hpos : 0 < N * N * N := by positivity
  have hget : ∀ j, j < N * N * N → field[j]? = some (field.getD j 0) := by
    intro j hj
    rw [List.getD_eq_getElem?_getD, List.getElem?_eq_getElem (by omega)]
    rfl
  constructor
  · obtain ⟨l1, he, hl1, hval⟩ := foldl_cells N
      (fun j _ => (field[j]?).map fun v =>
        -v * algebraMap K F (3 / 2 * cosmo.OmegaM0 / cosmo.scalefactor * 100 * 100
            / (3 * 100000) / (3 * 100000))
          / algebraMap K F (((signedIndexNormSq N j : Int) : K) * (2 * pi / Boxlength)
            * (2 * pi / Boxlength)))
      (fun k1 k2 k3 a => poiss.body pi field N Boxlength cosmo.scalefactor cosmo.OmegaM0
        (k1 : Int) (k2 : Int) (k3 : Int) a)
      (fun k1 k2 k3 h1 h2 h3 l hl =>
        poiss_body_cell pi field N Boxlength cosmo.scalefactor cosmo.OmegaM0 hN hfield k1 k2 k3
          h1 h2 h3 l hl) out hout
    unfold poiss
    rw [Int.toNat_natCast]
    simp only [he]
    rw [setAt_inside l1 0 0 (le_refl _) (by simpa [hl1] using hpos)]
    congr 1
    apply List.ext_getElem?
    intro j
    rw [getElem?_map_range]
    by_cases hj : j < N * N * N
    · rw [if_pos hj]
      by_cases hj0 : j = 0
      · subst hj0
        rw [Int.toNat_zero, List.getElem?_set_self (by omega)]
        simp [poissonFactor]
      · rw [Int.toNat_zero, List.getElem?_set_ne (Ne.symm hj0), hval j hj, hget j hj]
        simp only [Option.map_some', poissonFactor, if_neg hj0, map_div₀, map_neg]
        congr 1
        ring
    · rw [if_neg hj, List.getElem?_eq_none (by simp [hl1]; omega)]
  · obtain ⟨l1, he, hl1, hval⟩ := foldl_cells N
      (fun j o => o.map fun v => v * algebraMap K F
        (poissonFactor pi N Boxlength cosmo.scalefactor cosmo.OmegaM0 j))
      (fun k1 k2 k3 a => cosmology.densityToPotential.body pi N Boxlength cosmo
        (k1 : Int) (k2 : Int) (k3 : Int) a)
      (fun k1 k2 k3 h1 h2 h3 l hl =>
        densityToPotential_body_cell pi N Boxlength cosmo hN k1 k2 k3 h1 h2 h3 l hl) field hfield
    have hNlt : (N : Int) < 18446744073709551616 := by
      have h : N ≤ N * N * N := by
        calc N = N * 1 * 1 := by ring
          _ ≤ N * N * N := Nat.mul_le_mul (Nat.mul_le_mul_left N hN1) hN1
      omega
    unfold cosmology.densityToPotential
    simp only []
    rw [toSizeT_of_range _ ⟨by omega, hNlt⟩, Int.toNat_natCast, he]
    congr 1
    apply List.ext_getElem?
    intro j
    rw [getElem?_map_range]
    by_cases hj : j < N * N * N
    · rw [if_pos hj, hval j hj, hget j hj]
      rfl
    · rw [if_neg hj, List.getElem?_eq_none (by omega)]

/-- C25 (the claim fails): grid sides with `3·res² < 2^64` for which the two
functions differ. For `res = 1291` the `int` index of `poiss` for the cell
`(1290,1290,1290)` wraps to `-2143282126`, so `poiss` leaves its arrays there,
while the index of `densityToPotential` is `2151685170`, inside the field. For
`res = 2^22` the `size_t` index of `densityToPotential` for the cell `(2^20,0,0)`
wraps to 0: it takes that mode for the zero mode and sets the entry 0 of the
field to zero, where `poiss` divides the mode by `k²`. -/
theorem poiss_densityToPotential_differ_on_large_grids :
    3 * 1291 * 1291 < 18446744073709551616
    ∧ toInt32 (toInt32 (toInt32 (toInt32 (1290 * 1291) + 1290) * 1291) + 1290) = -2143282126
    ∧ (∀ (pi Boxlength a Om : ℝ) (input out : List ℂ),
        poiss.body pi input 1291 Boxlength a Om 1290 1290 1290 (some out) = none)
    ∧ toInt64 (toSizeT (toSizeT (toSizeT (toSizeT (1290 * 1291) + 1290) * 1291) + 1290))
        = 2151685170
    ∧ (2151685170 : Int) < 1291 * 1291 * 1291
    ∧ 3 * 4194304 * 4194304 < 18446744073709551616
    ∧ toInt64 (toSizeT (toSizeT (toSizeT (toSizeT (1048576 * 4194304) + 0) * 4194304) + 0)) = 0
    ∧ (∀ (pi Boxlength : ℝ) (cosmo : cosmology.CosmologicalParameters ℝ) (v : ℂ)
        (rest : List ℂ),
        cosmology.densityToPotential.body pi 4194304 Boxlength cosmo 1048576 0 0
          (some (v :: rest)) = some (0 :: rest)) := by
  have hi : toInt32 (toInt32 (toInt32 (toInt32 (1290 * 1291) + 1290) * 1291) + 1290)
      = -2143282126 := by norm_num [toInt32]
  have hd : toInt64 (toSizeT (toSizeT (toSizeT (toSizeT (1048576 * 4194304) + 0) * 4194304) + 0))
      = 0 := by norm_num [toInt64, toSizeT]
  refine ⟨by norm_num, hi, ?_, by norm_num [toInt64, toSizeT], by norm_num, by norm_num, hd, ?_⟩
  · intro pi Boxlength a Om input out
    unfold poiss.body
    simp only [hi]
    have hat : at? input (-2143282126) = none := by
      unfold at?
      rw [if_pos (by norm_num)]
    rw [hat]
  · intro pi Boxlength cosmo v rest
    unfold cosmology.densityToPotential.body
    simp only [hd]
    simp [at?, setAt]

/-- C25 (amended): for every grid side `res ≥ 1` with `res³ < 2^31` (the indices
of `poiss` are `int`s) and every Fourier-domain field of `res³` modes,
`densityToPotential`, whose index variables are unsigned (`size_t`) so that
`k − res` wraps modulo `2^64`, multiplies each mode by the same factor
`−prefac/k²` as the signed-integer legacy `poiss` and sets the zero mode to 0:
the two functions return the same array, the field with the mode `j` multiplied
by `poissonFactor j`. -/
theorem densityToPotential_eq_poiss {K : Type} [LinearOrderedField K] {F : Type} [Field F]
    [StarRing F] [Algebra K F] (pi : K) (res : Nat) (Boxlength : K)
    (cosmo : cosmology.CosmologicalParameters K) (field out : List F) (hres : 1 ≤ res)
    (hint : res * res * res < 2147483648) (hfield : field.length = res * res * res)
    (hout : out.length = res * res * res) :
    cosmology.densityToPotential pi field res Boxlength cosmo
        = poiss pi out field res Boxlength cosmo.scalefactor cosmo.OmegaM0
    ∧ cosmology.densityToPotential pi field res Boxlength cosmo
        = some ((List.range (res * res * res)).map fun j => field.getD j 0
            * algebraMap K F (poissonFactor pi res Boxlength cosmo.scalefactor cosmo.OmegaM0 j)) := by
  obtain ⟨hp, hd⟩ := poiss_densityToPotential_value pi res Boxlength cosmo field out hres hint
    hfield hout
  exact ⟨by rw [hp, hd], hd⟩

/-- C25 (witness): the grid of side 2, the eight modes `1, …, 8`, `M_PI = 3`, the
box length 1 and the cosmology `Ωm = 1`, `a = 1/2`. -/
theorem densityToPotential_eq_poiss_witness :
    1 ≤ 2 ∧ 2 * 2 * 2 < 2147483648
    ∧ ([1, 2, 3, 4, 5, 6, 7, 8] : List ℚ).length = 2 * 2 * 2
    ∧ (List.replicate 8 (0 : ℚ)).length = 2 * 2 * 2
    ∧ cosmology.densityToPotential (K := ℚ) 3 ([1, 2, 3, 4, 5, 6, 7, 8] : List ℚ) 2 1
        { OmegaM0 := 1, OmegaLambda0 := 0, OmegaBaryons0 := 0, hubble := 7 / 10, redshift := 1,
          scalefactor := 1 / 2, sigma8 := 8 / 10, ns := 1, TCMB := 27 / 10 }
      = poiss (K := ℚ) 3 (List.replicate 8 (0 : ℚ)) ([1, 2, 3, 4, 5, 6, 7, 8] : List ℚ)
          ((2 : Nat) : Int) 1 (1 / 2) 1 :=
  ⟨by decide, by decide, rfl, rfl,
    (densityToPotential_eq_poiss (K := ℚ) 3 2 1
      { OmegaM0 := 1, OmegaLambda0 := 0, OmegaBaryons0 := 0, hubble := 7 / 10, redshift := 1,
        scalefactor := 1 / 2, sigma8 := 8 / 10, ns := 1, TCMB := 27 / 10 }
      [1, 2, 3, 4, 5, 6, 7, 8] (List.replicate 8 0) (by decide) (by decide) rfl rfl).1⟩

end constr_code

/-! ## C26: `deepestLevelWithParticlesSelected` -/

namespace ICGenerator

/-- The loop of `deepestLevelWithParticlesSelected` never ends with the exception
"No level has any particles selected". -/
theorem deepestLevelFrom_exception (s : ICGenerator) (i : Nat) :
    (deepestLevelFrom s i).exception ≠ some "No level has any particles selected" := by
  induction i with
  | zero =>
    unfold deepestLevelFrom
    cases s.multiLevelContext[0]? with
    | none => simp only [Outcome.exception]; decide
    | some grid =>
      simp only []
      split_ifs
      · simp [Outcome.exception]
      · simp only [Outcome.exception]; decide
  | succ i ih =>
    unfold deepestLevelFrom
    cases s.multiLevelContext[i + 1]? with
    | none => simp only [Outcome.exception]; decide
    | some grid =>
      simp only []
      split_ifs
      · simp [Outcome.exception]
      · exact ih

/-- C26 (the code at the failing input): no call of
`deepestLevelWithParticlesSelected` ends with the exception "No level has any
particles selected". On the generator with one level (a base grid of side 2) and
no flagged cell, the loop queries the level 0 and then, its index being a
`size_t` for which `i >= 0` always holds, the level `2^64 − 1`, which lies
outside `[0, numLevels)`; the call ends there. -/
theorem deepestLevelWithParticlesSelected_never_reports_no_selection :
    (∀ s : ICGenerator, (deepestLevelWithParticlesSelected s).exception
        ≠ some "No level has any particles selected")
    ∧ freshBase.getNumLevels = 1
    ∧ freshBase.multiLevelContext.all (fun grid => !grid.hasFlaggedCells) = true
    ∧ deepestLevelWithParticlesSelected.queries freshBase = [0, 18446744073709551615]
    ∧ (deepestLevelWithParticlesSelected freshBase).exception
        = some "getGridForLevel: no such level" := by
  refine ⟨?_, by decide, by decide, by decide, by decide⟩
  intro s
  unfold deepestLevelWithParticlesSelected
  split_ifs
  · simp only [Outcome.exception]; decide
  · exact deepestLevelFrom_exception s _

/-! ## C27: the length of `zoomParticleArray` -/

/-- What `storeCurrentCellFlagsAsZoomMask` does to the length of
`zoomParticleArray` and to the list of levels, for a level `≥ 1` with
`size ≤ level ≤ size + 1`: afterwards the length is `level` when the call
returned, and it is `size` or `level` when it did not; the levels are
unchanged. -/
theorem storeCurrentCellFlagsAsZoomMask_length (s : ICGenerator) (level : Nat)
    (h1 : s.zoomParticleArray.length ≤ level) (h2 : level ≤ s.zoomParticleArray.length + 1) :
    (storeCurrentCellFlagsAsZoomMask s level).state.multiLevelContext = s.multiLevelContext
    ∧ s.zoomParticleArray.length
        ≤ (storeCurrentCellFlagsAsZoomMask s level).state.zoomParticleArray.length
    ∧ (storeCurrentCellFlagsAsZoomMask s level).state.zoomParticleArray.length ≤ level
    ∧ ((storeCurrentCellFlagsAsZoomMask s level).exception = none →
        (storeCurrentCellFlagsAsZoomMask s level).state.zoomParticleArray.length = level) := by
  unfold storeCurrentCellFlagsAsZoomMask
  by_cases h0 : level = 0
  · rw [if_pos h0]
    simp [Outcome.state, Outcome.exception]
    omega
  · rw [if_neg h0]
    simp only []
    by_cases hlt : s.zoomParticleArray.length < level
    · have hlen : (s.zoomParticleArray ++ [[]]).length = level := by
        rw [List.length_append]
        simp
        omega
      simp only [if_pos hlt, hlen, lt_irrefl, if_false]
      cases s.multiLevelContext[level - 1]? with
      | none =>
        simp [Outcome.state, Outcome.exception]
        omega
      | some grid =>
        simp [Outcome.state, Outcome.exception]
        omega
    · have hlen : s.zoomParticleArray.length = level := by omega
      simp only [if_neg hlt, hlen, lt_irrefl, if_false]
      cases s.multiLevelContext[level - 1]? with
      | none =>
        simp [Outcome.state, Outcome.exception, hlen]
      | some grid =>
        simp [Outcome.state, Outcome.exception, hlen]

/-- The function `initZoomGridWithOriginAt` on a generator with
`size ≤ numLevels ≤ size + 1`, `size` being the length of `zoomParticleArray`:
the bounds hold afterwards, and `size + 1 = numLevels` when the call returned. -/
theorem initZoomGridWithOriginAt_length (s : ICGenerator) (x0 y0 z0 : Int) (zoomfac n : Nat)
    (h1 : s.zoomParticleArray.length ≤ s.getNumLevels)
    (h2 : s.getNumLevels ≤ s.zoomParticleArray.length + 1) :
    ((initZoomGridWithOriginAt s x0 y0 z0 zoomfac n).state.zoomParticleArray.length
        ≤ (initZoomGridWithOriginAt s x0 y0 z0 zoomfac n).state.getNumLevels
      ∧ (initZoomGridWithOriginAt s x0 y0 z0 zoomfac n).state.getNumLevels
        ≤ (initZoomGridWithOriginAt s x0 y0 z0 zoomfac n).state.zoomParticleArray.length + 1)
    ∧ ((initZoomGridWithOriginAt s x0 y0 z0 zoomfac n).exception = none →
        (initZoomGridWithOriginAt s x0 y0 z0 zoomfac n).state.zoomParticleArray.length + 1
          = (initZoomGridWithOriginAt s x0 y0 z0 zoomfac n).state.getNumLevels) := by
  unfold initZoomGridWithOriginAt
  cases hlast : s.multiLevelContext.getLast? with
  | none => simp [Outcome.state, Outcome.exception, h1, h2]
  | some gridAbove =>
    have hpos : 1 ≤ s.getNumLevels := by
      unfold getNumLevels
      cases hc : s.multiLevelContext with
      | nil => rw [hc] at hlast; simp at hlast
      | cons a t => simp
    obtain ⟨hctx, hge, hle, hret⟩ := storeCurrentCellFlagsAsZoomMask_length s s.getNumLevels h1 h2
    simp only []
    cases hst : storeCurrentCellFlagsAsZoomMask s s.getNumLevels with
    | threw what s1 =>
      rw [hst] at hctx hge hle
      simp only [Outcome.state] at hctx hge hle
      simp only [Outcome.state, Outcome.exception, getNumLevels, hctx]
      unfold getNumLevels at h2 hle
      refine ⟨⟨hle, by omega⟩, fun h => by simp at h⟩
    | returned v s1 =>
      rw [hst] at hctx hge hle hret
      simp only [Outcome.state, Outcome.exception, true_implies] at hctx hge hle hret
      unfold getNumLevels at hret hpos
      simp only []
      split_ifs with hz
      · simp only [Outcome.state, Outcome.exception, getNumLevels, hctx, hret]
        refine ⟨⟨le_refl _, by omega⟩, fun h => by simp at h⟩
      · simp only [Outcome.state, Outcome.exception, getNumLevels, addLevelToContext,
          List.length_append, List.length_dropLast, List.length_singleton, hctx, hret]
        refine ⟨⟨by omega, by omega⟩, fun _ => by omega⟩

/-- The function `initZoomGrid` on a generator with `size ≤ numLevels ≤ size + 1`:
the bounds hold afterwards, and `size + 1 = numLevels` when the call returned. -/
theorem initZoomGrid_length (s : ICGenerator) (zoomfac n : Nat)
    (h1 : s.zoomParticleArray.length ≤ s.getNumLevels)
    (h2 : s.getNumLevels ≤ s.zoomParticleArray.length + 1) :
    ((initZoomGrid s zoomfac n).state.zoomParticleArray.length
        ≤ (initZoomGrid s zoomfac n).state.getNumLevels
      ∧ (initZoomGrid s zoomfac n).state.getNumLevels
        ≤ (initZoomGrid s zoomfac n).state.zoomParticleArray.length + 1)
    ∧ ((initZoomGrid s zoomfac n).exception = none →
        (initZoomGrid s zoomfac n).state.zoomParticleArray.length + 1
          = (initZoomGrid s zoomfac n).state.getNumLevels) := by
  unfold initZoomGrid
  by_cases hdrawn : s.haveInitialisedRandomComponent = true
  · rw [if_pos hdrawn]
    simp [Outcome.state, Outcome.exception, h1, h2]
  by_cases hnone : s.getNumLevels < 1
  · rw [if_neg hdrawn, if_pos hnone]
    simp [Outcome.state, Outcome.exception, h1, h2]
  · rw [if_neg hdrawn, if_neg hnone]
    cases hlast : s.multiLevelContext.getLast? with
    | none => simp [Outcome.state, Outcome.exception, h1, h2]
    | some gridAbove =>
      obtain ⟨hctx, hge, hle, hret⟩ :=
        storeCurrentCellFlagsAsZoomMask_length s s.getNumLevels h1 h2
      simp only []
      cases hst : storeCurrentCellFlagsAsZoomMask s s.getNumLevels with
      | threw what s1 =>
        rw [hst] at hctx hge hle
        simp only [Outcome.state] at hctx hge hle
        simp only [Outcome.state, Outcome.exception, getNumLevels, hctx]
        unfold getNumLevels at h2 hle
        refine ⟨⟨hle, by omega⟩, fun h => by simp at h⟩
      | returned v s1 =>
        rw [hst] at hctx hge hle hret
        simp only [Outcome.state, Outcome.exception, true_implies] at hctx hge hle hret
        have hs1 : s1.zoomParticleArray.length ≤ s1.getNumLevels
            ∧ s1.getNumLevels ≤ s1.zoomParticleArray.length + 1 := by
          unfold getNumLevels at hret ⊢
          rw [hctx, hret]
          exact ⟨le_refl _, by omega⟩
        simp only []
        split_ifs with hz hfit hwrap
        · simp only [Outcome.state, Outcome.exception]
          exact ⟨hs1, fun h => by simp at h⟩
        · simp only [Outcome.state, Outcome.exception]
          exact ⟨hs1, fun h => by simp at h⟩
        · simp only [Outcome.state, Outcome.exception]
          exact ⟨hs1, fun h => by simp at h⟩
        · exact initZoomGridWithOriginAt_length s1 _ _ _ zoomfac n hs1.1 hs1.2

/-- The function `initBaseGrid` on a generator with `size ≤ numLevels ≤ size + 1`:
the bounds hold afterwards, and `size + 1 = numLevels` when the call returned. -/
theorem initBaseGrid_length (s : ICGenerator) (boxSize : ℚ) (n : Nat)
    (h1 : s.zoomParticleArray.length ≤ s.getNumLevels)
    (h2 : s.getNumLevels ≤ s.zoomParticleArray.length + 1) :
    ((initBaseGrid s boxSize n).state.zoomParticleArray.length
        ≤ (initBaseGrid s boxSize n).state.getNumLevels
      ∧ (initBaseGrid s boxSize n).state.getNumLevels
        ≤ (initBaseGrid s boxSize n).state.zoomParticleArray.length + 1)
    ∧ ((initBaseGrid s boxSize n).exception = none →
        (initBaseGrid s boxSize n).state.zoomParticleArray.length + 1
          = (initBaseGrid s boxSize n).state.getNumLevels) := by
  unfold initBaseGrid
  by_cases hbox : boxSize > 0
  swap
  · rw [if_pos hbox]
    simp [Outcome.state, Outcome.exception, h1, h2]
  rw [if_neg (not_not.mpr hbox)]
  split_ifs with hlev hdrawn
  · simp [Outcome.state, Outcome.exception, h1, h2]
  · simp [Outcome.state, Outcome.exception, h1, h2]
  · have h0 : s.getNumLevels = 0 := by omega
    have hz : s.zoomParticleArray.length = 0 := by omega
    unfold getNumLevels at h0
    simp [Outcome.state, Outcome.exception, getNumLevels, addLevelToContext, h0, hz]

/-- Each of the three calls keeps `size ≤ numLevels ≤ size + 1`, and leaves
`size + 1 = numLevels` when it returned. -/
theorem gridCall_length (s : ICGenerator) (c : GridCall)
    (h : s.zoomParticleArray.length ≤ s.getNumLevels
      ∧ s.getNumLevels ≤ s.zoomParticleArray.length + 1) :
    ((c.run s).state.zoomParticleArray.length ≤ (c.run s).state.getNumLevels
      ∧ (c.run s).state.getNumLevels ≤ (c.run s).state.zoomParticleArray.length + 1)
    ∧ ((c.run s).exception = none →
        (c.run s).state.zoomParticleArray.length + 1 = (c.run s).state.getNumLevels) := by
  cases c with
  | initBaseGrid boxSize n => exact initBaseGrid_length s boxSize n h.1 h.2
  | initZoomGrid zoomfac n => exact initZoomGrid_length s zoomfac n h.1 h.2
  | initZoomGridWithOriginAt x0 y0 z0 zoomfac n =>
    exact initZoomGridWithOriginAt_length s x0 y0 z0 zoomfac n h.1 h.2

/-- A sequence of calls keeps `size ≤ numLevels ≤ size + 1`. -/
theorem runCalls_length (calls : List GridCall) :
    ∀ s : ICGenerator, (s.zoomParticleArray.length ≤ s.getNumLevels
        ∧ s.getNumLevels ≤ s.zoomParticleArray.length + 1) →
      (runCalls s calls).zoomParticleArray.length ≤ (runCalls s calls).getNumLevels
        ∧ (runCalls s calls).getNumLevels ≤ (runCalls s calls).zoomParticleArray.length + 1 := by
  induction calls with
  | nil => intro s h; exact h
  | cons c t ih =>
    intro s h
    unfold runCalls
    rw [List.foldl_cons]
    exact ih _ (gridCall_length s c h).1

/-- C27 (the claim fails): a generator with one level (a base grid of side 4),
the cells `(0,0,0)` and `(3,0,0)` flagged, no stored flag list, strays not
allowed. The call `initZoomGrid(2, 4)` stores the flag list, then throws, the
cells spanning more than `4/2` parent cells: afterwards there is still one level
and `zoomParticleArray` holds one list, not `numLevels − 1 = 0`. -/
theorem initZoomGrid_failure_keeps_stored_mask :
    baseWithFarFlags.getNumLevels = 1
    ∧ baseWithFarFlags.zoomParticleArray.length = 0
    ∧ ((GridCall.initZoomGrid 2 4).run baseWithFarFlags).exception
        = some ("Zoom particles do not fit in specified sub-box. Decrease zoom, or choose "
            ++ "different particles. (NB wrapping not yet implemented)")
    ∧ (runCalls baseWithFarFlags [GridCall.initZoomGrid 2 4]).getNumLevels = 1
    ∧ (runCalls baseWithFarFlags [GridCall.initZoomGrid 2 4]).zoomParticleArray = [[0, 48]] := by
  decide!

/-- C27 (amended): after every sequence of `initBaseGrid`, `initZoomGrid` and
`initZoomGridWithOriginAt` calls, some of which may have failed, made on a
generator with `size ≤ numLevels ≤ size + 1` (a new generator, or one left by such
calls, whatever cells are flagged), `zoomParticleArray.size()` is `numLevels − 1`
or `numLevels`; and after a further call that returns it is `numLevels − 1`. -/
theorem zoomParticleArray_length_bounds (s : ICGenerator) (calls : List GridCall)
    (h : s.zoomParticleArray.length ≤ s.getNumLevels
      ∧ s.getNumLevels ≤ s.zoomParticleArray.length + 1) :
    ((runCalls s calls).zoomParticleArray.length ≤ (runCalls s calls).getNumLevels
      ∧ (runCalls s calls).getNumLevels ≤ (runCalls s calls).zoomParticleArray.length + 1)
    ∧ ∀ c : GridCall, (c.run (runCalls s calls)).exception = none →
        (c.run (runCalls s calls)).state.zoomParticleArray.length + 1
          = (c.run (runCalls s calls)).state.getNumLevels :=
  ⟨runCalls_length calls s h,
    fun c => (gridCall_length (runCalls s calls) c (runCalls_length calls s h)).2⟩

/-- C27 (witness): the generator with the base grid of side 4 and the failed call
`initZoomGrid(2, 4)`. -/
theorem zoomParticleArray_length_bounds_witness :
    (baseWithFarFlags.zoomParticleArray.length ≤ baseWithFarFlags.getNumLevels
      ∧ baseWithFarFlags.getNumLevels ≤ baseWithFarFlags.zoomParticleArray.length + 1)
    ∧ ((runCalls baseWithFarFlags [GridCall.initZoomGrid 2 4]).zoomParticleArray.length
        ≤ (runCalls baseWithFarFlags [GridCall.initZoomGrid 2 4]).getNumLevels
      ∧ (runCalls baseWithFarFlags [GridCall.initZoomGrid 2 4]).getNumLevels
        ≤ (runCalls baseWithFarFlags [GridCall.initZoomGrid 2 4]).zoomParticleArray.length + 1) :=
  ⟨by decide,
    (zoomParticleArray_length_bounds baseWithFarFlags [GridCall.initZoomGrid 2 4]
      (by decide)).1⟩

end ICGenerator

/-! ## C28: `calcConstraintVector` for an unknown name -/

namespace constr_code

end constr_code

/-! ## C29: the growth factor of the Einstein–de Sitter cosmology -/

namespace constr_code

/-- The function `D` for `Ωm = 1`, `ΩΛ = 0` and a scale factor `a > 0`. -/
theorem D_einstein_de_sitter (a : ℝ) (ha : 0 < a) : D Real.rpow a 1 0 = a := by
  have h3 : Real.rpow a 3 = a ^ 3 := by
    rw [Real.rpow_eq_pow, show (3 : ℝ) = ((3 : ℕ) : ℝ) by norm_num, Real.rpow_natCast]
  have hne : a ≠ 0 := ha.ne'
  have hH : (1 : ℝ) / a ^ 3 + (1 - 1 - 0) / a / a + 0 = 1 / a ^ 3 := by
    field_simp
  have harg : (1 : ℝ) / (1 / a ^ 3) / a / a / a = 1 := by
    field_simp
    ring
  unfold D
  simp only [h3, hH]
  rw [harg, Real.rpow_eq_pow, Real.one_rpow]
  field_simp
  ring

end constr_code

namespace cosmology

/-- C29: for the Einstein–de Sitter cosmology `Ωm = 1`, `ΩΛ = 0` and every scale
factor `a > 0`, `growthFactor` and the legacy `D`, which has the same body,
return exactly `a` over the reals, and the growth normalised to today,
`D(a)/D(1)`, equals `a`. -/
theorem growthFactor_einstein_de_sitter (cosmo : CosmologicalParameters ℝ)
    (hOm : cosmo.OmegaM0 = 1) (hOl : cosmo.OmegaLambda0 = 0) (ha : 0 < cosmo.scalefactor) :
    growthFactor Real.rpow cosmo = cosmo.scalefactor
    ∧ constr_code.D Real.rpow cosmo.scalefactor cosmo.OmegaM0 cosmo.OmegaLambda0
        = cosmo.scalefactor
    ∧ constr_code.main.grwfac Real.rpow cosmo.scalefactor cosmo.OmegaM0 cosmo.OmegaLambda0
        = cosmo.scalefactor := by
  have hD := constr_code.D_einstein_de_sitter cosmo.scalefactor ha
  have hD1 := constr_code.D_einstein_de_sitter 1 one_pos
  refine ⟨?_, ?_, ?_⟩
  · have e : growthFactor Real.rpow cosmo
        = constr_code.D Real.rpow cosmo.scalefactor cosmo.OmegaM0 cosmo.OmegaLambda0 := rfl
    rw [e, hOm, hOl, hD]
  · rw [hOm, hOl, hD]
  · unfold constr_code.main.grwfac
    rw [hOm, hOl, hD, hD1, div_one]

/-- C29 (witness): the redshift 1, scale factor `a = 1/2`. -/
theorem growthFactor_einstein_de_sitter_witness :
    (1 : ℝ) = 1 ∧ (0 : ℝ) = 0 ∧ (0 : ℝ) < 1 / 2
    ∧ growthFactor Real.rpow
        { OmegaM0 := 1, OmegaLambda0 := 0, OmegaBaryons0 := 0, hubble := 7 / 10, redshift := 1,
          scalefactor := 1 / 2, sigma8 := 8 / 10, ns := 1, TCMB := 27 / 10 } = 1 / 2 :=
  ⟨rfl, rfl, by norm_num,
    (growthFactor_einstein_de_sitter
      { OmegaM0 := 1, OmegaLambda0 := 0, OmegaBaryons0 := 0, hubble := 7 / 10, redshift := 1,
        scalefactor := 1 / 2, sigma8 := 8 / 10, ns := 1, TCMB := 27 / 10 }
      rfl rfl (by norm_num)).1⟩

end cosmology

/-! ## C30: the sum of the covector under `cen_deriv4_alpha` -/

namespace constr_code

/-- The first loop of `check_pbc_grid` brings a non-negative index into
`[0, size - 1]`. -/
theorem wrapDown_range (size : Int) (hs : 1 ≤ size) (fuel : Nat) :
    ∀ x : Int, 0 ≤ x → x ≤ fuel → 0 ≤ wrapDown size fuel x ∧ wrapDown size fuel x ≤ size - 1 := by
  induction fuel with
  | zero =>
    intro x h0 h1
    have : x = 0 := by omega
    subst this
    simp only [wrapDown]
    exact ⟨le_refl _, by omega⟩
  | succ fuel ih =>
    intro x h0 h1
    unfold wrapDown
    split_ifs with h
    · exact ih (x - size) (by omega) (by push_cast at h1; omega)
    · exact ⟨h0, by omega⟩

/-- The second loop of `check_pbc_grid` brings an index below `size` into
`[0, size)`. -/
theorem wrapUp_range (size : Int) (hs : 1 ≤ size) (fuel : Nat) :
    ∀ x : Int, -x ≤ fuel → x < size → 0 ≤ wrapUp size fuel x ∧ wrapUp size fuel x < size := by
  induction fuel with
  | zero =>
    intro x h0 h1
    exact ⟨by simpa [wrapUp] using h0, h1⟩
  | succ fuel ih =>
    intro x h0 h1
    unfold wrapUp
    split_ifs with h
    · exact ih (x + size) (by push_cast at h0; omega) (by omega)
    · exact ⟨by omega, h1⟩

/-- On a grid of side `size ≥ 1`, `check_pbc_grid` brings every index into
`[0, size)`. -/
theorem check_pbc_range (size : Int) (hs : 1 ≤ size) (x : Int) :
    0 ≤ check_pbc size x ∧ check_pbc size x < size := by
  unfold check_pbc
  simp only
  by_cases hx : 0 ≤ x
  · obtain ⟨h0, h1⟩ := wrapDown_range size hs x.natAbs x hx (by omega)
    rw [wrapUp_of_nonneg size _ _ h0]
    exact ⟨h0, by omega⟩
  · rw [wrapDown_of_le size _ x (by omega)]
    exact wrapUp_range size hs x.natAbs x (by omega) (by omega)

/-- The index `(x*n+y)*n+z` of a cell with `0 ≤ x, y, z < n` lies in `[0, n³)`. -/
theorem get_index_range (n x y z : Int) (hx : 0 ≤ x ∧ x < n) (hy : 0 ≤ y ∧ y < n)
    (hz : 0 ≤ z ∧ z < n) : 0 ≤ (x * n + y) * n + z ∧ (x * n + y) * n + z < n * n * n := by
  have hn : 0 ≤ n := by omega
  have h1 : 0 ≤ x * n := mul_nonneg hx.1 hn
  have h2 : x * n ≤ (n - 1) * n := mul_le_mul_of_nonneg_right (by omega) hn
  have h3 : 0 ≤ (x * n + y) * n := mul_nonneg (by omega) hn
  have h4 : (x * n + y) * n ≤ ((n - 1) * n + (n - 1)) * n :=
    mul_le_mul_of_nonneg_right (by omega) hn
  have e : ((n - 1) * n + (n - 1)) * n = n * n * n - n := by ring
  constructor
  · omega
  · omega

/-- On the grid of side `n`, `find_next_ind` finds for every cell and every step
a cell of the table. -/
theorem find_next_ind_range (n : Nat) (index : Int) (step : Int × Int × Int)
    (hidx : 0 ≤ index ∧ index < n * n * n) :
    ∃ j : Int, (Grid.new n).find_next_ind index step = some j ∧ 0 ≤ j ∧ j < n * n * n := by
  have hn : (1 : Int) ≤ n := by
    by_contra h
    have h0 : (n : Int) = 0 := by omega
    rw [h0] at hidx
    omega
  have hlen : index.toNat < (Grid.new n).cells.length := by
    rw [length_cells]
    have : ((n * n * n : Nat) : Int) = (n : Int) * n * n := by push_cast; ring
    omega
  unfold Grid.find_next_ind at?
  rw [if_neg (by omega), List.getElem?_eq_getElem hlen]
  have hs : (Grid.new n).size = n := rfl
  simp only [Option.map_some', Grid.check_pbc_grid, Grid.get_index, hs]
  exact ⟨_, rfl, get_index_range n _ _ _ (check_pbc_range n hn _) (check_pbc_range n hn _)
    (check_pbc_range n hn _)⟩

/-- Replacing the entry `i` of a list by itself plus `v` adds `v` to the sum. -/
theorem sum_set_add {F : Type} [Field F] (v : F) :
    ∀ (alpha : List F) (i : Nat) (old : F), alpha[i]? = some old →
      (alpha.set i (old + v)).sum = alpha.sum + v := by
  intro alpha
  induction alpha with
  | nil => intro i old h; simp at h
  | cons a0 alpha ih =>
    intro i old h
    cases i with
    | zero =>
      simp only [List.getElem?_cons_zero, Option.some.injEq] at h
      subst h
      simp only [List.set_cons_zero, List.sum_cons]
      ring
    | succ i =>
      simp only [List.getElem?_cons_succ] at h
      simp only [List.set_cons_succ, List.sum_cons]
      rw [ih i old h]
      ring

/-- The statement `alpha[ind] += v` at an index inside the array: it succeeds,
keeps the length, and adds `v` to the sum of the entries. -/
theorem addAt_sum {F : Type} [Field F] [StarRing F] (alpha : List F) (ind : Int) (v : F)
    (m : Nat) (hlen : alpha.length = m) (hind : 0 ≤ ind ∧ ind < m) :
    ∃ alpha1, addAt alpha ind v = some alpha1 ∧ alpha1.length = m
      ∧ alpha1.sum = alpha.sum + v := by
  cases hold : alpha[ind.toNat]? with
  | none =>
    rw [List.getElem?_eq_none_iff] at hold
    omega
  | some old =>
    refine ⟨alpha.set ind.toNat (old + v), ?_, ?_, ?_⟩
    · have hneg : ¬ ind < 0 := by omega
      simp [addAt, at?, hneg, hold]
    · simp [hlen]
    · exact sum_set_add v alpha ind.toNat old hold

/-- One half of `cen_deriv4_alpha` on the grid of side `n`: the four neighbours
are found, the four statements `alpha[..] += ..` succeed, and the sum of the
entries is unchanged, the weights `w·a`, `w·b`, `-w·b`, `-w·a` adding up to
zero. -/
theorem stencilAlong_sum {K : Type} [LinearOrderedField K] {F : Type} [Field F] [StarRing F]
    [Algebra K F] (n : Nat) (index : Int) (alpha : List F) (d : Int) (w a b : K)
    (hidx : 0 ≤ index ∧ index < n * n * n) (hlen : alpha.length = n * n * n) :
    ∃ alpha1, stencilAlong (Grid.new n) index alpha d w a b = some alpha1
      ∧ alpha1.length = n * n * n ∧ alpha1.sum = alpha.sum := by
  have hcast : ((n * n * n : Nat) : Int) = (n : Int) * n * n := by push_cast; ring
  obtain ⟨m1, hm1, hm1r⟩ := find_next_ind_range n index (stepAlong d (-1)) hidx
  obtain ⟨p1, hp1, hp1r⟩ := find_next_ind_range n index (stepAlong d 1) hidx
  obtain ⟨m2, hm2, hm2r⟩ := find_next_ind_range n m1 (stepAlong d (-1)) hm1r
  obtain ⟨p2, hp2, hp2r⟩ := find_next_ind_range n p1 (stepAlong d 1) hp1r
  obtain ⟨a1, ha1, hl1, hs1⟩ := addAt_sum alpha m2 (algebraMap K F (w * a)) (n * n * n) hlen
    (by omega)
  obtain ⟨a2, ha2, hl2, hs2⟩ := addAt_sum a1 m1 (algebraMap K F (w * b)) (n * n * n) hl1
    (by omega)
  obtain ⟨a3, ha3, hl3, hs3⟩ := addAt_sum a2 p1 (algebraMap K F (-w * b)) (n * n * n) hl2
    (by omega)
  obtain ⟨a4, ha4, hl4, hs4⟩ := addAt_sum a3 p2 (algebraMap K F (-w * a)) (n * n * n) hl3
    (by omega)
  refine ⟨a4, ?_, hl4, ?_⟩
  · unfold stencilAlong
    simp only [hm1, hp1, hm2, hp2, ha1, ha2, ha3, ha4, Option.bind_eq_bind, Option.some_bind]
  · rw [hs4, hs3, hs2, hs1]
    have e : algebraMap K F (w * a) + algebraMap K F (w * b) + algebraMap K F (-w * b)
        + algebraMap K F (-w * a) = 0 := by
      rw [← map_add, ← map_add, ← map_add]
      have : w * a + w * b + -w * b + -w * a = 0 := by ring
      rw [this, map_zero]
    calc alpha.sum + algebraMap K F (w * a) + algebraMap K F (w * b) + algebraMap K F (-w * b)
          + algebraMap K F (-w * a)
        = alpha.sum + (algebraMap K F (w * a) + algebraMap K F (w * b)
          + algebraMap K F (-w * b) + algebraMap K F (-w * a)) := by ring
      _ = alpha.sum := by rw [e, add_zero]

/-- C30: for every grid side `N ≥ 1`, every cell of the grid, every axis
`direc ∈ {0,1,2}` and every centre, `cen_deriv4_alpha` returns, keeps the length
of `alpha` and leaves the sum `Σ_i alpha[i]` unchanged: the eight stencil weights
cancel, also when neighbours coincide on small periodic grids. -/
theorem cen_deriv4_alpha_keeps_sum {K : Type} [LinearOrderedField K] {F : Type} [Field F]
    [StarRing F] [Algebra K F] (n : Nat) (index : Int) (alpha : List F) (dx : K) (direc : Int)
    (xc yc zc boxlen : K) (hidx : 0 ≤ index ∧ index < n * n * n)
    (hlen : alpha.length = n * n * n) (hdirec : direc = 0 ∨ direc = 1 ∨ direc = 2) :
    ∃ alpha1, cen_deriv4_alpha (Grid.new n) index alpha dx direc xc yc zc boxlen = some alpha1
      ∧ alpha1.length = n * n * n ∧ alpha1.sum = alpha.sum := by
  have hcells : index.toNat < (Grid.new n).cells.length := by
    rw [length_cells]
    have : ((n * n * n : Nat) : Int) = (n : Int) * n * n := by push_cast; ring
    omega
  have hat : at? (Grid.new n).cells index
      = some ((Grid.new n).cells.get ⟨index.toNat, hcells⟩) := by
    unfold at?
    rw [if_neg (by omega), List.getElem?_eq_getElem hcells]
    rfl
  unfold cen_deriv4_alpha
  rw [hat]
  simp only []
  rcases hdirec with rfl | rfl | rfl
  · simp only [if_true]
    obtain ⟨a1, h1, hl1, hs1⟩ := stencilAlong_sum (F := F) n index alpha 2
      (cellDisplacement ((Grid.new n).cells.get ⟨index.toNat, hcells⟩) dx xc yc zc boxlen).2.1
      (-1 / 12 / dx) (2 / 3 / dx) hidx hlen
    obtain ⟨a2, h2, hl2, hs2⟩ := stencilAlong_sum (F := F) n index a1 1
      (-(cellDisplacement ((Grid.new n).cells.get ⟨index.toNat, hcells⟩) dx xc yc zc
        boxlen).2.2)
      (-1 / 12 / dx) (2 / 3 / dx) hidx hl1
    rw [h1]
    exact ⟨a2, h2, hl2, by rw [hs2, hs1]⟩
  · simp only [show ((1 : Int) = 0) = False from by decide, if_false, if_true]
    obtain ⟨a1, h1, hl1, hs1⟩ := stencilAlong_sum (F := F) n index alpha 0
      (cellDisplacement ((Grid.new n).cells.get ⟨index.toNat, hcells⟩) dx xc yc zc boxlen).2.2
      (-1 / 12 / dx) (2 / 3 / dx) hidx hlen
    obtain ⟨a2, h2, hl2, hs2⟩ := stencilAlong_sum (F := F) n index a1 2
      (-(cellDisplacement ((Grid.new n).cells.get ⟨index.toNat, hcells⟩) dx xc yc zc
        boxlen).1)
      (-1 / 12 / dx) (2 / 3 / dx) hidx hl1
    rw [h1]
    exact ⟨a2, h2, hl2, by rw [hs2, hs1]⟩
  · simp only [show ((2 : Int) = 0) = False from by decide,
      show ((2 : Int) = 1) = False from by decide, if_false, if_true]
    obtain ⟨a1, h1, hl1, hs1⟩ := stencilAlong_sum (F := F) n index alpha 1
      (cellDisplacement ((Grid.new n).cells.get ⟨index.toNat, hcells⟩) dx xc yc zc boxlen).1
      (-1 / 12 / dx) (2 / 3 / dx) hidx hlen
    obtain ⟨a2, h2, hl2, hs2⟩ := stencilAlong_sum (F := F) n index a1 0
      (-(cellDisplacement ((Grid.new n).cells.get ⟨index.toNat, hcells⟩) dx xc yc zc
        boxlen).2.1)
      (-1 / 12 / dx) (2 / 3 / dx) hidx hl1
    rw [h1]
    exact ⟨a2, h2, hl2, by rw [hs2, hs1]⟩

/-- C30 (witness): the grid of side 3, its central cell `(1,1,1)` (index 13), the
covector `(0, 1, …, 26)`, `dx = 1`, the box length 3, the centre `(0,0,0)` and
the axis 0. The displacement is `(1,1,1)`; on a grid of side 3 the neighbours two
cells away coincide with the nearest ones on the other side, so the cells 12 and
16 get `2/3 + 1/12 = 3/4` and the cells 10 and 14 get `−3/4`: the covector
changes and its sum, 351, does not. -/
theorem cen_deriv4_alpha_keeps_sum_witness :
    ((0 : Int) ≤ 13 ∧ (13 : Int) < ((3 : Nat) : Int) * ((3 : Nat) : Int) * ((3 : Nat) : Int))
    ∧ ((List.range 27).map fun i => (i : ℚ)).length = 3 * 3 * 3
    ∧ ((0 : Int) = 0 ∨ (0 : Int) = 1 ∨ (0 : Int) = 2)
    ∧ cen_deriv4_alpha (K := ℚ) (Grid.new 3) 13 ((List.range 27).map fun i => (i : ℚ)) 1 0 0 0 0 3
        = some [0, 1, 2, 3, 4, 5, 6, 7, 8, 9, 37 / 4, 11, 51 / 4, 13, 53 / 4, 15, 67 / 4, 17, 18,
            19, 20, 21, 22, 23, 24, 25, 26]
    ∧ ((List.range 27).map fun i => (i : ℚ)).sum = 351
    ∧ ∃ alpha1,
      cen_deriv4_alpha (K := ℚ) (Grid.new 3) 13 ((List.range 27).map fun i => (i : ℚ)) 1 0 0 0 0 3
        = some alpha1
      ∧ alpha1.length = 3 * 3 * 3
      ∧ alpha1.sum = ((List.range 27).map fun i => (i : ℚ)).sum :=
  ⟨by decide, by decide, Or.inl rfl, by decide!, by decide!,
    cen_deriv4_alpha_keeps_sum (K := ℚ) 3 13 ((List.range 27).map fun i => (i : ℚ)) 1 0 0 0 0 3
      (by decide) (by decide) (Or.inl rfl)⟩

end constr_code
